import Mathlib

/-!
# Code generation of the q compiler: a shallow embedding

The development follows the Go sources of the `build` package:

* `token/Kind.go`      : token kinds
* `State.go`           : `TokenToRegister`, `ExpressionToRegister`, `Assignment`, `Call`,
                         `CompileInstructions`, `UnknownFunctionError`
* `If.go`              : `IfStart`, `Condition`, `IfFalseJump`, `IfEnd`
* `Call.go`            : `CallExpression`, `BeforeCall`, `AfterCall`
* `Builtin.go`         : the table of builtin functions
* `Compile.go`         : `Compile`, `declareParameters`
* `Scan.go`            : `Scan`
* `instruction/FromTokens.go` : `FromTokens`

Go pointers are addresses (natural numbers) into explicit stores kept in the
compiler state; a `nil` pointer is `none`.  A Go function that returns an
`error` while mutating its receiver returns here the pair of its outcome and
the state it leaves behind; a Go run-time panic is an outcome of its own.
-/

namespace build

/-! ## Tokens (`token/Kind.go`) -/

namespace token

/-- The type of a token, `token.Kind`.  The kind `Comment` is the one
`Scan.go` and `instruction/FromTokens.go` name in addition to the kinds
`Kind.go` lists. -/
inductive Kind where
  | Invalid
  | NewLine
  | Identifier
  | Keyword
  | Text
  | Number
  | Operator
  | Separator
  | GroupStart
  | GroupEnd
  | BlockStart
  | BlockEnd
  | Comment
  deriving DecidableEq, Repr

/-- A token: its kind, its position and the bytes of the source it covers. -/
structure Token where
  Kind : Kind
  Position : Nat
  Bytes : String
  deriving DecidableEq, Repr

/-- The method `Token.Text()`: the bytes of the token as a string. -/
def Token.Text (t : Token) : String := t.Bytes

end token

/-! ## Go library functions used by the sources -/

namespace strconv

/-- Value of a run of decimal digits, most significant first; `none` when a
character is not a decimal digit. -/
def digits : List Char → Nat → Option Nat
  | [], acc => some acc
  | c :: cs, acc => if c.isDigit then digits cs (10 * acc + (c.toNat - 48)) else none

/-- Magnitude of a decimal numeral; the empty numeral is refused. -/
def magnitude : List Char → Option Nat
  | [] => none
  | c :: cs => digits (c :: cs) 0

/-- The function `strconv.ParseInt(s, 10, 64)`: an optional sign followed by
decimal digits; values outside the range of `int64` are an error. -/
def ParseInt (s : String) : Option Int :=
  match s.data with
  | '-' :: cs =>
    match magnitude cs with
    | some n => if n ≤ 2 ^ 63 then some (-(n : Int)) else none
    | none => none
  | '+' :: cs =>
    match magnitude cs with
    | some n => if n < 2 ^ 63 then some (n : Int) else none
    | none => none
  | cs =>
    match magnitude cs with
    | some n => if n < 2 ^ 63 then some (n : Int) else none
    | none => none

end strconv

/-- The Go conversion `uint64(number)` of an `int64`. -/
def uint64 (number : Int) : Nat := (number % 2 ^ 64).toNat

/-- The Go conversion to `int32` after an addition, as done by
`atomic.AddInt32`. -/
def int32 (n : Int) : Int := (n + 2 ^ 31) % 2 ^ 32 - 2 ^ 31

/-! ## The assembler (`github.com/akyoto/asm`) -/

namespace asm

/-- One entry of the instruction stream; registers are named by their
address in the register manager. -/
inductive Instruction where
  | Label (name : String)
  | MoveRegisterRegister (destination source : Nat)
  | MoveRegisterNumber (destination number : Nat)
  | MoveRegisterAddress (destination address : Nat)
  | AddRegisterRegister (destination source : Nat)
  | AddRegisterNumber (destination number : Nat)
  | CompareRegisterRegister (left right : Nat)
  | CompareRegisterNumber (left number : Nat)
  | Println (text : String)
  | Call (name : String)
  | Syscall
  | Return
  | JumpIfEqual (label : String)
  | JumpIfNotEqual (label : String)
  | JumpIfLess (label : String)
  | JumpIfLessOrEqual (label : String)
  | JumpIfGreater (label : String)
  | JumpIfGreaterOrEqual (label : String)
  deriving DecidableEq, Repr

/-- The assembler: the instructions emitted so far and the string pool. -/
structure Assembler where
  Instructions : List Instruction
  Strings : List String
  deriving DecidableEq, Repr

/-- Appends one instruction to the stream. -/
def Assembler.emit (a : Assembler) (i : Instruction) : Assembler :=
  { a with Instructions := a.Instructions ++ [i] }

/-- The method `AddString`: appends to the pool; the handle returned is the
index of the new entry. -/
def Assembler.AddString (a : Assembler) (text : String) : Nat × Assembler :=
  (a.Strings.length, { a with Strings := a.Strings ++ [text] })

end asm

/-! ## The target machine: 64-bit registers and compare flags -/

namespace machine

/-- A register file: the 64-bit value held by each register. -/
abbrev Registers := Nat → Nat

/-- Effect of one data-movement or addition instruction on the register
file, in 64-bit two's complement. -/
def step (m : Registers) : asm.Instruction → Registers
  | .MoveRegisterRegister d s => Function.update m d (m s)
  | .MoveRegisterNumber d n => Function.update m d (n % 2 ^ 64)
  | .AddRegisterRegister d s => Function.update m d ((m d + m s) % 2 ^ 64)
  | .AddRegisterNumber d n => Function.update m d ((m d + n) % 2 ^ 64)
  | _ => m

/-- Runs a straight-line instruction sequence. -/
def run (m : Registers) (code : List asm.Instruction) : Registers :=
  code.foldl step m

/-- The flags a 64-bit `cmp` leaves behind. -/
structure Flags where
  ZF : Bool
  SF : Bool
  OF : Bool
  deriving DecidableEq, Repr

/-- Wraps an integer to the signed 64-bit range. -/
def wrap64 (n : Int) : Int := (n + 2 ^ 63) % 2 ^ 64 - 2 ^ 63

/-- Flags after `cmp a, b`: the subtraction `a - b` is computed in 64 bits. -/
def compare (a b : Int) : Flags :=
  { ZF := decide (wrap64 (a - b) = 0)
    SF := decide (wrap64 (a - b) < 0)
    OF := decide (wrap64 (a - b) ≠ a - b) }

/-- Whether a jump instruction is taken under the given flags
(`je`, `jne`, `jl`, `jle`, `jg`, `jge`). -/
def taken (f : Flags) : asm.Instruction → Bool
  | .JumpIfEqual _ => f.ZF
  | .JumpIfNotEqual _ => !f.ZF
  | .JumpIfLess _ => f.SF != f.OF
  | .JumpIfLessOrEqual _ => f.ZF || (f.SF != f.OF)
  | .JumpIfGreater _ => !f.ZF && (f.SF == f.OF)
  | .JumpIfGreaterOrEqual _ => f.SF == f.OF
  | _ => false

end machine

/-! ## Expressions (package `expression`) -/

namespace expression

/-- An expression node: its token (`Value` in `State.go`, `Token` in
`Call.go`), its children and the register chosen for it during lowering. -/
inductive Expression where
  | mk (Token : token.Token) (Children : List Expression) (Register : Option Nat)

namespace Expression

/-- The token of the node. -/
def Token : Expression → token.Token
  | .mk t _ _ => t

/-- The children of the node. -/
def Children : Expression → List Expression
  | .mk _ cs _ => cs

/-- The register of the node. -/
def Register : Expression → Option Nat
  | .mk _ _ r => r

/-- The assignment `expr.Register = register`. -/
def setRegister : Expression → Option Nat → Expression
  | .mk t cs _, r => .mk t cs r

/-- Modelled from the spec: `Expression.IsLeaf` is not among the source
files; a leaf holds one token and has no children. -/
def IsLeaf (e : Expression) : Bool := e.Children.isEmpty

end Expression

end expression

/-! ## Registers (package `register`) -/

namespace register

/-- The holder of a register: a pointer to a variable, or a pointer to an
expression node (identified by the token of the node). -/
inductive User where
  | Variable (address : Nat)
  | Expression (Token : token.Token)
  deriving DecidableEq, Repr

/-- The error `register.ErrAlreadyInUse`. -/
structure ErrAlreadyInUse where
  Register : Nat
  UsedBy : User
  deriving DecidableEq, Repr

/-- Modelled from the spec: package `register` is not among the source files.
The manager owns the ordered pool of registers (`Registers`) and the three
derived sequences; every register carries a single optional user.  Which
registers the sequences hold is left open. -/
structure Manager where
  Registers : List Nat
  Syscall : List Nat
  Call : List Nat
  ReturnValue : List Nat
  user : Nat → Option User

/-- Modelled from the spec: `FindFreeRegister` is not among the source files;
it iterates in declared order and returns the first register whose user is
unset, or none. -/
def Manager.FindFreeRegister (m : Manager) : Option Nat :=
  m.Registers.find? fun r => (m.user r).isNone

/-- Modelled from the spec: `Register.Use` is not among the source files; it
succeeds if the register is free and otherwise fails with `AlreadyInUse`
carrying the existing user. -/
def Manager.Use (m : Manager) (r : Nat) (u : User) : Option ErrAlreadyInUse × Manager :=
  match m.user r with
  | none => (none, { m with user := Function.update m.user r (some u) })
  | some existing => (some { Register := r, UsedBy := existing }, m)

/-- Modelled from the spec: `Register.Free` is not among the source files; it
unconditionally clears the user. -/
def Manager.Free (m : Manager) (r : Nat) : Manager :=
  { m with user := Function.update m.user r none }

end register

/-! ## Errors and outcomes -/

/-- The errors the call and expression lowering return. -/
inductive Error where
  /-- The value of `state.UnknownFunctionError(functionName)`; its message
  and suggestion are computed there. -/
  | UnknownFunction (functionName : String)
  /-- The error `errors.ParameterCount`. -/
  | ParameterCount (FunctionName : String) (CountGiven CountRequired : Nat)
  /-- The error `errors.ExceededMaxVariables`. -/
  | ExceededMaxVariables
  /-- A `*register.ErrAlreadyInUse` returned as an `error`. -/
  | AlreadyInUse (err : register.ErrAlreadyInUse)
  /-- An error made by `fmt.Errorf`. -/
  | Errorf (message : String)
  /-- An error made by `state.Error` or `state.Errorf` at a token position. -/
  | At (position : Nat) (message : String)
  /-- An error made by `errors.New` of the Go library. -/
  | New (message : String)
  /-- The error `errors.UnknownVariable`. -/
  | UnknownVariable (VariableName : String)
  /-- The error `errors.ImmutableVariable`. -/
  | ImmutableVariable (VariableName : String)
  /-- The error `errors.UnnecessaryNewlines` as `NewError` wraps it: the path
  of the file and the tokens up to the place of the error. -/
  | UnnecessaryNewlines (path : String) (tokens : List token.Token)
  /-- The error `errors.TopLevel` as `NewError` wraps it. -/
  | TopLevel (path : String) (tokens : List token.Token)
  deriving DecidableEq, Repr

/-- How a Go call ends: it returns `nil`, returns an error, or panics. -/
inductive Outcome where
  | ok
  | error (err : Error)
  | panic (message : String)
  deriving DecidableEq, Repr

/-- The message of a nil pointer dereference. -/
def nilDereference : String := "invalid memory address or nil pointer dereference"

/-- The message of an index that is out of range. -/
def indexOutOfRange : String := "index out of range"

/-! ## Variables, scopes, functions, environment -/

/-- A local variable or function parameter (`Variable.go`, with the fields
`Position` and `AliveUntil` that `State.go` uses). -/
structure Variable where
  Name : String
  Position : Nat
  Mutable : Bool
  TimesUsed : Nat
  AliveUntil : Nat
  Register : Option Nat
  deriving DecidableEq, Repr

/-- Modelled from the spec: `ScopeStack` is not among the source files; a
stack of scopes, innermost first, each a list of pointers to variables. -/
structure ScopeStack where
  scopes : List (List Nat)
  deriving DecidableEq, Repr

/-- Modelled from the spec: `ScopeStack.Get` is not among the source files;
it searches innermost-out and returns null if the name is absent. -/
def ScopeStack.Get (stack : ScopeStack) (store : Nat → Variable) (name : String) :
    Option Nat :=
  stack.scopes.flatten.find? fun v => (store v).Name == name

/-- A declared parameter of a function. -/
structure Parameter where
  Name : String
  Type_ : Option String
  deriving DecidableEq, Repr

/-- A function, with the fields `Builtin.go` and `Call.go` use, and the flag
`Used` that `State.go` sets. -/
structure Function where
  Name : String
  Parameters : List Parameter
  ReturnTypes : List String
  NoParameterCheck : Bool
  IsBuiltin : Bool
  SideEffects : Int
  CallCount : Int
  Used : Bool := false
  deriving DecidableEq, Repr

/-- The environment: user functions by name, as pointers to functions. -/
structure Environment where
  Functions : List (String × Nat)
  deriving DecidableEq, Repr

/-! ## Builtins (`Builtin.go`) -/

/-- Name of the syscall builtin. -/
def BuiltinSyscall : String := "syscall"

/-- Name of the print builtin. -/
def BuiltinPrint : String := "print"

/-- Name of the store builtin. -/
def BuiltinStore : String := "store"

/-- The function object of `print`. -/
def printFunction : Function :=
  { Name := BuiltinPrint
    Parameters := [{ Name := "text", Type_ := some "Text" }]
    ReturnTypes := []
    NoParameterCheck := false
    IsBuiltin := true
    SideEffects := 1
    CallCount := 0 }

/-- The function object of `store`. -/
def storeFunction : Function :=
  { Name := BuiltinStore
    Parameters :=
      [ { Name := "ptr", Type_ := some "Pointer" },
        { Name := "offset", Type_ := some "Int" },
        { Name := "byteCount", Type_ := some "Int" },
        { Name := "value", Type_ := some "Int" } ]
    ReturnTypes := []
    NoParameterCheck := false
    IsBuiltin := true
    SideEffects := 1
    CallCount := 0 }

/-- The function object of `syscall`. -/
def syscallFunction : Function :=
  { Name := BuiltinSyscall
    Parameters :=
      [ { Name := "syscall number", Type_ := some "Int" },
        { Name := "param1", Type_ := none },
        { Name := "param2", Type_ := none },
        { Name := "param3", Type_ := none },
        { Name := "param4", Type_ := none },
        { Name := "param5", Type_ := none },
        { Name := "param6", Type_ := none } ]
    ReturnTypes := ["Int"]
    NoParameterCheck := true
    IsBuiltin := true
    SideEffects := 1
    CallCount := 0 }

/-- The global map `BuiltinFunctions`: each name points to its function
object; the three objects live at the addresses 0, 1 and 2 of the store of
functions. -/
def BuiltinFunctions : List (String × Nat) :=
  [(BuiltinPrint, 0), (BuiltinStore, 1), (BuiltinSyscall, 2)]

/-- The function objects the map `BuiltinFunctions` is initialised with, by
address. -/
def builtinObjects : List (Nat × Function) :=
  [(0, printFunction), (1, storeFunction), (2, syscallFunction)]

/-- The number of the `write` system call (`syscall.Write` on Linux). -/
def syscallWrite : Nat := 1

/-! ## The compiler state (`State.go`, `If.go`) -/

/-- The state of branch compilation, `IfState`. -/
structure IfState where
  counter : Nat
  labels : List String
  deriving DecidableEq, Repr

/-- The compiler state.  `variableStore` and `functionStore` are the stores the
pointers to variables and functions point into; `function` points to the
function being compiled.  `allocated` counts the variables made so far by
`&Variable{...}`: the next one gets this address. -/
structure State where
  assembler : asm.Assembler
  scopes : ScopeStack
  registers : register.Manager
  function : Nat
  environment : Environment
  tokenCursor : Nat
  instrCursor : Nat
  ifState : IfState
  variableStore : Nat → Variable
  functionStore : Nat → Function
  allocated : Nat := 0

open expression (Expression)

namespace State

/-- Appends one instruction to the stream of the state's assembler. -/
def emit (state : State) (i : asm.Instruction) : State :=
  { state with assembler := state.assembler.emit i }

/-- The method `state.Error` and `state.Errorf`: an error at the current
token position. -/
def Error (state : State) (message : String) : build.Error :=
  .At state.tokenCursor message

/-- The assignment `variable.AliveUntil = n` through a pointer to a
variable. -/
def setAliveUntil (state : State) (v : Nat) (n : Nat) : State :=
  { state with
    variableStore := Function.update state.variableStore v
      { state.variableStore v with AliveUntil := n } }

/-! ### `State.go`: lowering of tokens and expressions -/

/-- The method `TokenToRegister` moves a token into a register.  It only
works with identifiers, numbers and texts. -/
def TokenToRegister (state : State) (singleToken : token.Token) (register : Nat) :
    Outcome × State :=
  match singleToken.Kind with
  | .Identifier =>
    let variableName := singleToken.Text
    match state.scopes.Get state.variableStore variableName with
    | none => (.error (state.Error ("Unknown variable " ++ variableName)), state)
    | some v =>
      let state := state.setAliveUntil v (state.instrCursor + 1)
      match (state.variableStore v).Register with
      | none => (.panic nilDereference, state)
      | some source =>
        -- Moving a variable into its own register is pointless
        if source = register then (.ok, state)
        else (.ok, state.emit (.MoveRegisterRegister register source))
  | .Number =>
    let numberString := singleToken.Text
    match strconv.ParseInt numberString with
    | none => (.error (state.Error ("Not a number: " ++ numberString)), state)
    | some number => (.ok, state.emit (.MoveRegisterNumber register (uint64 number)))
  | .Text =>
    let (address, assembler) := state.assembler.AddString singleToken.Text
    (.ok, { state with assembler := assembler }.emit (.MoveRegisterAddress register address))
  | _ => (.ok, state)

end State

namespace expression

mutual

/-- Modelled from the spec: `Expression.EachOperation` is not among the source
files.  Section 4.4 lowers recursively by tree structure, the left subtree,
then the right subtree, then the operator of the node: the callback is run on
the node and on every descendant that is not a leaf, children before their
parent, and the first error stops the traversal.  The callback may assign to
the node it is given, so the node is returned together with the state. -/
def Expression.EachOperation {σ : Type} (callBack : Expression → σ → Expression × Outcome × σ) :
    Expression → σ → Expression × Outcome × σ
  | .mk t cs r, s =>
    match eachChild callBack cs s with
    | (cs2, .ok, s2) => callBack (.mk t cs2 r) s2
    | (cs2, o, s2) => (.mk t cs2 r, o, s2)

/-- The loop of `EachOperation` over the children of a node. -/
def eachChild {σ : Type} (callBack : Expression → σ → Expression × Outcome × σ) :
    List Expression → σ → List Expression × Outcome × σ
  | [], s => ([], .ok, s)
  | child :: rest, s =>
    if child.IsLeaf then
      match eachChild callBack rest s with
      | (rest2, o, s2) => (child :: rest2, o, s2)
    else
      match Expression.EachOperation callBack child s with
      | (child2, .ok, s2) =>
        match eachChild callBack rest s2 with
        | (rest2, o, s3) => (child2 :: rest2, o, s3)
      | (child2, o, s2) => (child2 :: rest, o, s2)

end

end expression

namespace State

/-- The right operand of `+` in the callback of `ExpressionToRegister`
(`State.go`, lines 359 to 398). -/
def addRightOperand (state : State) (sub right : Expression) (register : Nat) :
    Outcome × State :=
  if right.IsLeaf then
    match right.Token.Kind with
    | .Identifier =>
      let variableName := right.Token.Text
      match state.scopes.Get state.variableStore variableName with
      | none => (.error (state.Error ("Unknown variable " ++ variableName)), state)
      | some v =>
        let state := state.setAliveUntil v (state.instrCursor + 1)
        match (state.variableStore v).Register with
        | none => (.panic nilDereference, state)
        | some source => (.ok, state.emit (.AddRegisterRegister register source))
    | .Number =>
      match strconv.ParseInt right.Token.Text with
      | none => (.error (state.Error ("Not a number: " ++ right.Token.Text)), state)
      | some number => (.ok, state.emit (.AddRegisterNumber register (uint64 number)))
    | _ => (.ok, state)
  else
    match sub.Register, right.Register with
    | some subRegister, some rightRegister =>
      (.ok, state.emit (.AddRegisterRegister subRegister rightRegister))
    | _, _ => (.panic nilDereference, state)

/-- The callback that `ExpressionToRegister` hands to `EachOperation`
(`State.go`, lines 335 to 408). -/
def operation (register : Nat) (sub : Expression) (state : State) :
    Expression × Outcome × State :=
  let sub := sub.setRegister (some register)
  -- Left operand
  match sub.Children[0]? with
  | none => (sub, .panic indexOutOfRange, state)
  | some left =>
    let afterLeft : Outcome × State :=
      if left.IsLeaf then state.TokenToRegister left.Token register
      else if sub.Register ≠ left.Register then
        match left.Register with
        | none => (.panic nilDereference, state)
        | some leftRegister => (.ok, state.emit (.MoveRegisterRegister register leftRegister))
      else (.ok, state)
    match afterLeft with
    | (.ok, state) =>
      -- Right operand
      match sub.Children[1]? with
      | none => (sub, .panic indexOutOfRange, state)
      | some right =>
        if sub.Token.Text = "+" then
          let (o, state) := state.addRightOperand sub right register
          (sub, o, state)
        else (sub, .error (state.Error "Not implemented"), state)
    | (o, state) => (sub, o, state)

/-- The method `ExpressionToRegister` moves the result of an expression into
the given register.  The expression is returned as the run leaves it. -/
def ExpressionToRegister (state : State) (expr : Expression) (register : Nat) :
    Expression × Outcome × State :=
  if expr.Token.Kind ≠ .Operator then
    let (o, state) := state.TokenToRegister expr.Token register
    (expr, o, state)
  else
    expr.EachOperation (operation register) state

/-! ### `If.go` -/

/-- The method `IfFalseJump` jumps if the previous compare statement was
false. -/
def IfFalseJump (state : State) (operator label : String) : State :=
  if operator = ">=" then state.emit (.JumpIfLess label)
  else if operator = ">" then state.emit (.JumpIfLessOrEqual label)
  else if operator = "<=" then state.emit (.JumpIfGreater label)
  else if operator = "<" then state.emit (.JumpIfGreaterOrEqual label)
  else if operator = "==" then state.emit (.JumpIfNotEqual label)
  else if operator = "!=" then state.emit (.JumpIfEqual label)
  else state

/-! ### `Call.go` -/

/-- Modelled from the spec: `Variable.SetRegister` is not among the source
files; it relocates the binding of the variable: the register is taken into
use by the variable (`Use`, whose error is the result) and the variable is
bound to it. -/
def SetRegister (state : State) (v : Nat) (newRegister : Nat) :
    Option register.ErrAlreadyInUse × State :=
  match state.registers.Use newRegister (.Variable v) with
  | (none, registers) =>
    (none, { state with
      registers := registers
      variableStore := Function.update state.variableStore v
        { state.variableStore v with Register := some newRegister } })
  | (some err, _) => (some err, state)

/-- The first half of the loop body of `BeforeCall` (`Call.go`, lines 131 to
156): the call register of position `i` is taken into use by the parameter,
after its occupant, if any, has been moved to a free register.  The result
carries the call register. -/
def reserveCallRegister (state : State) (i : Nat) (parameter : Expression) :
    Outcome × State × Nat :=
  match state.registers.Call[i]? with
  | none => (.panic indexOutOfRange, state, 0)
  | some callRegister =>
    match state.registers.Use callRegister (.Expression parameter.Token) with
    | (none, registers) => (.ok, { state with registers := registers }, callRegister)
    | (some err, _) =>
      -- If one of the call registers is already in use,
      -- move the current user of the register to another one.
      match state.registers.FindFreeRegister with
      | none => (.error .ExceededMaxVariables, state, callRegister)
      | some freeRegister =>
        let state := state.emit (.MoveRegisterRegister freeRegister callRegister)
        match err.UsedBy with
        | .Variable v =>
          let state := (state.SetRegister v freeRegister).2
          let state := { state with registers := state.registers.Free callRegister }
          let state := { state with
            registers := (state.registers.Use callRegister (.Expression parameter.Token)).2 }
          (.ok, state, callRegister)
        | _ => (.panic "This should never happen", state, callRegister)

/-- The loop body of `BeforeCall` for the parameter at position `i`. -/
def BeforeCallParameter (state : State) (i : Nat) (parameter : Expression) :
    Outcome × State :=
  match state.reserveCallRegister i parameter with
  | (.ok, state, callRegister) =>
    -- Save the parameter in the call register
    (state.ExpressionToRegister parameter callRegister).2
  | (o, state, _) => (o, state)

/-- The loop of `BeforeCall`, from position `i` on. -/
def BeforeCallFrom : Nat → List Expression → State → Outcome × State
  | _, [], state => (.ok, state)
  | i, parameter :: rest, state =>
    match state.BeforeCallParameter i parameter with
    | (.ok, state) => BeforeCallFrom (i + 1) rest state
    | (o, state) => (o, state)

/-- The method `BeforeCall` pushes parameters into registers. -/
def BeforeCall (state : State) (parameters : List Expression) : Outcome × State :=
  BeforeCallFrom 0 parameters state

/-- The call `atomic.AddInt32(&function.SideEffects, 1)` on the function at
the given address. -/
def addSideEffects (state : State) (function : Nat) : State :=
  { state with
    functionStore := Function.update state.functionStore function
      { state.functionStore function with
        SideEffects := int32 ((state.functionStore function).SideEffects + 1) } }

/-- The method `AfterCall`: `atomic.AddInt32(&function.CallCount, 1)`. -/
def AfterCall (state : State) (function : Nat) : State :=
  { state with
    functionStore := Function.update state.functionStore function
      { state.functionStore function with
        CallCount := int32 ((state.functionStore function).CallCount + 1) } }

/-- The loop that frees the call registers (`Call.go`, lines 85 to 87). -/
def freeCallRegisters (state : State) : State :=
  { state with registers := state.registers.Call.foldl register.Manager.Free state.registers }

/-- The expansion of `print` (`Call.go`, lines 52 to 67). -/
def printExpansion (state : State) (function : Nat) (parameters : List Expression) :
    Outcome × State :=
  match parameters[0]? with
  | none => (.panic indexOutOfRange, state)
  | some parameter =>
    if parameter.Token.Kind ≠ .Text then
      (.error (.Errorf ("'" ++ (state.functionStore function).Name ++
        "' requires a text parameter instead of '" ++ parameter.Token.Text ++ "'")), state)
    else
      let text := parameter.Token.Text ++ "\n"
      let (address, assembler) := state.assembler.AddString text
      let state := { state with assembler := assembler }
      match state.registers.Syscall[0]? with
      | none => (.panic indexOutOfRange, state)
      | some r0 =>
        let state := state.emit (.MoveRegisterNumber r0 syscallWrite)
        match state.registers.Syscall[1]? with
        | none => (.panic indexOutOfRange, state)
        | some r1 =>
          let state := state.emit (.MoveRegisterNumber r1 1)
          match state.registers.Syscall[2]? with
          | none => (.panic indexOutOfRange, state)
          | some r2 =>
            let state := state.emit (.MoveRegisterAddress r2 address)
            match state.registers.Syscall[3]? with
            | none => (.panic indexOutOfRange, state)
            | some r3 =>
              let state := state.emit (.MoveRegisterNumber r3 text.utf8ByteSize)
              let state := state.emit .Syscall
              (.ok, state)

/-- The end of `CallExpression` (`Call.go`, lines 89 to 106): the return
value register is marked as used and the return value is saved. -/
def saveReturnValue (state : State) (expr : Expression) : Outcome × State :=
  match state.registers.ReturnValue[0]? with
  | none => (.panic indexOutOfRange, state)
  | some returnValueRegister =>
    match state.registers.Use returnValueRegister (.Expression expr.Token) with
    | (some err, _) => (.error (.AlreadyInUse err), state)
    | (none, registers) =>
      let state := { state with registers := registers }
      -- Save return value in temporary register
      if expr.Register ≠ some returnValueRegister then
        let state :=
          match expr.Register with
          | some destination => state.emit (.MoveRegisterRegister destination returnValueRegister)
          | none => state
        (.ok, { state with registers := state.registers.Free returnValueRegister })
      else (.ok, state)

/-- The resolution of the callee (`Call.go`, lines 23 to 29): the user
functions of the environment first, the builtins second; the flag is
`isBuiltin`. -/
def findFunction (state : State) (functionName : String) : Option Nat × Bool :=
  match state.environment.Functions.lookup functionName with
  | some function => (some function, false)
  | none => (BuiltinFunctions.lookup functionName, true)

/-- The body of `CallExpression` once the callee is resolved and the side
effects are recorded (`Call.go`, lines 42 to 106). -/
def callResolved (state : State) (expr : Expression) (function : Nat) (isBuiltin : Bool) :
    Outcome × State :=
  let functionName := expr.Token.Text
  let parameters := expr.Children
  -- Parameter check
  if !(state.functionStore function).NoParameterCheck &&
      parameters.length != (state.functionStore function).Parameters.length then
    (.error (.ParameterCount (state.functionStore function).Name parameters.length
      (state.functionStore function).Parameters.length), state)
  -- print is a little special
  else if isBuiltin && functionName == "print" then
    state.printExpansion function parameters
  else
    -- Call the function
    match state.BeforeCall parameters with
    | (.ok, state) =>
      let state :=
        if functionName == "syscall" then state.emit .Syscall
        else state.emit (.Call functionName)
      let state := state.AfterCall function
      -- Free the call registers
      let state := state.freeCallRegisters
      state.saveReturnValue expr
    | (o, state) => (o, state)

/-- The side effect bookkeeping of `CallExpression` (`Call.go`, lines 37 to
40): calling a function with side effects causes our function to have side
effects. -/
def recordSideEffects (state : State) (function : Nat) : State :=
  if (state.functionStore function).SideEffects > 0 then state.addSideEffects state.function
  else state

/-- The method `CallExpression` executes a function call. -/
def CallExpression (state : State) (expr : Expression) : Outcome × State :=
  let functionName := expr.Token.Text
  match state.findFunction functionName with
  | (none, _) => (.error (.UnknownFunction functionName), state)
  | (some function, isBuiltin) =>
    (state.recordSideEffects function).callResolved expr function isBuiltin

end State

/-! ## The unknown-function error (`State.go`, lines 421 to 446) -/

/-- The slice `knownFunctions` before it is sorted: the keys of
`BuiltinFunctions`, then the keys of the functions of the environment.  (Go
iterates a map in no fixed order; this is one of the orders.) -/
def State.knownFunctions (state : State) : List String :=
  BuiltinFunctions.map Prod.fst ++ (state.environment.Functions.map Prod.fst).dedup

/-- The comparison `UnknownFunctionError` hands to `sort.Slice`: the first
name is more similar to the function name than the second.  `similarity`
stands for `similarity.JaroWinkler`, with its values taken as rationals. -/
def moreSimilar (similarity : String → String → ℚ) (functionName a b : String) : Bool :=
  decide (similarity functionName a > similarity functionName b)

/-- The method `UnknownFunctionError` produces an unknown function error and
tries to guess which function the user was trying to type.  `sortSlice`
stands for `sort.Slice` of the Go library. -/
def State.UnknownFunctionError (similarity : String → String → ℚ)
    (sortSlice : (String → String → Bool) → List String → List String)
    (state : State) (functionName : String) : Outcome :=
  let knownFunctions := sortSlice (moreSimilar similarity functionName) state.knownFunctions
  -- Suggest a function name based on the similarity to known functions
  match knownFunctions[0]? with
  | none => .panic indexOutOfRange
  | some first =>
    if similarity functionName first > 9 / 10 then
      .error (state.Error
        ("Unknown function '" ++ functionName ++ "', did you mean '" ++ first ++ "'?"))
    else .error (state.Error ("Unknown function '" ++ functionName ++ "'"))

/-- What `sort.Slice` promises for a slice and a comparison: the result is a
rearrangement of the slice in which no element is less than one before it. -/
def sortSliceContract (sortSlice : (String → String → Bool) → List String → List String)
    (less : String → String → Bool) (slice : List String) : Prop :=
  (sortSlice less slice).Perm slice ∧
    (sortSlice less slice).Pairwise fun a b => less b a = false

/-! ## Statements (`State.go`, lines 31 to 261) -/

namespace instruction

/-- The kind of a statement, `instruction.Kind`: the kinds that `State.go`
and `instruction/FromTokens.go` name. -/
inductive Kind where
  | Invalid
  | Comment
  | Return
  | Expect
  | Ensure
  | Assignment
  | Call
  | Keyword
  | IfStart
  | IfEnd
  | ForStart
  | ForEnd
  | LoopStart
  | LoopEnd
  | StructStart
  | StructEnd
  deriving DecidableEq, Repr

/-- A statement: its kind, the tokens that compose it and the position of the
first of them. -/
structure Instruction where
  Kind : Kind
  Tokens : List token.Token
  Position : Nat
  deriving DecidableEq, Repr

end instruction

/-- The message of a slice expression whose bounds are out of range. -/
def sliceOutOfRange : String := "slice bounds out of range"

/-- Modelled from the spec: `ScopeStack.Push` is not among the source files; a
scope is pushed on block entry. -/
def ScopeStack.Push (stack : ScopeStack) : ScopeStack :=
  { scopes := [] :: stack.scopes }

/-- Modelled from the spec: `ScopeStack.Add` is not among the source files; the
variable is inserted into the innermost scope, and a duplicate name in the
same scope fails with `Redeclared` (here: no stack is returned).  Without a
scope there is nothing to insert into. -/
def ScopeStack.Add (stack : ScopeStack) (store : Nat → Variable) (v : Nat) :
    Option ScopeStack :=
  match stack.scopes with
  | [] => none
  | innermost :: outer =>
    if innermost.any fun w => (store w).Name == (store v).Name then none
    else some { scopes := (innermost ++ [v]) :: outer }

/-- Modelled from the spec: `ScopeStack.Unused` is not among the source files;
all variables, in any scope, whose times-used counter is zero. -/
def ScopeStack.Unused (stack : ScopeStack) (store : Nat → Variable) : List Nat :=
  stack.scopes.flatten.filter fun v => (store v).TimesUsed == 0

namespace State

/-- The allocation `&Variable{Name: name, Position: position}`: a new variable
at the next address, its other fields zero. -/
def newVariable (state : State) (name : String) (position : Nat) : Nat × State :=
  (state.allocated, { state with
    allocated := state.allocated + 1
    variableStore := Function.update state.variableStore state.allocated
      { Name := name, Position := position, Mutable := false, TimesUsed := 0, AliveUntil := 0,
        Register := none } })

/-- Modelled from the spec: `Variable.BindRegister` is not among the source
files; the variable is bound to the register and becomes its user. -/
def BindRegister (state : State) (v : Nat) (newRegister : Nat) : State :=
  { state with
    registers := { state.registers with
      user := Function.update state.registers.user newRegister (some (.Variable v)) }
    variableStore := Function.update state.variableStore v
      { state.variableStore v with Register := some newRegister } }

/-- The call `state.scopes.Add(variable)`, whose error is dropped. -/
def declare (state : State) (v : Nat) : State :=
  match state.scopes.Add state.variableStore v with
  | some scopes => { state with scopes := scopes }
  | none => state

/-- The method `TokensToRegister` moves the result of a token expression into
the given register.  `parse` stands for `expression.FromTokens`, which is not
among the source files. -/
def TokensToRegister (parse : List token.Token → Except String Expression) (state : State)
    (tokens : List token.Token) (register : Nat) : Outcome × State :=
  match tokens with
  | [single] => state.TokenToRegister single register
  | _ =>
    match parse tokens with
    | .error message => (.error (state.Error message), state)
    | .ok expr => (state.ExpressionToRegister expr register).2

/-- The declaration of a new variable in `Assignment` (`State.go`, lines 79
to 91). -/
def declareVariable (state : State) (variableName : String) : Outcome × State × Nat :=
  match state.registers.FindFreeRegister with
  | none =>
    (.error (state.Error ("Exceeded maximum limit of " ++
      Nat.repr state.registers.Registers.length ++ " variables")), state, 0)
  | some newRegister =>
    let (v, state) := state.newVariable variableName state.tokenCursor
    let state := state.BindRegister v newRegister
    let state := state.declare v
    (.ok, state, v)

/-- The method `Assignment` handles assignment instructions.  A variable in
scope is bound to a register from its declaration on; lowering into the nil
register of an unbound one is taken to dereference nil at once. -/
def Assignment (parse : List token.Token → Except String Expression) (state : State)
    (tokens : List token.Token) : Outcome × State :=
  match tokens[0]? with
  | none => (.panic indexOutOfRange, state)
  | some left =>
    if left.Kind ≠ .Identifier then
      (.error (state.Error "Expected variable on the left side of the assignment"), state)
    else
      let variableName := left.Text
      let declared : Outcome × State × Nat :=
        match state.scopes.Get state.variableStore variableName with
        | some v => (.ok, state, v)
        | none => state.declareVariable variableName
      match declared with
      | (.ok, state, v) =>
        -- Skip variable name and operator
        let state := { state with tokenCursor := state.tokenCursor + 2 }
        if tokens.length < 2 then (.panic sliceOutOfRange, state)
        else
          match (state.variableStore v).Register with
          | none => (.panic nilDereference, state)
          | some target => state.TokensToRegister parse (tokens.drop 2) target
      | (o, state, _) => (o, state)

end State

namespace State

/-- The loop of `Call` that cuts the tokens after the opening bracket into
parameters (`State.go`, lines 137 to 163).  The list is `tokens[pos:]` and
`current` is `tokens[parameterStart:pos]`, which is empty exactly when
`pos == parameterStart`. -/
def splitParameters : List token.Token → State → List (List token.Token) → List token.Token →
    Outcome × State × List (List token.Token)
  | [], state, parameters, _ => (.ok, state, parameters)
  | t :: rest, state, parameters, current =>
    match t.Kind with
    | .Separator =>
      if current = [] then (.error (state.Error "Missing parameter"), state, parameters)
      else
        splitParameters rest { state with tokenCursor := state.tokenCursor + 1 }
          (parameters ++ [current]) []
    | .GroupEnd =>
      if current = [] then
        -- Call with no parameters
        splitParameters rest { state with tokenCursor := state.tokenCursor + 1 } parameters [t]
      else
        splitParameters rest { state with tokenCursor := state.tokenCursor + 1 }
          (parameters ++ [current]) []
    | _ =>
      splitParameters rest { state with tokenCursor := state.tokenCursor + 1 } parameters
        (current ++ [t])

/-- The method `BeforeCall` of `State.go` pushes parameters into registers:
the parameter at position `index` goes into the register of that position in
`SyscallRegisters`. -/
def BeforeCallTokens (parse : List token.Token → Except String Expression) :
    Nat → List (List token.Token) → State → Outcome × State
  | _, [], state => (.ok, state)
  | index, tokens :: rest, state =>
    match state.registers.Syscall[index]? with
    | none => (.panic indexOutOfRange, state)
    | some target =>
      match state.TokensToRegister parse tokens target with
      | (.ok, state) => BeforeCallTokens parse (index + 1) rest state
      | (o, state) => (o, state)

/-- The method `AfterCall` of `State.go`: `call.Function.Used = true`. -/
def markUsed (state : State) (function : Nat) : State :=
  { state with
    functionStore := Function.update state.functionStore function
      { state.functionStore function with Used := true } }

/-- The end of `Call` once the parameters are cut (`State.go`, lines 165 to
220).  `Println` is the method of the assembler that prints a text. -/
def callParameters (parse : List token.Token → Except String Expression) (state : State)
    (functionName : String) (function : Nat) (isBuiltin : Bool)
    (parameters : List (List token.Token)) : Outcome × State :=
  let declared := state.functionStore function
  -- Parameter check
  if !declared.NoParameterCheck && parameters.length < declared.Parameters.length then
    (.error (state.Error ("Too few arguments in '" ++ declared.Name ++ "' call")), state)
  else if !declared.NoParameterCheck && parameters.length > declared.Parameters.length then
    (.error (state.Error ("Too many arguments in '" ++ declared.Name ++ "' call")), state)
  else if isBuiltin then
    if functionName = "print" then
      match parameters[0]? with
      | none => (.panic indexOutOfRange, state)
      | some first =>
        match first[0]? with
        | none => (.panic indexOutOfRange, state)
        | some parameter =>
          if parameter.Kind ≠ .Text then
            (.error (state.Error ("'" ++ declared.Name ++
              "' requires a text parameter instead of '" ++ parameter.Text ++ "'")), state)
          else (.ok, state.emit (.Println parameter.Text))
    else if functionName = "syscall" then
      match BeforeCallTokens parse 0 parameters state with
      | (.ok, state) => (.ok, (state.emit .Syscall).markUsed function)
      | (o, state) => (o, state)
    else (.ok, state)
  else
    match BeforeCallTokens parse 0 parameters state with
    | (.ok, state) => (.ok, (state.emit (.Call declared.Name)).markUsed function)
    | (o, state) => (o, state)

/-- The method `Call` of `State.go` handles function calls. -/
def Call (parse : List token.Token → Except String Expression) (state : State)
    (tokens : List token.Token) : Outcome × State :=
  match tokens[0]?, tokens.getLast? with
  | some firstToken, some lastToken =>
    if firstToken.Kind ≠ .Identifier then
      (.error (state.Error "Expected function name before '('"), state)
    else if lastToken.Kind ≠ .GroupEnd then
      (.error (state.Error "Missing closing bracket ')'"), state)
    else
      let functionName := firstToken.Text
      match state.findFunction functionName with
      | (none, _) => (.error (.UnknownFunction functionName), state)
      | (some function, isBuiltin) =>
        let state := { state with tokenCursor := state.tokenCursor + 1 }
        match splitParameters (tokens.drop 2) state [] [] with
        | (.ok, state, parameters) =>
          state.callParameters parse functionName function isBuiltin parameters
        | (o, state, _) => (o, state)
  | _, _ => (.panic indexOutOfRange, state)

/-- The method `Keyword` handles keywords. -/
def Keyword (state : State) (_ : List token.Token) : Outcome × State :=
  (.error (state.Error "Not implemented"), state)

end State

/-- The function `token.Count`: the number of tokens of a kind. -/
def token.Count (tokens : List token.Token) (kind : token.Kind) : Nat :=
  tokens.countP fun t => t.Kind = kind

namespace State

/-- The method `Invalid` handles invalid instructions. -/
def Invalid (state : State) (tokens : List token.Token) : Outcome × State :=
  let openingBrackets := token.Count tokens .GroupStart
  let closingBrackets := token.Count tokens .GroupEnd
  if openingBrackets < closingBrackets then
    (.error (state.Error "Missing opening bracket '('"), state)
  else if openingBrackets > closingBrackets then
    (.error (state.Error "Missing closing bracket ')'"), state)
  else (.error (state.Error "Invalid instruction"), state)

/-- The method `Instruction` generates machine code for the given
instruction. -/
def Instruction (parse : List token.Token → Except String Expression) (state : State)
    (instr : instruction.Instruction) (index : Nat) : Outcome × State :=
  let state := { state with tokenCursor := instr.Position, instrCursor := index }
  match instr.Kind with
  | .Assignment => state.Assignment parse instr.Tokens
  | .Call => state.Call parse instr.Tokens
  | .Keyword => state.Keyword instr.Tokens
  | .Invalid => state.Invalid instr.Tokens
  | _ => (.ok, state)

/-- The loop of `CompileInstructions` from the given index on. -/
def CompileInstructionsFrom (parse : List token.Token → Except String Expression) :
    Nat → List instruction.Instruction → State → Outcome × State
  | _, [], state => (.ok, state)
  | index, instr :: rest, state =>
    match state.Instruction parse instr index with
    | (.ok, state) => CompileInstructionsFrom parse (index + 1) rest state
    | (o, state) => (o, state)

/-- The method `CompileInstructions` compiles all instructions; the list is
the field `instructions` of the state. -/
def CompileInstructions (parse : List token.Token → Except String Expression) (state : State)
    (instructions : List instruction.Instruction) : Outcome × State :=
  CompileInstructionsFrom parse 0 instructions state

end State

/-! ## The compilation of a function (`Compile.go`) -/

/-- Modelled from the spec: `register.NewManager` is not among the source
files; a manager with the given lists of registers in which no register is in
use. -/
def register.NewManager (layout : register.Manager) : register.Manager :=
  { layout with user := fun _ => none }

/-- The function `declareParameters` declares the given parameters as
variables inside the scope.  It also assigns a register to each variable. -/
def declareParameters : List Parameter → State → Outcome × State
  | [], state => (.ok, state)
  | parameter :: rest, state =>
    match state.registers.FindFreeRegister with
    | none => (.error (.New "Exceeded maximum number of parameters"), state)
    | some newRegister =>
      let (v, state) := state.newVariable parameter.Name 0
      let state := state.BindRegister v newRegister
      let state := state.declare v
      declareParameters rest state

/-- The state `Compile` starts from: the assembler holds the label of the
function, one scope is pushed, no register is in use and no variable
exists. -/
def compileStart (layout : register.Manager) (functionStore : Nat → Function) (function : Nat)
    (environment : Environment) : State :=
  { assembler :=
      asm.Assembler.emit { Instructions := [], Strings := [] }
        (.Label (functionStore function).Name)
    scopes := ScopeStack.Push { scopes := [] }
    registers := register.NewManager layout
    function := function
    environment := environment
    tokenCursor := 0
    instrCursor := 0
    ifState := { counter := 0, labels := [] }
    variableStore := fun _ =>
      { Name := "", Position := 0, Mutable := false, TimesUsed := 0, AliveUntil := 0,
        Register := none }
    functionStore := functionStore
    allocated := 0 }

/-- The first part of `Compile` (`Compile.go`, lines 13 to 40): the parameters
are declared and the instructions compiled.  `instructions` is the value of
`function.Instructions()`. -/
def compileBody (parse : List token.Token → Except String Expression)
    (layout : register.Manager) (functionStore : Nat → Function)
    (instructions : List instruction.Instruction) (function : Nat)
    (environment : Environment) : Outcome × State :=
  let state := compileStart layout functionStore function environment
  match declareParameters (functionStore function).Parameters state with
  | (.ok, state) => state.CompileInstructions parse instructions
  | (o, state) => (o, state)

/-- The function `Compile` turns a function into machine code: it returns the
assembler, or no assembler and an error. -/
def Compile (parse : List token.Token → Except String Expression)
    (layout : register.Manager) (functionStore : Nat → Function)
    (instructions : List instruction.Instruction) (function : Nat)
    (environment : Environment) : Option asm.Assembler × Outcome :=
  match compileBody parse layout functionStore instructions function environment with
  | (.ok, state) =>
    match state.scopes.Unused state.variableStore with
    | v :: _ =>
      (none, .error (.At (state.variableStore v).Position
        ("Variable '" ++ (state.variableStore v).Name ++ "' has never been used")))
    | [] => (some (state.assembler.emit .Return), .ok)
  | (o, _) => (none, o)

/-! ## Branches (`If.go`, lines 16 to 51 and 76 to 82) -/

/-- The methods of the state that `If.go` calls and that are not among the
source files: `Expect` (its result is dropped by `IfStart`) and
`CompareRegisterExpression`, which compares a register with the value of the
tokens of an expression and returns the temporary register it took, if any. -/
structure Lowering where
  Expect : State → token.Kind → State
  CompareRegisterExpression :
    State → Option Nat → List token.Token → String → Option Nat × Outcome × State

namespace State

/-- Modelled from the spec: `UseVariable` is not among the source files; a
variable that is used has its times-used counter incremented and its liveness
extended to the current instruction index plus one. -/
def UseVariable (state : State) (v : Nat) : State :=
  { state with
    variableStore := Function.update state.variableStore v
      { state.variableStore v with
        TimesUsed := (state.variableStore v).TimesUsed + 1
        AliveUntil := state.instrCursor + 1 } }

/-- The method `Condition` encodes a compare instruction for the given
condition. -/
def Condition (lowering : Lowering) (state : State) (condition : List token.Token)
    (elseLabel : String) : Outcome × State :=
  match condition[0]? with
  | none => (.panic indexOutOfRange, state)
  | some first =>
    let variableName := first.Text
    match state.scopes.Get state.variableStore variableName with
    | none => (.error (.UnknownVariable variableName), state)
    | some v =>
      let state := state.UseVariable v
      if condition.length < 2 then (.panic sliceOutOfRange, state)
      else
        match lowering.CompareRegisterExpression state (state.variableStore v).Register
          (condition.drop 2) "" with
        | (temporary, .ok, state) =>
          let state :=
            match temporary with
            | some r => { state with registers := state.registers.Free r }
            | none => state
          match condition[1]? with
          | none => (.panic indexOutOfRange, state)
          | some second => (.ok, state.IfFalseJump second.Text elseLabel)
        | (_, o, state) => (o, state)

/-- The method `IfStart` handles the start of if conditions.  The counter is
a Go `int`; it is taken without its upper limit. -/
def IfStart (lowering : Lowering) (state : State) (tokens : List token.Token) :
    Outcome × State :=
  let state := lowering.Expect state .Keyword
  match tokens with
  | [] => (.panic sliceOutOfRange, state)
  | _ :: condition =>
    let state := { state with
      ifState := { state.ifState with counter := state.ifState.counter + 1 } }
    let elseLabel := "if_" ++ Nat.repr state.ifState.counter ++ "_end"
    let state := { state with
      ifState := { state.ifState with labels := state.ifState.labels ++ [elseLabel] } }
    state.Condition lowering condition elseLabel

/-- The method `IfEnd` handles the end of if conditions. -/
def IfEnd (state : State) : Outcome × State :=
  match state.ifState.labels.getLast? with
  | none => (.panic indexOutOfRange, state)
  | some label =>
    let state := { state with
      ifState := { state.ifState with labels := state.ifState.labels.dropLast } }
    (.ok, state.emit (.Label label))

end State

/-! ## The scan of a file (`Scan.go`) -/

/-- What `Scan` sends on its channels: a function, an import or a struct,
each by its name. -/
inductive Scanned where
  | function (name : String)
  | imported (baseName : String)
  | struct (name : String)
  deriving DecidableEq, Repr

/-- The methods of the file that `Scan` calls and that are not among the
source files: each returns what it scanned, the index it stopped at and its
error, if any. -/
structure Scanners where
  scanFunction : List token.Token → Nat → String × Nat × Option Error
  scanImport : List token.Token → Nat → String × Nat × Option Error
  scanStruct : List token.Token → Nat → String × Nat × Option Error

/-- The loop of `Scan` (`Scan.go`, lines 18 to 85), entered at the given index
with the given count of newlines; `sent` lists what was sent so far.  The
scanners decide how far the index moves, so the loop is run for a number of
rounds: `none` means that the rounds did not suffice. -/
def scanLoop (scanners : Scanners) (path : String) (tokens : List token.Token) :
    Nat → Nat → Nat → List Scanned → Option (Outcome × List Scanned)
  | 0, _, _, _ => none
  | rounds + 1, index, newlines, sent =>
    match tokens[index]? with
    | none => some (.ok, sent)
    | some t =>
      let newlines := if t.Kind ≠ .NewLine then 0 else newlines
      match t.Kind with
      | .Identifier =>
        match scanners.scanFunction tokens index with
        | (_, _, some err) => some (.error err, sent)
        | (function, index, none) =>
          scanLoop scanners path tokens rounds (index + 1) newlines (sent ++ [.function function])
      | .Keyword =>
        if t.Text = "import" then
          match scanners.scanImport tokens index with
          | (_, _, some err) => some (.error err, sent)
          | (imp, index, none) =>
            -- goto begin
            scanLoop scanners path tokens rounds index newlines (sent ++ [.imported imp])
        else if t.Text = "struct" then
          match scanners.scanStruct tokens index with
          | (_, _, some err) => some (.error err, sent)
          | (typ, index, none) =>
            scanLoop scanners path tokens rounds (index + 1) newlines (sent ++ [.struct typ])
        else some (.error (.TopLevel path (tokens.take (index + 1))), sent)
      | .NewLine =>
        let newlines := newlines + 1
        if newlines = 3 then
          some (.error (.UnnecessaryNewlines path (tokens.take (index + 1))), sent)
        else scanLoop scanners path tokens rounds (index + 1) newlines sent
      | .Comment =>
        -- OK.
        scanLoop scanners path tokens rounds (index + 1) newlines sent
      | _ => some (.error (.TopLevel path (tokens.take (index + 1))), sent)

/-- The method `Scan` scans the input file, the tokens of which are
`tokens`. -/
def Scan (scanners : Scanners) (path : String) (tokens : List token.Token) (rounds : Nat) :
    Option (Outcome × List Scanned) :=
  scanLoop scanners path tokens rounds 0 0 []

/-! ## The fold of tokens into statements (`instruction/FromTokens.go`) -/

namespace instruction

/-- The error of `FromTokens`: a message, the index of the token it is about
and a boolean that the sources give by position only. -/
structure Error where
  Message : String
  Position : Nat
  Flag : Bool
  deriving DecidableEq, Repr

/-- How `FromTokens` ends: it returns the instructions, returns an error, or
panics. -/
inductive Result where
  | ok (instructions : List Instruction)
  | error (err : Error)
  | panic (message : String)
  deriving DecidableEq, Repr

/-- The name of a kind, as `%s` prints it; the sources do not fix the text. -/
def Kind.String : Kind → String
  | .Invalid => "Invalid"
  | .Comment => "Comment"
  | .Return => "Return"
  | .Expect => "Expect"
  | .Ensure => "Ensure"
  | .Assignment => "Assignment"
  | .Call => "Call"
  | .Keyword => "Keyword"
  | .IfStart => "IfStart"
  | .IfEnd => "IfEnd"
  | .ForStart => "ForStart"
  | .ForEnd => "ForEnd"
  | .LoopStart => "LoopStart"
  | .LoopEnd => "LoopEnd"
  | .StructStart => "StructStart"
  | .StructEnd => "StructEnd"

/-- The local variables of `FromTokens`. -/
structure Folding where
  instructions : List Instruction
  start : Nat
  instruction : Instruction
  groups : Int
  blocks : List Kind
  deriving DecidableEq, Repr

/-- The slice expression `tokens[low:high]`. -/
def slice (tokens : List token.Token) (low high : Nat) : List token.Token :=
  (tokens.take high).drop low

/-- The lines that close a statement: `instruction.Tokens = tokens[start:high]`,
`instruction.Position = start`, the append, `instruction.Kind = Invalid` and
`start = i + 1`. -/
def Folding.close (f : Folding) (tokens : List token.Token) (high i : Nat) : Folding :=
  let instruction := { f.instruction with Tokens := slice tokens f.start high, Position := f.start }
  { f with
    instructions := f.instructions ++ [instruction]
    instruction := { instruction with Kind := .Invalid }
    start := i + 1 }

/-- How one round of the loop ends: the loop goes on, or `FromTokens` returns
an error, or it panics. -/
inductive Round where
  | next (f : Folding)
  | error (err : Error)
  | panic (message : String)
  deriving DecidableEq, Repr

/-- The body of the loop of `FromTokens` for the token `t` at index `i`. -/
def round (tokens : List token.Token) (i : Nat) (t : token.Token) (f : Folding) : Round :=
  match t.Kind with
  | .NewLine =>
    if f.start = i then .next { f with start := i + 1 }
    else
      match f.instruction.Kind with
      | .Comment =>
        .next { f with instruction := { f.instruction with Kind := .Invalid }, start := i + 1 }
      | .Return | .Expect | .Ensure | .Assignment | .Invalid => .next (f.close tokens i i)
      | _ => .next f
  | .Operator =>
    if f.instruction.Kind ≠ .Invalid then .next f
    else if t.Text ≠ "=" then .next f
    else .next { f with instruction := { f.instruction with Kind := .Assignment } }
  | .GroupStart =>
    let f := { f with groups := f.groups + 1 }
    if f.groups ≠ 1 then .next f
    else if f.instruction.Kind ≠ .Invalid then .next f
    else if i = 0 then .panic indexOutOfRange
    else
      match tokens[i - 1]? with
      | none => .panic indexOutOfRange
      | some previous =>
        if previous.Kind ≠ .Identifier then .next f
        else .next { f with instruction := { f.instruction with Kind := .Call } }
  | .GroupEnd =>
    let f := { f with groups := f.groups - 1 }
    if f.groups ≠ 0 then .next f
    else if f.instruction.Kind ≠ .Call then .next f
    else .next (f.close tokens (i + 1) i)
  | .Keyword =>
    if f.instruction.Kind ≠ .Invalid then .next f
    else
      let kind : Option Kind :=
        if t.Text = "let" then some .Assignment
        else if t.Text = "mut" then some .Assignment
        else if t.Text = "if" then some .IfStart
        else if t.Text = "for" then some .ForStart
        else if t.Text = "struct" then some .StructStart
        else if t.Text = "return" then some .Return
        else if t.Text = "loop" then some .LoopStart
        else if t.Text = "expect" then some .Expect
        else if t.Text = "ensure" then some .Ensure
        else none
      match kind with
      | some kind => .next { f with instruction := { f.instruction with Kind := kind } }
      | none => .error { Message := "Keyword not implemented", Position := i, Flag := false }
  | .BlockStart =>
    match f.instruction.Kind with
    | .IfStart | .ForStart | .LoopStart =>
      -- OK.
      .next ({ f with blocks := f.blocks ++ [f.instruction.Kind] }.close tokens i i)
    | kind =>
      .error { Message := "Invalid block of type '" ++ kind.String ++ "'", Position := i,
               Flag := false }
  | .BlockEnd =>
    match f.blocks.getLast? with
    | none => .panic indexOutOfRange
    | some block =>
      let kind : Option Kind :=
        match block with
        | .IfStart => some .IfEnd
        | .ForStart => some .ForEnd
        | .LoopStart => some .LoopEnd
        | .StructStart => some .StructEnd
        | _ => none
      match kind with
      | some kind =>
        let f := { f with instruction := { f.instruction with Kind := kind } }.close tokens i i
        .next { f with blocks := f.blocks.dropLast }
      | none =>
        .error { Message := "Not implemented: " ++ block.String, Position := i, Flag := false }
  | .Comment => .next { f with instruction := { f.instruction with Kind := .Comment } }
  | _ => .next f

/-- The loop of `FromTokens` over the tokens from index `i` on. -/
def fold (tokens : List token.Token) : List token.Token → Nat → Folding → Round
  | [], _, f => .next f
  | t :: rest, i, f =>
    match round tokens i t f with
    | .next f => fold tokens rest (i + 1) f
    | r => r

/-- The function `FromTokens` takes a list of tokens and generates
instructions.  The zero value of `Kind`, which the instruction starts with,
is `Invalid`, the kind it is reset to after every statement. -/
def FromTokens (tokens : List token.Token) : Result :=
  let f : Folding :=
    { instructions := []
      start := 0
      instruction := { Kind := .Invalid, Tokens := [], Position := 0 }
      groups := 0
      blocks := [] }
  match fold tokens tokens 0 f with
  | .next f =>
    if f.start ≠ tokens.length then
      .ok (f.instructions ++
        [{ f.instruction with Tokens := slice tokens f.start tokens.length, Position := f.start }])
    else .ok f.instructions
  | .error err => .error err
  | .panic message => .panic message

end instruction

/-! ## The comparison operators, as the specification lists them -/

namespace spec

/-- The six comparison operators. -/
inductive Comparison where
  | lt
  | le
  | gt
  | ge
  | eq
  | ne
  deriving DecidableEq, Repr

/-- The text of a comparison operator. -/
def Comparison.text : Comparison → String
  | .lt => "<"
  | .le => "<="
  | .gt => ">"
  | .ge => ">="
  | .eq => "=="
  | .ne => "!="

/-- The meaning of `a op b` on signed integers. -/
def Comparison.holds : Comparison → Int → Int → Prop
  | .lt, a, b => a < b
  | .le, a, b => a ≤ b
  | .gt, a, b => a > b
  | .ge, a, b => a ≥ b
  | .eq, a, b => a = b
  | .ne, a, b => a ≠ b

/-- The inverse conditional jump the specification names for each
operator. -/
def Comparison.inverseJump : Comparison → String → asm.Instruction
  | .lt, label => .JumpIfGreaterOrEqual label
  | .le, label => .JumpIfGreater label
  | .gt, label => .JumpIfLessOrEqual label
  | .ge, label => .JumpIfLess label
  | .eq, label => .JumpIfNotEqual label
  | .ne, label => .JumpIfEqual label

end spec

/-! ## Properties of states used in the statements -/

/-- What the lowering of an expression leaves alone: the register manager,
the functions, the scopes and the binding of every variable; the instruction
stream only grows.  (`named`: no variable is renamed.) -/
structure State.Extends (s t : State) : Prop where
  registers : t.registers = s.registers
  functionStore : t.functionStore = s.functionStore
  function : t.function = s.function
  environment : t.environment = s.environment
  scopes : t.scopes = s.scopes
  bound : ∀ v, (t.variableStore v).Register = (s.variableStore v).Register
  named : ∀ v, (t.variableStore v).Name = (s.variableStore v).Name
  code : ∃ code, t.assembler.Instructions = s.assembler.Instructions ++ code

/-- The outcomes lowering can have: success, an error raised by
`state.Error` at a token position, or a nil dereference or index panic. -/
def Outcome.ofLowering : Outcome → Prop
  | .ok => True
  | .error (.At _ _) => True
  | .error _ => False
  | .panic message => message = nilDereference ∨ message = indexOutOfRange

/-- The outcomes argument preparation can have. -/
def Outcome.ofPreparation : Outcome → Prop
  | .ok => True
  | .error (.At _ _) => True
  | .error .ExceededMaxVariables => True
  | .error _ => False
  | .panic message => message = nilDereference ∨ message = indexOutOfRange

/-- What argument preparation leaves alone: the functions, the function
being compiled, the environment and the layout of the register manager. -/
structure State.Prepares (s t : State) : Prop where
  functionStore : t.functionStore = s.functionStore
  function : t.function = s.function
  environment : t.environment = s.environment
  Registers : t.registers.Registers = s.registers.Registers
  Syscall : t.registers.Syscall = s.registers.Syscall
  Call : t.registers.Call = s.registers.Call
  ReturnValue : t.registers.ReturnValue = s.registers.ReturnValue
  code : ∃ code, t.assembler.Instructions = s.assembler.Instructions ++ code

/-- The users of the registers while the parameter at position `i` is
prepared: a register in use is held by a variable, or it is one of the call
registers of the earlier positions. -/
def State.CallUsers (s : State) (i : Nat) : Prop :=
  ∀ r u, s.registers.user r = some u → (∃ v, u = .Variable v) ∨ r ∈ s.registers.Call.take i

/-- A leaf the lowering of a sum into the register `r` can read: a number
token that parses, or the name of a variable in scope that is bound to a
register other than `r`. -/
def State.SumLeaf (state : State) (r : Nat) (t : token.Token) : Prop :=
  (t.Kind = .Number ∧ ∃ n, strconv.ParseInt t.Text = some n) ∨
  (t.Kind = .Identifier ∧ ∃ v q, state.scopes.Get state.variableStore t.Text = some v ∧
    (state.variableStore v).Register = some q ∧ q ≠ r)

/-- The value of a leaf in a register file: the number, or the content of the
register the variable is bound to. -/
def State.leafValue (state : State) (m : machine.Registers) (t : token.Token) : Nat :=
  match t.Kind with
  | .Number =>
    match strconv.ParseInt t.Text with
    | some n => uint64 n
    | none => 0
  | .Identifier =>
    match state.scopes.Get state.variableStore t.Text with
    | some v =>
      match (state.variableStore v).Register with
      | some q => m q
      | none => 0
    | none => 0
  | _ => 0

/-- The left-deep tree with the given first leaf; the list gives, outermost
first, each operator token with the token of its right leaf. -/
def expression.leftDeep (first : token.Token) : List (token.Token × token.Token) → Expression
  | [] => .mk first [] none
  | (op, right) :: inner => .mk op [leftDeep first inner, .mk right [] none] none

/-- The outcomes in which no `AlreadyInUse` escapes and the panic of
`BeforeCall` is not reached. -/
def Outcome.recovered (o : Outcome) : Prop :=
  (∀ err, o ≠ .error (.AlreadyInUse err)) ∧ o ≠ .panic "This should never happen"

/-- The instruction that performs the call (`Call.go`, lines 76 to 80). -/
def callInstruction (functionName : String) : asm.Instruction :=
  if functionName == "syscall" then .Syscall else .Call functionName

/-- The binding invariant of the register manager: the register a variable
in scope is bound to has that variable as its user.  (A register has a
single `user` field, so it never has two users.) -/
def State.BindingInvariant (state : State) : Prop :=
  ∀ v ∈ state.scopes.scopes.flatten, ∀ r,
    (state.variableStore v).Register = some r → state.registers.user r = some (.Variable v)

/-- Whether a function object has the declaration of another: all fields but
the two counters agree. -/
def Function.sameDeclaration (f g : Function) : Prop :=
  f.Name = g.Name ∧ f.Parameters = g.Parameters ∧ f.ReturnTypes = g.ReturnTypes ∧
    f.NoParameterCheck = g.NoParameterCheck ∧ f.IsBuiltin = g.IsBuiltin

/-- The store of functions holds the builtin objects of `Builtin.go` at their
addresses (their counters may have moved). -/
def State.HoldsBuiltins (state : State) : Prop :=
  ∀ entry ∈ builtinObjects, (state.functionStore entry.1).sameDeclaration entry.2

/-- What the statements of `State.go` leave alone while one instruction is
compiled: the instruction index and the state of the branches; variables are
only added; the liveness bound of a variable that exists either stays or
becomes the instruction index plus one; a new variable has a bound of at most
that; the instruction stream only grows; no times-used counter is written
(`zero`: counters that are all zero stay so); the scopes only gain
variables, and variables that exist (`bounded`); the name and the position of a
variable that exists stay. -/
structure State.Advances (s t : State) : Prop where
  instrCursor : t.instrCursor = s.instrCursor
  ifState : t.ifState = s.ifState
  allocated : s.allocated ≤ t.allocated
  alive : ∀ v, v < s.allocated →
    (t.variableStore v).AliveUntil = (s.variableStore v).AliveUntil ∨
      (t.variableStore v).AliveUntil = s.instrCursor + 1
  fresh : ∀ v, s.allocated ≤ v → v < t.allocated →
    (t.variableStore v).AliveUntil ≤ s.instrCursor + 1
  code : ∃ code, t.assembler.Instructions = s.assembler.Instructions ++ code
  zero : (∀ v, (s.variableStore v).TimesUsed = 0) → ∀ v, (t.variableStore v).TimesUsed = 0
  grows : ∀ v, v ∈ s.scopes.scopes.flatten → v ∈ t.scopes.scopes.flatten
  bounded : (∀ v, v ∈ s.scopes.scopes.flatten → v < s.allocated) →
    ∀ v, v ∈ t.scopes.scopes.flatten → v < t.allocated
  named : ∀ v, v < s.allocated →
    (t.variableStore v).Name = (s.variableStore v).Name ∧
      (t.variableStore v).Position = (s.variableStore v).Position

/-- The liveness bound of every variable that exists is at most `n`. -/
def State.AliveBelow (s : State) (n : Nat) : Prop :=
  ∀ v, v < s.allocated → (s.variableStore v).AliveUntil ≤ n

/-- The end-of-if label of the specification, `if_<k>_end`. -/
def spec.ifLabel (k : Nat) : String := "if_" ++ Nat.repr k ++ "_end"

/-- The helpers keep the state of the branches. -/
def Lowering.Quiet (lowering : Lowering) : Prop :=
  (∀ s kind, (lowering.Expect s kind).ifState = s.ifState) ∧
  ∀ s r tokens label,
    (lowering.CompareRegisterExpression s r tokens label).2.2.ifState = s.ifState

/-- A step of the compilation of branches: the `IfStart` of an `if` with its
tokens, or the `IfEnd` of a closing brace. -/
inductive IfStep where
  | start (tokens : List token.Token)
  | finish

/-- The number of `IfStart` steps. -/
def IfStep.starts : List IfStep → Nat
  | [] => 0
  | .start _ :: rest => starts rest + 1
  | .finish :: rest => starts rest

/-- The number of `IfEnd` steps. -/
def IfStep.finishes : List IfStep → Nat
  | [] => 0
  | .start _ :: rest => finishes rest
  | .finish :: rest => finishes rest + 1

/-- The helpers only add to the instruction stream. -/
def Lowering.Appends (lowering : Lowering) : Prop :=
  (∀ s kind, ∃ code,
    (lowering.Expect s kind).assembler.Instructions = s.assembler.Instructions ++ code) ∧
  ∀ s r tokens label, ∃ code,
    (lowering.CompareRegisterExpression s r tokens label).2.2.assembler.Instructions
      = s.assembler.Instructions ++ code

/-- Modelled from the spec: the dispatcher that runs `IfStart` on an `if` and
`IfEnd` on the closing brace is not among the source files.  The steps are run
in order and the first failure stops the run; the result lists, for each
`IfEnd` step in order, the instructions found in the stream of the assembler
after the step beyond those that were there before it (what `AddLabel` added,
`If.go`, line 80). -/
def runIfSteps (lowering : Lowering) :
    List IfStep → State → List (List asm.Instruction) × Outcome × State
  | [], s => ([], .ok, s)
  | .start tokens :: rest, s =>
    match s.IfStart lowering tokens with
    | (.ok, t) => runIfSteps lowering rest t
    | (o, t) => ([], o, t)
  | .finish :: rest, s =>
    match s.IfEnd with
    | (.ok, t) =>
      match runIfSteps lowering rest t with
      | (emitted, o, u) =>
        (t.assembler.Instructions.drop s.assembler.Instructions.length :: emitted, o, u)
    | (o, t) => ([], o, t)

/-- The matching of the specification: for each `IfEnd`, in order, the number
of the `IfStart` it closes, which is the latest one not closed yet.  The
`IfStart` steps are numbered as they run, after `count` earlier ones; `pending`
lists the numbers not closed yet, latest first. -/
def spec.matching : List IfStep → Nat → List Nat → Option (List Nat)
  | [], _, _ => some []
  | .start _ :: rest, count, pending => matching rest (count + 1) ((count + 1) :: pending)
  | .finish :: _, _, [] => none
  | .finish :: rest, count, k :: pending => (matching rest count pending).map (k :: ·)

/-- The token at the index is a newline token. -/
def spec.isNewLine (tokens : List token.Token) (index : Nat) : Prop :=
  ∃ t, tokens[index]? = some t ∧ t.Kind = .NewLine

/-- The token at the index is the third of three newline tokens in a row. -/
def spec.thirdNewLine (tokens : List token.Token) (index : Nat) : Prop :=
  2 ≤ index ∧ spec.isNewLine tokens (index - 2) ∧ spec.isNewLine tokens (index - 1) ∧
    spec.isNewLine tokens index

/-- The blank lines of the specification: the indices of the newline tokens
that directly follow another newline token or start the file. -/
def spec.blankLines (tokens : List token.Token) : List Nat :=
  (List.range tokens.length).filter fun i =>
    (tokens[i]?.map (·.Kind)) == some .NewLine &&
      (i == 0 || (tokens[i - 1]?.map (·.Kind)) == some .NewLine)

/-- What C21 says of the instructions made from the tokens, all of them below
the index `limit`: each span is the slice of the tokens at its position; the
positions increase strictly and the spans are disjoint; an empty span belongs
to the end of a block; no span holds a block-start or block-end token. -/
structure instruction.Spans (tokens : List token.Token) (limit : Nat)
    (instructions : List instruction.Instruction) : Prop where
  slices : ∀ instr ∈ instructions,
    instr.Tokens = instruction.slice tokens instr.Position (instr.Position + instr.Tokens.length)
  bounded : ∀ instr ∈ instructions,
    instr.Position + instr.Tokens.length ≤ limit ∧ instr.Position < limit
  ordered : instructions.Pairwise fun a b =>
    a.Position + a.Tokens.length ≤ b.Position ∧ a.Position < b.Position
  nonempty : ∀ instr ∈ instructions, instr.Tokens = [] →
    instr.Kind = .IfEnd ∨ instr.Kind = .ForEnd ∨ instr.Kind = .LoopEnd ∨ instr.Kind = .StructEnd
  blocks : ∀ instr ∈ instructions, ∀ t ∈ instr.Tokens,
    t.Kind ≠ .BlockStart ∧ t.Kind ≠ .BlockEnd

/-- What holds of the local variables of `FromTokens` before the token at
index `i` is read. -/
structure instruction.Folded (tokens : List token.Token) (i : Nat)
    (f : instruction.Folding) : Prop where
  start : f.start ≤ i
  spans : instruction.Spans tokens f.start f.instructions
  pending : ∀ j t, f.start ≤ j → j < i → tokens[j]? = some t →
    t.Kind ≠ .BlockStart ∧ t.Kind ≠ .BlockEnd
  kind : f.instruction.Kind ≠ .Invalid → f.start < i

/-- What the compilation of a function keeps from one state to a later one,
whatever the cursors are: variables are only added; no times-used counter is
written (counters that are all zero stay so); the scopes only gain variables,
and variables that exist; the name and the position of a variable that exists
stay. -/
structure State.Keeps (s t : State) : Prop where
  allocated : s.allocated ≤ t.allocated
  zero : (∀ v, (s.variableStore v).TimesUsed = 0) → ∀ v, (t.variableStore v).TimesUsed = 0
  grows : ∀ v, v ∈ s.scopes.scopes.flatten → v ∈ t.scopes.scopes.flatten
  bounded : (∀ v, v ∈ s.scopes.scopes.flatten → v < s.allocated) →
    ∀ v, v ∈ t.scopes.scopes.flatten → v < t.allocated
  named : ∀ v, v < s.allocated →
    (t.variableStore v).Name = (s.variableStore v).Name ∧
      (t.variableStore v).Position = (s.variableStore v).Position

/-! ## Sample inputs -/

namespace sample

/-- A number leaf. -/
def number (position : Nat) (text : String) : Expression :=
  .mk { Kind := .Number, Position := position, Bytes := text } [] none

/-- A text leaf. -/
def text (position : Nat) (bytes : String) : Expression :=
  .mk { Kind := .Text, Position := position, Bytes := bytes } [] none

/-- An addition node. -/
def plus (position : Nat) (left right : Expression) : Expression :=
  .mk { Kind := .Operator, Position := position, Bytes := "+" } [left, right] none

/-- A call node with its parameters and destination register. -/
def call (position : Nat) (name : String) (parameters : List Expression)
    (destination : Option Nat) : Expression :=
  .mk { Kind := .Identifier, Position := position, Bytes := name } parameters destination

/-- A user function with the given name, parameter names and side effects. -/
def userFunction (name : String) (parameters : List String) (sideEffects : Int) : Function :=
  { Name := name
    Parameters := parameters.map fun p => { Name := p, Type_ := none }
    ReturnTypes := []
    NoParameterCheck := false
    IsBuiltin := false
    SideEffects := sideEffects
    CallCount := 0 }

/-- A store of functions: the builtins at 0, 1, 2, then `main()`, `f(a)`,
a user function `syscall()`, a side-effecting `g()` and `h(a, b)`. -/
def functionStore (a : Nat) : Function :=
  if a = 0 then printFunction
  else if a = 1 then storeFunction
  else if a = 2 then syscallFunction
  else if a = 3 then userFunction "main" [] 0
  else if a = 4 then userFunction "f" ["a"] 0
  else if a = 5 then userFunction "syscall" [] 0
  else if a = 6 then userFunction "g" [] 1
  else userFunction "h" ["a", "b"] 0

/-- The environment of the sample functions. -/
def environment : Environment :=
  { Functions := [("main", 3), ("f", 4), ("syscall", 5), ("g", 6), ("h", 7)] }

/-- A store of variables: the variable `x`, bound to the given register, at
every address. -/
def variableStore (xRegister : Option Nat) (_ : Nat) : Variable :=
  { Name := "x", Position := 0, Mutable := false, TimesUsed := 0, AliveUntil := 0,
    Register := xRegister }

/-- The register of `x` is held by `x` (the variable at address 0), the other
registers are free. -/
def user (xRegister : Option Nat) (r : Nat) : Option register.User :=
  if xRegister = some r then some (.Variable 0) else none

/-- A state compiling `main` with the variable `x` (the one variable made so
far) in scope and bound to the given register, over a pool of four registers
with the given call and return-value sequences. -/
def state (callRegisters returnValue : List Nat) (xRegister : Option Nat) : State :=
  { assembler := { Instructions := [], Strings := [] }
    scopes := { scopes := [[0]] }
    registers :=
      { Registers := [0, 1, 2, 3]
        Syscall := [0, 1, 2, 3]
        Call := callRegisters
        ReturnValue := returnValue
        user := user xRegister }
    function := 3
    environment := environment
    tokenCursor := 0
    instrCursor := 0
    ifState := { counter := 0, labels := [] }
    variableStore := variableStore xRegister
    functionStore := functionStore
    allocated := 1 }

/-- A similarity that finds `prnt` close to `print` and nothing else close to
anything. -/
def similarity (a b : String) : ℚ :=
  if a = "prnt" ∧ b = "print" then 19 / 20 else 0

/-- A sorter that returns the known names of the sample environment with
`print` first. -/
def sortSlice (_ : String → String → Bool) (_ : List String) : List String :=
  ["print", "syscall", "store", "main", "f", "syscall", "g", "h"]

/-- A token of the given kind, position and text. -/
def token (kind : token.Kind) (position : Nat) (bytes : String) : token.Token :=
  { Kind := kind, Position := position, Bytes := bytes }

/-- A stand-in for `expression.FromTokens` that reads `a op b` only. -/
def parse : List build.token.Token → Except String Expression
  | [a, op, b] => .ok (.mk op [.mk a [] none, .mk b [] none] none)
  | _ => .error "unsupported expression"

/-- The tokens of `x = 5`. -/
def assignFive : List build.token.Token :=
  [token .Identifier 0 "x", token .Operator 2 "=", token .Number 4 "5"]

/-- The tokens of `y = x`. -/
def assignCopy : List build.token.Token :=
  [token .Identifier 6 "y", token .Operator 8 "=", token .Identifier 10 "x"]

/-- The tokens of `y = 2 + 3`. -/
def assignSum : List build.token.Token :=
  [token .Identifier 0 "y", token .Operator 2 "=", token .Number 4 "2", token .Operator 6 "+",
    token .Number 8 "3"]

/-- The state of `Compile` for `main` once its parameters (none) are
declared. -/
def started : State :=
  (declareParameters (functionStore 3).Parameters
    (compileStart (state [0, 1, 2, 3] [0] none).registers functionStore 3 environment)).2

/-- The state after the instruction `x = 5` of `main` is compiled. -/
def afterFirst : State :=
  (State.CompileInstructionsFrom parse 0
    [{ Kind := .Assignment, Tokens := assignFive, Position := 0 }] started).2

/-- Helpers for the branches: `Expect` does nothing, and the comparison
emits `CompareRegisterNumber` for a register and a single number token. -/
def lowering : Lowering :=
  { Expect := fun s _ => s
    CompareRegisterExpression := fun s r tokens _ =>
      match r, tokens with
      | some left, [t] =>
        match strconv.ParseInt t.Text with
        | some n => (none, .ok, s.emit (.CompareRegisterNumber left (uint64 n)))
        | none => (none, .error (s.Error ("Not a number: " ++ t.Text)), s)
      | _, _ => (none, .error (s.Error "unsupported comparison"), s) }

/-- The tokens of `if x < 1`. -/
def ifLess : List build.token.Token :=
  [token .Keyword 0 "if", token .Identifier 3 "x", token .Operator 5 "<", token .Number 7 "1"]

/-- The tokens of the condition `x + 1`. -/
def conditionPlus : List build.token.Token :=
  [token .Identifier 3 "x", token .Operator 5 "+", token .Number 7 "1"]

/-- The steps of `if { if { } if { } }`, each `if` with the condition
`x < 1`. -/
def nestedIfs : List IfStep :=
  [.start ifLess, .start ifLess, .finish, .start ifLess, .finish, .finish]

/-- The statement `print("hi")`. -/
def printHi : instruction.Instruction :=
  { Kind := .Call
    Tokens := [token .Identifier 0 "print", token .GroupStart 5 "(", token .Text 6 "hi",
      token .GroupEnd 10 ")"]
    Position := 0 }

/-- Scanners that are never reached in a file of newlines and comments. -/
def scanners : Scanners :=
  { scanFunction := fun _ index => ("", index, some (.New "no scanner"))
    scanImport := fun _ index => ("", index, some (.New "no scanner"))
    scanStruct := fun _ index => ("", index, some (.New "no scanner")) }

/-- A comment followed by three newlines. -/
def commentThenNewlines : List build.token.Token :=
  [token .Comment 0 "# a", token .NewLine 3 "\n", token .NewLine 4 "\n", token .NewLine 5 "\n"]

/-- The tokens of `if x < 1 {`, `f()`, `}`, each on a line. -/
def ifBlock : List build.token.Token :=
  [token .Keyword 0 "if", token .Identifier 3 "x", token .Operator 5 "<", token .Number 7 "1",
    token .BlockStart 9 "\x7b", token .NewLine 10 "\n", token .Identifier 11 "f",
    token .GroupStart 12 "(", token .GroupEnd 13 ")", token .NewLine 14 "\n",
    token .BlockEnd 15 "\x7d", token .NewLine 16 "\n"]

/-- The tokens of `x = 1 # c` and the end of the line. -/
def assignThenComment : List build.token.Token :=
  [token .Identifier 0 "x", token .Operator 2 "=", token .Number 4 "1", token .Comment 6 "# c",
    token .NewLine 9 "\n"]

/-- The tokens of the unclosed call `f(1`. -/
def unclosedCall : List build.token.Token :=
  [token .Identifier 0 "f", token .GroupStart 1 "(", token .Number 2 "1"]

/-- The tokens of `y = y`. -/
def assignSelf : List build.token.Token :=
  [token .Identifier 0 "y", token .Operator 2 "=", token .Identifier 4 "y"]

/-- The tokens of `y = y + 1`. -/
def assignSelfPlus : List build.token.Token :=
  [token .Identifier 0 "y", token .Operator 2 "=", token .Identifier 4 "y",
    token .Operator 6 "+", token .Number 8 "1"]

/-- The tokens of `x = (1` and the end of the line. -/
def assignUnclosed : List build.token.Token :=
  [token .Identifier 0 "x", token .Operator 2 "=", token .GroupStart 4 "(", token .Number 5 "1",
    token .NewLine 6 "\n"]

/-- A pool without registers. -/
def noRegisters : register.Manager :=
  { Registers := [], Syscall := [], Call := [], ReturnValue := [], user := fun _ => none }

/-- The statements `x = 5` and `y = x`. -/
def assignThenCopy : List instruction.Instruction :=
  [{ Kind := .Assignment, Tokens := assignFive, Position := 0 },
    { Kind := .Assignment, Tokens := assignCopy, Position := 6 }]

/-- The tokens of the call `f()`. -/
def callNone : List build.token.Token :=
  [token .Identifier 0 "f", token .GroupStart 1 "(", token .GroupEnd 2 ")"]

/-- The tokens of the call `f(1, 2)`. -/
def callTwo : List build.token.Token :=
  [token .Identifier 0 "f", token .GroupStart 1 "(", token .Number 2 "1",
    token .Separator 3 ",", token .Number 5 "2", token .GroupEnd 6 ")"]

end sample

/-! ## Evaluation lemmas -/

theorem ParseInt_one : strconv.ParseInt "1" = some 1 := by decide

/-- The numeral `2` parses to 2. -/
theorem ParseInt_two : strconv.ParseInt "2" = some 2 := by decide

/-- The numeral `3` parses to 3. -/
theorem ParseInt_three : strconv.ParseInt "3" = some 3 := by decide

/-- The 64-bit difference of two signed 64-bit integers wraps at most once. -/
theorem wrap64_cases (a b : Int) (ha : -2 ^ 63 ≤ a ∧ a < 2 ^ 63) (hb : -2 ^ 63 ≤ b ∧ b < 2 ^ 63) :
    machine.wrap64 (a - b) =
      if a - b ≥ 2 ^ 63 then a - b - 2 ^ 64
      else if a - b < -2 ^ 63 then a - b + 2 ^ 64 else a - b := by
  obtain ⟨ha1, ha2⟩ := ha
  obtain ⟨hb1, hb2⟩ := hb
  unfold machine.wrap64
  norm_num at ha1 ha2 hb1 hb2 ⊢
  split_ifs <;> omega

/-! ## C1: lowering of sums -/

/-- C1 (evaluation of the code at `1 + (2 + 3)`): for every state,
`ExpressionToRegister` lowers the sum `1 + (2 + 3)` into register 0 without
error by emitting `mov r0, 2; add r0, 3; mov r0, 1; add r0, r0`: the right
operand is computed in the destination itself and then overwritten by the left
operand, so that from every register file the destination ends up holding 2,
not the sum 6 of the leaves. -/
theorem ExpressionToRegister_right_operand_overwritten (state : State) (m : machine.Registers) :
    (state.ExpressionToRegister
        (sample.plus 1 (sample.number 0 "1")
          (sample.plus 3 (sample.number 2 "2") (sample.number 4 "3"))) 0).2.1 = .ok ∧
    (state.ExpressionToRegister
        (sample.plus 1 (sample.number 0 "1")
          (sample.plus 3 (sample.number 2 "2") (sample.number 4 "3"))) 0).2.2.assembler.Instructions
      = state.assembler.Instructions ++
        [.MoveRegisterNumber 0 2, .AddRegisterNumber 0 3, .MoveRegisterNumber 0 1,
          .AddRegisterRegister 0 0] ∧
    machine.run m
        [.MoveRegisterNumber 0 2, .AddRegisterNumber 0 3, .MoveRegisterNumber 0 1,
          .AddRegisterRegister 0 0] 0 = 2 ∧
    machine.run m
        [.MoveRegisterNumber 0 2, .AddRegisterNumber 0 3, .MoveRegisterNumber 0 1,
          .AddRegisterRegister 0 0] 0 ≠ (1 + 2 + 3) % 2 ^ 64 := by
  refine ⟨?_, ?_, ?_, ?_⟩
  · simp [State.ExpressionToRegister, sample.plus, sample.number, Expression.Token,
      Expression.EachOperation, expression.eachChild, Expression.IsLeaf, Expression.Children,
      State.operation, Expression.setRegister, State.TokenToRegister, token.Token.Text,
      ParseInt_one, ParseInt_two, ParseInt_three, State.addRightOperand, Expression.Register]
  · simp [State.ExpressionToRegister, sample.plus, sample.number, Expression.Token,
      Expression.EachOperation, expression.eachChild, Expression.IsLeaf, Expression.Children,
      State.operation, Expression.setRegister, State.TokenToRegister, token.Token.Text,
      ParseInt_one, ParseInt_two, ParseInt_three, State.addRightOperand, Expression.Register,
      State.emit, asm.Assembler.emit, uint64]
  · simp [machine.run, machine.step, Function.update]
  · simp [machine.run, machine.step, Function.update]

/-- The left-nested sum `(1 + 2) + 3` is lowered into register 0 by
`mov r0, 1; add r0, 2; add r0, 3`, which leaves the sum 6 in the destination:
the left subtree is accumulated in place. -/
theorem ExpressionToRegister_left_nested_sum (state : State) (m : machine.Registers) :
    (state.ExpressionToRegister
        (sample.plus 3 (sample.plus 1 (sample.number 0 "1") (sample.number 2 "2"))
          (sample.number 4 "3")) 0).2.1 = .ok ∧
    (state.ExpressionToRegister
        (sample.plus 3 (sample.plus 1 (sample.number 0 "1") (sample.number 2 "2"))
          (sample.number 4 "3")) 0).2.2.assembler.Instructions
      = state.assembler.Instructions ++
        [.MoveRegisterNumber 0 1, .AddRegisterNumber 0 2, .AddRegisterNumber 0 3] ∧
    machine.run m [.MoveRegisterNumber 0 1, .AddRegisterNumber 0 2, .AddRegisterNumber 0 3] 0
      = (1 + 2 + 3) % 2 ^ 64 := by
  refine ⟨?_, ?_, ?_⟩
  · simp [State.ExpressionToRegister, sample.plus, sample.number, Expression.Token,
      Expression.EachOperation, expression.eachChild, Expression.IsLeaf, Expression.Children,
      State.operation, Expression.setRegister, State.TokenToRegister, token.Token.Text,
      ParseInt_one, ParseInt_two, ParseInt_three, State.addRightOperand, Expression.Register]
  · simp [State.ExpressionToRegister, sample.plus, sample.number, Expression.Token,
      Expression.EachOperation, expression.eachChild, Expression.IsLeaf, Expression.Children,
      State.operation, Expression.setRegister, State.TokenToRegister, token.Token.Text,
      ParseInt_one, ParseInt_two, ParseInt_three, State.addRightOperand, Expression.Register,
      State.emit, asm.Assembler.emit, uint64]
  · simp [machine.run, machine.step, Function.update]

/-! ## C2: the inverse conditional jump -/

/-- C2: for each of the six comparison operators, `IfFalseJump(op, label)`
appends exactly one instruction, the conditional jump to `label` whose
condition is the inverse of `op`, and changes nothing else; after `cmp a, b`
on signed 64-bit integers that jump is taken if and only if `a op b` is
false. -/
theorem IfFalseJump_emits_inverse_jump (op : spec.Comparison) (label : String) (state : State)
    (a b : Int) (ha : -2 ^ 63 ≤ a ∧ a < 2 ^ 63) (hb : -2 ^ 63 ≤ b ∧ b < 2 ^ 63) :
    state.IfFalseJump op.text label = state.emit (op.inverseJump label) ∧
    (state.IfFalseJump op.text label).assembler.Instructions
      = state.assembler.Instructions ++ [op.inverseJump label] ∧
    (machine.taken (machine.compare a b) (op.inverseJump label) = true ↔ ¬ op.holds a b) := by
  have hemit : state.IfFalseJump op.text label = state.emit (op.inverseJump label) := by
    cases op <;> simp [State.IfFalseJump, spec.Comparison.text, spec.Comparison.inverseJump]
  refine ⟨hemit, ?_, ?_⟩
  · rw [hemit]
    rfl
  · have hw := wrap64_cases a b ha hb
    obtain ⟨ha1, ha2⟩ := ha
    obtain ⟨hb1, hb2⟩ := hb
    norm_num at ha1 ha2 hb1 hb2 hw
    cases op <;>
      simp only [spec.Comparison.inverseJump, spec.Comparison.holds, machine.taken,
        machine.compare, hw] <;>
      split_ifs <;> simp <;> omega

/-- C2 at `5 < 10` with the label `if_1_end`: `jge if_1_end` is emitted and
not taken. -/
theorem IfFalseJump_emits_inverse_jump_witness :
    (-2 ^ 63 ≤ (5 : Int) ∧ (5 : Int) < 2 ^ 63) ∧ (-2 ^ 63 ≤ (10 : Int) ∧ (10 : Int) < 2 ^ 63) ∧
    (sample.state [0, 1, 2, 3] [0] none).IfFalseJump "<" "if_1_end"
      = (sample.state [0, 1, 2, 3] [0] none).emit (.JumpIfGreaterOrEqual "if_1_end") ∧
    ((sample.state [0, 1, 2, 3] [0] none).IfFalseJump "<" "if_1_end").assembler.Instructions
      = [] ++ [.JumpIfGreaterOrEqual "if_1_end"] ∧
    (machine.taken (machine.compare 5 10) (.JumpIfGreaterOrEqual "if_1_end") = true ↔
      ¬ ((5 : Int) < 10)) :=
  ⟨by decide, by decide,
    IfFalseJump_emits_inverse_jump .lt "if_1_end" (sample.state [0, 1, 2, 3] [0] none) 5 10
      (by decide) (by decide)⟩

/-! ## What lowering leaves alone -/

namespace State

/-- Nothing changed is a case of `Extends`. -/
theorem extends_refl (s : State) : s.Extends s :=
  ⟨rfl, rfl, rfl, rfl, rfl, fun _ => rfl, fun _ => rfl, ⟨[], by simp⟩⟩

/-- Two lowerings in a row. -/
theorem extends_trans {a b c : State} (hab : a.Extends b) (hbc : b.Extends c) : a.Extends c := by
  obtain ⟨code1, h1⟩ := hab.code
  obtain ⟨code2, h2⟩ := hbc.code
  exact
    ⟨hbc.registers.trans hab.registers, hbc.functionStore.trans hab.functionStore,
      hbc.function.trans hab.function, hbc.environment.trans hab.environment,
      hbc.scopes.trans hab.scopes, fun v => (hbc.bound v).trans (hab.bound v),
      fun v => (hbc.named v).trans (hab.named v),
      ⟨code1 ++ code2, by rw [h2, h1, List.append_assoc]⟩⟩

/-- Emitting an instruction only grows the stream. -/
theorem emit_extends (s : State) (i : asm.Instruction) : s.Extends (s.emit i) :=
  ⟨rfl, rfl, rfl, rfl, rfl, fun _ => rfl, fun _ => rfl, ⟨[i], rfl⟩⟩

/-- Recording a use of a variable (`AliveUntil`) keeps every binding. -/
theorem setAliveUntil_extends (s : State) (v n : Nat) : s.Extends (s.setAliveUntil v n) := by
  refine ⟨rfl, rfl, rfl, rfl, rfl, fun w => ?_, fun w => ?_, ⟨[], by simp [setAliveUntil]⟩⟩
  · by_cases h : w = v
    · subst h
      simp [setAliveUntil]
    · simp [setAliveUntil, Function.update_noteq h]
  · by_cases h : w = v
    · subst h
      simp [setAliveUntil]
    · simp [setAliveUntil, Function.update_noteq h]

/-- `TokenToRegister` only grows the stream and marks variables as alive. -/
theorem TokenToRegister_lowering (s : State) (t : token.Token) (r : Nat) :
    s.Extends (s.TokenToRegister t r).2 ∧ (s.TokenToRegister t r).1.ofLowering := by
  unfold TokenToRegister
  split
  · dsimp only
    split
    · exact ⟨extends_refl s, trivial⟩
    · rename_i v hv
      split
      · exact ⟨setAliveUntil_extends s v _, Or.inl rfl⟩
      · split
        · exact ⟨setAliveUntil_extends s v _, trivial⟩
        · exact ⟨extends_trans (setAliveUntil_extends s v _) (emit_extends _ _), trivial⟩
  · dsimp only
    split
    · exact ⟨extends_refl s, trivial⟩
    · exact ⟨emit_extends _ _, trivial⟩
  · exact ⟨⟨rfl, rfl, rfl, rfl, rfl, fun _ => rfl, fun _ => rfl, ⟨[_], rfl⟩⟩, trivial⟩
  · exact ⟨extends_refl s, trivial⟩

/-- The right operand of `+` only grows the stream and marks variables as alive. -/
theorem addRightOperand_lowering (s : State) (sub right : Expression) (r : Nat) :
    s.Extends (s.addRightOperand sub right r).2 ∧ (s.addRightOperand sub right r).1.ofLowering := by
  unfold addRightOperand
  split
  · split
    · dsimp only
      split
      · exact ⟨extends_refl s, trivial⟩
      · rename_i v hv
        split
        · exact ⟨setAliveUntil_extends s v _, Or.inl rfl⟩
        · exact ⟨extends_trans (setAliveUntil_extends s v _) (emit_extends _ _), trivial⟩
    · split
      · exact ⟨extends_refl s, trivial⟩
      · exact ⟨emit_extends _ _, trivial⟩
    · exact ⟨extends_refl s, trivial⟩
  · split
    · exact ⟨emit_extends _ _, trivial⟩
    · exact ⟨extends_refl s, Or.inl rfl⟩

/-- The callback of `ExpressionToRegister` only grows the stream and marks
variables as alive. -/
theorem operation_lowering (r : Nat) (sub : Expression) (s : State) :
    s.Extends (operation r sub s).2.2 ∧ (operation r sub s).2.1.ofLowering := by
  unfold operation
  dsimp only
  split
  · exact ⟨extends_refl s, Or.inr rfl⟩
  · rename_i left hleft
    have hleftStep :
        ∀ p : Outcome × State,
          p = (if left.IsLeaf = true then s.TokenToRegister left.Token r
            else if (sub.setRegister (some r)).Register ≠ left.Register then
              match left.Register with
              | none => (.panic nilDereference, s)
              | some leftRegister => (.ok, s.emit (.MoveRegisterRegister r leftRegister))
            else (.ok, s)) →
          s.Extends p.2 ∧ p.1.ofLowering := by
      intro p hp
      subst hp
      split
      · exact TokenToRegister_lowering s _ r
      · split
        · split
          · exact ⟨extends_refl s, Or.inl rfl⟩
          · exact ⟨emit_extends _ _, trivial⟩
        · exact ⟨extends_refl s, trivial⟩
    split
    · rename_i s2 heq
      have h2 := hleftStep _ heq.symm
      split
      · exact ⟨h2.1, Or.inr rfl⟩
      · split
        · have h3 := addRightOperand_lowering s2 (sub.setRegister (some r)) ‹_› r
          exact ⟨extends_trans h2.1 h3.1, h3.2⟩
        · exact ⟨h2.1, trivial⟩
    · rename_i o s2 hne heq
      exact hleftStep _ heq.symm
end State

mutual

/-- What the callback keeps and guarantees at every node, the traversal keeps
and guarantees for the tree. -/
theorem EachOperation_induction {σ : Type} (R : σ → σ → Prop) (Q : Outcome → Prop)
    (hrefl : ∀ s, R s s) (htrans : ∀ a b c, R a b → R b c → R a c) (hok : Q .ok)
    (callBack : Expression → σ → Expression × Outcome × σ)
    (hcb : ∀ e s, R s (callBack e s).2.2 ∧ Q (callBack e s).2.1) :
    ∀ (e : Expression) (s : σ),
      R s (Expression.EachOperation callBack e s).2.2 ∧
        Q (Expression.EachOperation callBack e s).2.1
  | .mk t cs r, s => by
    have h := eachChild_induction R Q hrefl htrans hok callBack hcb cs s
    unfold Expression.EachOperation
    rcases hc : expression.eachChild callBack cs s with ⟨cs2, o, s2⟩
    rw [hc] at h
    cases o with
    | ok => exact ⟨htrans _ _ _ h.1 (hcb _ _).1, (hcb _ _).2⟩
    | error e => exact h
    | panic m => exact h

/-- The same for the loop over the children. -/
theorem eachChild_induction {σ : Type} (R : σ → σ → Prop) (Q : Outcome → Prop)
    (hrefl : ∀ s, R s s) (htrans : ∀ a b c, R a b → R b c → R a c) (hok : Q .ok)
    (callBack : Expression → σ → Expression × Outcome × σ)
    (hcb : ∀ e s, R s (callBack e s).2.2 ∧ Q (callBack e s).2.1) :
    ∀ (cs : List Expression) (s : σ),
      R s (expression.eachChild callBack cs s).2.2 ∧ Q (expression.eachChild callBack cs s).2.1
  | [], s => by
    unfold expression.eachChild
    exact ⟨hrefl s, hok⟩
  | child :: rest, s => by
    unfold expression.eachChild
    by_cases hl : child.IsLeaf = true
    · simp only [hl, if_true]
      exact eachChild_induction R Q hrefl htrans hok callBack hcb rest s
    · simp only [hl]
      have h1 := EachOperation_induction R Q hrefl htrans hok callBack hcb child s
      rcases hc : Expression.EachOperation callBack child s with ⟨c2, o, s2⟩
      rw [hc] at h1
      cases o with
      | ok =>
        have h2 := eachChild_induction R Q hrefl htrans hok callBack hcb rest s2
        exact ⟨htrans _ _ _ h1.1 h2.1, h2.2⟩
      | error e => exact h1
      | panic m => exact h1

end

namespace State

/-- `ExpressionToRegister` keeps the register manager, the functions and every
binding, and ends as a lowering does. -/
theorem ExpressionToRegister_lowering (s : State) (expr : Expression) (r : Nat) :
    s.Extends (s.ExpressionToRegister expr r).2.2 ∧
      (s.ExpressionToRegister expr r).2.1.ofLowering := by
  unfold ExpressionToRegister
  split
  · exact TokenToRegister_lowering s _ r
  · exact EachOperation_induction State.Extends Outcome.ofLowering extends_refl
      (fun _ _ _ => extends_trans) trivial (operation r) (operation_lowering r) expr s

end State

/-! ## Left-deep sums -/

theorem Token_mk (t : token.Token) (cs : List Expression) (r : Option Nat) :
    (Expression.mk t cs r).Token = t := rfl

/-- The children of a constructed node. -/
theorem Children_mk (t : token.Token) (cs : List Expression) (r : Option Nat) :
    (Expression.mk t cs r).Children = cs := rfl

/-- The register of a constructed node. -/
theorem Register_mk (t : token.Token) (cs : List Expression) (r : Option Nat) :
    (Expression.mk t cs r).Register = r := rfl

/-- Assigning the register of a constructed node. -/
theorem setRegister_mk (t : token.Token) (cs : List Expression) (r r2 : Option Nat) :
    (Expression.mk t cs r).setRegister r2 = Expression.mk t cs r2 := rfl

namespace State

/-- Lowering does not change what a name resolves to. -/
theorem Get_of_extends {s t : State} (h : s.Extends t) (name : String) :
    t.scopes.Get t.variableStore name = s.scopes.Get s.variableStore name := by
  unfold ScopeStack.Get
  rw [h.scopes]
  congr 1
  funext v
  rw [h.named]

/-- A leaf of a sum stays one while the expression is lowered. -/
theorem SumLeaf_of_extends {s t : State} (h : s.Extends t) {r : Nat} {tok : token.Token}
    (hl : s.SumLeaf r tok) : t.SumLeaf r tok := by
  rcases hl with hn | ⟨hk, v, q, hg, hq, hne⟩
  · exact Or.inl hn
  · exact Or.inr ⟨hk, v, q, by rw [Get_of_extends h, hg], by rw [h.bound, hq], hne⟩

/-- The value of a leaf does not change while the expression is lowered. -/
theorem leafValue_of_extends {s t : State} (h : s.Extends t) (m : machine.Registers)
    (tok : token.Token) : t.leafValue m tok = s.leafValue m tok := by
  unfold leafValue
  rw [Get_of_extends h]
  cases tok.Kind <;> try rfl
  dsimp only
  cases s.scopes.Get s.variableStore tok.Text with
  | none => rfl
  | some v =>
    dsimp only
    rw [h.bound]

/-- Moving a leaf of a sum into `r`: one instruction that writes `r` only. -/
theorem TokenToRegister_sumLeaf (s : State) (r : Nat) (tok : token.Token)
    (hl : s.SumLeaf r tok) :
    ∃ i, (s.TokenToRegister tok r).1 = .ok ∧
      (s.TokenToRegister tok r).2.assembler.Instructions = s.assembler.Instructions ++ [i] ∧
      ∀ m : machine.Registers,
        machine.step m i r % 2 ^ 64 = s.leafValue m tok % 2 ^ 64 ∧
        ∀ q, q ≠ r → machine.step m i q = m q := by
  rcases hl with ⟨hk, n, hn⟩ | ⟨hk, v, q, hg, hq, hne⟩
  · refine ⟨.MoveRegisterNumber r (uint64 n), ?_, ?_, fun m => ⟨?_, fun q hq => ?_⟩⟩
    · simp [TokenToRegister, hk, hn]
    · simp [TokenToRegister, hk, hn, emit, asm.Assembler.emit]
    · simp [machine.step, leafValue, hk, hn]
    · simp [machine.step, Function.update_noteq hq]
  · have hq2 : ((s.setAliveUntil v (s.instrCursor + 1)).variableStore v).Register = some q := by
      rw [(setAliveUntil_extends s v _).bound, hq]
    refine ⟨.MoveRegisterRegister r q, ?_, ?_, fun m => ⟨?_, fun q2 hq2 => ?_⟩⟩
    · simp [TokenToRegister, hk, hg, hq2, hne]
    · simp [TokenToRegister, hk, hg, hq, hne, emit, asm.Assembler.emit, setAliveUntil]
    · simp [machine.step, leafValue, hk, hg, hq]
    · simp [machine.step, Function.update_noteq hq2]

/-- Adding a right leaf of a sum to `r`: one instruction that adds the value of
the leaf to `r` and writes `r` only. -/
theorem addRightOperand_sumLeaf (s : State) (r : Nat) (sub : Expression) (tok : token.Token)
    (reg : Option Nat) (hl : s.SumLeaf r tok) :
    ∃ i, (s.addRightOperand sub (.mk tok [] reg) r).1 = .ok ∧
      (s.addRightOperand sub (.mk tok [] reg) r).2.assembler.Instructions
        = s.assembler.Instructions ++ [i] ∧
      ∀ m : machine.Registers,
        machine.step m i r = (m r + s.leafValue m tok) % 2 ^ 64 ∧
        ∀ q, q ≠ r → machine.step m i q = m q := by
  rcases hl with ⟨hk, n, hn⟩ | ⟨hk, v, q, hg, hq, hne⟩
  · refine ⟨.AddRegisterNumber r (uint64 n), ?_, ?_, fun m => ⟨?_, fun q hq => ?_⟩⟩
    · simp [addRightOperand, Expression.IsLeaf, Expression.Children, Expression.Token, hk, hn]
    · simp [addRightOperand, Expression.IsLeaf, Expression.Children, Expression.Token, hk, hn,
        emit, asm.Assembler.emit]
    · simp [machine.step, leafValue, hk, hn]
    · simp [machine.step, Function.update_noteq hq]
  · have hq2 : ((s.setAliveUntil v (s.instrCursor + 1)).variableStore v).Register = some q := by
      rw [(setAliveUntil_extends s v _).bound, hq]
    refine ⟨.AddRegisterRegister r q, ?_, ?_, fun m => ⟨?_, fun q2 hq2 => ?_⟩⟩
    · simp [addRightOperand, Expression.IsLeaf, Expression.Children, Expression.Token, hk, hg,
        hq2]
    · simp [addRightOperand, Expression.IsLeaf, Expression.Children, Expression.Token, hk, hg,
        hq, emit, asm.Assembler.emit, setAliveUntil]
    · simp [machine.step, leafValue, hk, hg, hq]
    · simp [machine.step, Function.update_noteq hq2]

/-- The value of a leaf of a sum depends on the registers other than `r`
only. -/
theorem leafValue_congr (s : State) (r : Nat) (tok : token.Token) (hl : s.SumLeaf r tok)
    (m m2 : machine.Registers) (h : ∀ q, q ≠ r → m2 q = m q) :
    s.leafValue m2 tok = s.leafValue m tok := by
  rcases hl with ⟨hk, n, hn⟩ | ⟨hk, v, q, hg, hq, hne⟩
  · simp [leafValue, hk]
  · simp [leafValue, hk, hg, hq, h q hne]

/-- The callback on a `+` node whose left child is done (a leaf of a sum, or a
node already lowered into `r`) and whose right child is a leaf of a sum. -/
theorem operation_sum (s : State) (r : Nat) (op right : token.Token) (left : Expression)
    (reg regR : Option Nat) (hop : op.Text = "+") (hr : s.SumLeaf r right)
    (hleft : (left.IsLeaf = true ∧ s.SumLeaf r left.Token) ∨
      (left.IsLeaf = false ∧ left.Register = some r)) :
    ∃ s2 code,
      operation r (.mk op [left, .mk right [] regR] reg) s
        = (.mk op [left, .mk right [] regR] (some r), .ok, s2) ∧
      s.Extends s2 ∧
      s2.assembler.Instructions = s.assembler.Instructions ++ code ∧
      ∀ m : machine.Registers,
        (machine.run m code r =
          ((if left.IsLeaf = true then s.leafValue m left.Token else m r) + s.leafValue m right)
            % 2 ^ 64) ∧
        ∀ q, q ≠ r → machine.run m code q = m q := by
  rcases hleft with ⟨hleaf, hl⟩ | ⟨hnode, hreg⟩
  · obtain ⟨i1, ho1, hc1, hv1⟩ := TokenToRegister_sumLeaf s r left.Token hl
    have he1 := (TokenToRegister_lowering s left.Token r).1
    obtain ⟨i2, ho2, hc2, hv2⟩ := addRightOperand_sumLeaf (s.TokenToRegister left.Token r).2 r
      (.mk op [left, .mk right [] regR] (some r)) right regR (SumLeaf_of_extends he1 hr)
    have he2 := (addRightOperand_lowering (s.TokenToRegister left.Token r).2
      (.mk op [left, .mk right [] regR] (some r)) (.mk right [] regR) r).1
    refine ⟨_, [i1, i2], ?_, extends_trans he1 he2, ?_, fun m => ⟨?_, fun q hq => ?_⟩⟩
    · unfold operation
      simp only [setRegister_mk, Children_mk, List.getElem?_cons_zero,
        hleaf, if_true, Token_mk, hop]
      rcases h1 : s.TokenToRegister left.Token r with ⟨o1, s1⟩
      rw [h1] at ho1 ho2
      dsimp only at ho1 ho2 ⊢
      subst ho1
      simp only [List.getElem?_cons_succ, List.getElem?_cons_zero]
      rcases h2 : s1.addRightOperand (.mk op [left, .mk right [] regR] (some r))
        (.mk right [] regR) r with ⟨o2, s2⟩
      rw [h2] at ho2
      dsimp only at ho2 ⊢
      subst ho2
      rfl
    · rw [hc2, hc1]
      simp
    · simp only [machine.run, List.foldl_cons, List.foldl_nil, hleaf, if_true]
      rw [(hv2 _).1, leafValue_of_extends he1,
        leafValue_congr s r right hr m (machine.step m i1) (hv1 m).2, Nat.add_mod, (hv1 m).1,
        ← Nat.add_mod]
    · simp only [machine.run, List.foldl_cons, List.foldl_nil]
      rw [(hv2 _).2 q hq, (hv1 m).2 q hq]
  · obtain ⟨i2, ho2, hc2, hv2⟩ := addRightOperand_sumLeaf s r
      (.mk op [left, .mk right [] regR] (some r)) right regR hr
    have he2 := (addRightOperand_lowering s
      (.mk op [left, .mk right [] regR] (some r)) (.mk right [] regR) r).1
    refine ⟨_, [i2], ?_, he2, hc2, fun m => ⟨?_, fun q hq => ?_⟩⟩
    · unfold operation
      simp only [setRegister_mk, Children_mk, List.getElem?_cons_zero,
        hnode, Register_mk, hreg, ne_eq, not_true_eq_false, if_false,
        Token_mk, hop, Bool.false_eq_true, List.getElem?_cons_succ, if_true]
      rcases h2 : s.addRightOperand (.mk op [left, .mk right [] regR] (some r))
        (.mk right [] regR) r with ⟨o2, s2⟩
      rw [h2] at ho2
      dsimp only at ho2 ⊢
      subst ho2
      rfl
    · simp only [machine.run, List.foldl_cons, List.foldl_nil, hnode, Bool.false_eq_true,
        if_false]
      exact (hv2 m).1
    · simp only [machine.run, List.foldl_cons, List.foldl_nil]
      exact (hv2 m).2 q hq

/-- A left-deep tree is a leaf exactly when it has no operator. -/
theorem leftDeep_isLeaf (first : token.Token) (inner : List (token.Token × token.Token)) :
    (expression.leftDeep first inner).IsLeaf = inner.isEmpty := by
  cases inner with
  | nil => rfl
  | cons p rest => rfl

/-- The token of the tree without operator is the first leaf. -/
theorem leftDeep_token_nil (first : token.Token) : (expression.leftDeep first []).Token = first :=
  rfl

/-- The traversal of a node with two children whose right child is a leaf. -/
theorem EachOperation_node {σ : Type} (callBack : Expression → σ → Expression × Outcome × σ)
    (t right : token.Token) (left : Expression) (reg regR : Option Nat) (s : σ) :
    Expression.EachOperation callBack (.mk t [left, .mk right [] regR] reg) s =
      if left.IsLeaf = true then callBack (.mk t [left, .mk right [] regR] reg) s
      else
        match Expression.EachOperation callBack left s with
        | (left2, .ok, s2) => callBack (.mk t [left2, .mk right [] regR] reg) s2
        | (left2, o, s2) => (.mk t [left2, .mk right [] regR] reg, o, s2) := by
  have hright : (Expression.mk right [] regR).IsLeaf = true := rfl
  by_cases hl : left.IsLeaf = true
  · rw [if_pos hl, Expression.EachOperation]
    simp only [expression.eachChild, hl, hright, if_true]
  · rw [if_neg hl, Expression.EachOperation]
    simp only [expression.eachChild, hl, hright, if_true, Bool.false_eq_true, if_false]
    rcases Expression.EachOperation callBack left s with ⟨left2, o, s2⟩
    cases o <;> rfl

/-- The traversal of a left-deep sum: every operator node is lowered into `r`,
which ends up holding the sum of the leaves; no other register is written. -/
theorem EachOperation_leftDeep (r : Nat) (first : token.Token) :
    ∀ (inner : List (token.Token × token.Token)) (op right : token.Token) (s : State),
      s.SumLeaf r first →
      (∀ p ∈ (op, right) :: inner, p.1.Text = "+" ∧ s.SumLeaf r p.2) →
      ∃ e2 s2 code,
        Expression.EachOperation (operation r) (expression.leftDeep first ((op, right) :: inner)) s
          = (e2, .ok, s2) ∧
        e2.Register = some r ∧ e2.IsLeaf = false ∧ s.Extends s2 ∧
        s2.assembler.Instructions = s.assembler.Instructions ++ code ∧
        ∀ m : machine.Registers,
          machine.run m code r =
            (s.leafValue m first
              + (((op, right) :: inner).map fun p => s.leafValue m p.2).sum) % 2 ^ 64 ∧
          ∀ q, q ≠ r → machine.run m code q = m q := by
  intro inner
  induction inner with
  | nil =>
    intro op right s hfirst hall
    obtain ⟨hop, hright⟩ := hall (op, right) (by simp)
    obtain ⟨s2, code, hrun, hext, hcode, hval⟩ := operation_sum s r op right
      (expression.leftDeep first []) none none hop hright (Or.inl ⟨rfl, hfirst⟩)
    refine ⟨.mk op [expression.leftDeep first [], .mk right [] none] (some r), s2, code, ?_,
      rfl, rfl, hext, hcode, fun m => ⟨?_, (hval m).2⟩⟩
    · show Expression.EachOperation (operation r)
        (.mk op [expression.leftDeep first [], .mk right [] none] none) s = _
      have hleaf : (expression.leftDeep first []).IsLeaf = true := rfl
      rw [EachOperation_node, if_pos hleaf]
      exact hrun
    · rw [(hval m).1]
      simp [leftDeep_isLeaf, leftDeep_token_nil]
  | cons p rest ih =>
    intro op right s hfirst hall
    obtain ⟨hop, hright⟩ := hall (op, right) (by simp)
    obtain ⟨e1, s1, code1, hrun1, hreg1, hleaf1, hext1, hcode1, hval1⟩ :=
      ih p.1 p.2 s hfirst (fun q hq => hall q (List.mem_cons_of_mem _ hq))
    obtain ⟨s2, code2, hrun2, hext2, hcode2, hval2⟩ := operation_sum s1 r op right e1 none none
      hop (SumLeaf_of_extends hext1 hright) (Or.inr ⟨hleaf1, hreg1⟩)
    refine ⟨.mk op [e1, .mk right [] none] (some r), s2, code1 ++ code2, ?_, rfl, rfl,
      extends_trans hext1 hext2, ?_, fun m => ⟨?_, fun q hq => ?_⟩⟩
    · have hnotleaf : ¬ (expression.leftDeep first ((p.1, p.2) :: rest)).IsLeaf = true := by
        rw [leftDeep_isLeaf]
        simp
      show Expression.EachOperation (operation r)
        (.mk op [expression.leftDeep first ((p.1, p.2) :: rest), .mk right [] none] none) s = _
      rw [EachOperation_node, if_neg hnotleaf, hrun1]
      exact hrun2
    · rw [hcode2, hcode1, List.append_assoc]
    · have happ : machine.run m (code1 ++ code2) = machine.run (machine.run m code1) code2 := by
        simp [machine.run, List.foldl_append]
      rw [happ, (hval2 _).1, hleaf1]
      simp only [Bool.false_eq_true, if_false]
      rw [leafValue_of_extends hext1,
        leafValue_congr s r right hright m (machine.run m code1) (hval1 m).2, (hval1 m).1]
      simp only [List.map_cons, List.sum_cons]
      omega
    · have happ : machine.run m (code1 ++ code2) = machine.run (machine.run m code1) code2 := by
        simp [machine.run, List.foldl_append]
      rw [happ, (hval2 _).2 q hq, (hval1 m).2 q hq]

/-- For every left-deep tree of `+` whose leaves are number tokens or
variables bound to registers other than the destination `r`,
`ExpressionToRegister` succeeds and the instructions it appends leave in `r`
the sum of the leaves in 64-bit arithmetic, whatever the register file. -/
theorem ExpressionToRegister_left_deep_sum (state : State) (r : Nat) (first op right : token.Token)
    (inner : List (token.Token × token.Token))
    (hfirst : state.SumLeaf r first)
    (hall : ∀ p ∈ (op, right) :: inner,
      p.1.Kind = .Operator ∧ p.1.Text = "+" ∧ state.SumLeaf r p.2) :
    ∃ code,
      (state.ExpressionToRegister (expression.leftDeep first ((op, right) :: inner)) r).2.1 = .ok ∧
      (state.ExpressionToRegister
        (expression.leftDeep first ((op, right) :: inner)) r).2.2.assembler.Instructions
        = state.assembler.Instructions ++ code ∧
      ∀ m : machine.Registers,
        machine.run m code r =
          (state.leafValue m first
            + (((op, right) :: inner).map fun p => state.leafValue m p.2).sum) % 2 ^ 64 := by
  obtain ⟨e2, s2, code, hrun, -, -, -, hcode, hval⟩ :=
    EachOperation_leftDeep r first inner op right state hfirst
      (fun p hp => ⟨(hall p hp).2.1, (hall p hp).2.2⟩)
  have hkind : (expression.leftDeep first ((op, right) :: inner)).Token.Kind = .Operator :=
    (hall (op, right) (by simp)).1
  refine ⟨code, ?_, ?_, fun m => (hval m).1⟩
  · unfold ExpressionToRegister
    simp only [hkind, ne_eq, not_true_eq_false, if_false, hrun]
  · unfold ExpressionToRegister
    simp only [hkind, ne_eq, not_true_eq_false, if_false, hrun]
    exact hcode

/-- The sum `(x + 1) + x` with `x` in register 1 is lowered into register 0,
which ends up holding twice the content of register 1 plus one. -/
theorem ExpressionToRegister_left_deep_sum_instance :
    ∃ code,
      ((sample.state [0, 1, 2, 3] [0] (some 1)).ExpressionToRegister
        (expression.leftDeep { Kind := .Identifier, Position := 0, Bytes := "x" }
          [({ Kind := .Operator, Position := 3, Bytes := "+" },
              { Kind := .Identifier, Position := 4, Bytes := "x" }),
            ({ Kind := .Operator, Position := 1, Bytes := "+" },
              { Kind := .Number, Position := 2, Bytes := "1" })]) 0).2.1 = .ok ∧
      ((sample.state [0, 1, 2, 3] [0] (some 1)).ExpressionToRegister
        (expression.leftDeep { Kind := .Identifier, Position := 0, Bytes := "x" }
          [({ Kind := .Operator, Position := 3, Bytes := "+" },
              { Kind := .Identifier, Position := 4, Bytes := "x" }),
            ({ Kind := .Operator, Position := 1, Bytes := "+" },
              { Kind := .Number, Position := 2, Bytes := "1" })]) 0).2.2.assembler.Instructions
        = [] ++ code ∧
      ∀ m : machine.Registers, machine.run m code 0 = (m 1 + (m 1 + (1 + 0))) % 2 ^ 64 := by
  have hx : ∀ p : Nat, (sample.state [0, 1, 2, 3] [0] (some 1)).SumLeaf 0
      { Kind := .Identifier, Position := p, Bytes := "x" } :=
    fun p => Or.inr ⟨rfl, 0, 1,
      (by decide : (sample.state [0, 1, 2, 3] [0] (some 1)).scopes.Get
        (sample.state [0, 1, 2, 3] [0] (some 1)).variableStore "x" = some 0),
      rfl, by decide⟩
  have h1 : (sample.state [0, 1, 2, 3] [0] (some 1)).SumLeaf 0
      { Kind := .Number, Position := 2, Bytes := "1" } :=
    Or.inl ⟨rfl, 1, by decide⟩
  obtain ⟨code, hok, hcode, hval⟩ := ExpressionToRegister_left_deep_sum
    (sample.state [0, 1, 2, 3] [0] (some 1)) 0
    { Kind := .Identifier, Position := 0, Bytes := "x" }
    { Kind := .Operator, Position := 3, Bytes := "+" }
    { Kind := .Identifier, Position := 4, Bytes := "x" }
    [({ Kind := .Operator, Position := 1, Bytes := "+" },
      { Kind := .Number, Position := 2, Bytes := "1" })]
    (hx 0)
    (by
      intro p hp
      simp only [List.mem_cons, List.mem_singleton, List.not_mem_nil, or_false] at hp
      rcases hp with rfl | rfl
      · exact ⟨rfl, rfl, hx 4⟩
      · exact ⟨rfl, rfl, h1⟩)
  exact ⟨code, hok, hcode, hval⟩

end State

/-! ## The parameter check of `CallExpression` (used for C3) -/

namespace State

/-- Incrementing a side-effect counter changes no declaration. -/
theorem addSideEffects_declaration (s : State) (f g : Nat) :
    ((s.addSideEffects f).functionStore g).Name = (s.functionStore g).Name ∧
    ((s.addSideEffects f).functionStore g).Parameters = (s.functionStore g).Parameters ∧
    ((s.addSideEffects f).functionStore g).NoParameterCheck = (s.functionStore g).NoParameterCheck := by
  by_cases h : g = f
  · subst h
    simp [addSideEffects]
  · simp [addSideEffects, Function.update_noteq h]

/-- The side-effect bookkeeping of `CallExpression` changes no declaration. -/
theorem recordSideEffects_declaration (s : State) (f g : Nat) :
    ((s.recordSideEffects f).functionStore g).Name = (s.functionStore g).Name ∧
    ((s.recordSideEffects f).functionStore g).Parameters = (s.functionStore g).Parameters ∧
    ((s.recordSideEffects f).functionStore g).NoParameterCheck
      = (s.functionStore g).NoParameterCheck := by
  unfold recordSideEffects
  split
  · exact addSideEffects_declaration s s.function g
  · exact ⟨rfl, rfl, rfl⟩

/-- The side-effect bookkeeping of `CallExpression` touches the store of
functions only. -/
theorem recordSideEffects_frame (s : State) (f : Nat) :
    (s.recordSideEffects f).assembler = s.assembler ∧
    (s.recordSideEffects f).registers = s.registers ∧
    (s.recordSideEffects f).function = s.function ∧
    (s.recordSideEffects f).variableStore = s.variableStore ∧
    (s.recordSideEffects f).scopes = s.scopes := by
  unfold recordSideEffects
  split <;> exact ⟨rfl, rfl, rfl, rfl, rfl⟩

/-- A call whose callee is resolved runs the body on the state with the side
effects recorded. -/
theorem CallExpression_resolved (state : State) (expr : Expression) (function : Nat)
    (isBuiltin : Bool)
    (hfound : state.findFunction expr.Token.Text = (some function, isBuiltin)) :
    state.CallExpression expr =
      (state.recordSideEffects function).callResolved expr function isBuiltin := by
  unfold CallExpression
  simp only [hfound]

/-- The parameter check of `CallExpression`: when the callee is resolved, has
no `NoParameterCheck` flag, and the number of arguments differs from the number
of its declared parameters, `CallExpression` returns the error `ParameterCount`
carrying the callee's name, the count given and the count required, and the
assembler (instructions and strings) is the one before the call. -/
theorem CallExpression_count_error (state : State) (expr : Expression) (function : Nat)
    (isBuiltin : Bool)
    (hfound : state.findFunction expr.Token.Text = (some function, isBuiltin))
    (hcheck : (state.functionStore function).NoParameterCheck = false)
    (hcount : expr.Children.length ≠ (state.functionStore function).Parameters.length) :
    (state.CallExpression expr).1 =
      .error (.ParameterCount (state.functionStore function).Name expr.Children.length
        (state.functionStore function).Parameters.length) ∧
    (state.CallExpression expr).2.assembler = state.assembler := by
  obtain ⟨h1, h2, h3⟩ := recordSideEffects_declaration state function function
  rw [CallExpression_resolved state expr function isBuiltin hfound]
  unfold callResolved
  simp only [h1, h2, h3, hcheck, Bool.not_false, Bool.true_and, bne_iff_ne, ne_eq,
    hcount, not_false_eq_true, if_true]
  exact ⟨trivial, (recordSideEffects_frame state function).1⟩

end State

/-! ## C4: the expansion of `print` -/

theorem utf8ByteSize_newline (t : String) : (t ++ "\n").utf8ByteSize = t.utf8ByteSize + 1 := by
  have h : (t ++ "\n") = ⟨t.data ++ ['\n']⟩ := rfl
  rw [h]
  simp [String.utf8ByteSize, String.utf8Len_append]
  rfl

namespace State

/-- The declaration of `print` in a store that holds the builtins. -/
theorem holdsBuiltins_print {state : State} (h : state.HoldsBuiltins) :
    (state.functionStore 0).Name = "print" ∧ (state.functionStore 0).Parameters.length = 1 ∧
      (state.functionStore 0).NoParameterCheck = false := by
  have h0 := h (0, printFunction) (by simp [builtinObjects])
  obtain ⟨hn, hp, -, hc, -⟩ := h0
  simp only at hn hp hc
  rw [hn, hp, hc]
  exact ⟨rfl, rfl, rfl⟩

/-- The name `print` resolves to the builtin when no user function has it. -/
theorem findFunction_print (state : State)
    (huser : state.environment.Functions.lookup "print" = none) :
    state.findFunction "print" = (some 0, true) := by
  unfold findFunction
  rw [huser]
  rfl

/-- C4: for a call to the builtin `print` (the name is not a user function, the
builtin table is the one of `Builtin.go`, there are at least four syscall
registers): with a single text argument `t`, `CallExpression` returns no error,
interns `t` followed by a newline and appends exactly `mov syscall0, write`,
`mov syscall1, 1`, `mov syscall2, address of the interned string`,
`mov syscall3, len(t)+1`, `syscall`; with a single argument of another kind
it returns an error and leaves the assembler (instructions and strings) as it
was; with any other number of arguments the arity check fails first, so the
first argument is never read out of range. -/
theorem CallExpression_print (state : State) (expr : Expression) (r0 r1 r2 r3 : Nat)
    (rest : List Nat)
    (hname : expr.Token.Text = "print")
    (huser : state.environment.Functions.lookup "print" = none)
    (hbuiltins : state.HoldsBuiltins)
    (hsyscall : state.registers.Syscall = r0 :: r1 :: r2 :: r3 :: rest) :
    match expr.Children with
    | [parameter] =>
      if parameter.Token.Kind = .Text then
        (state.CallExpression expr).1 = .ok ∧
        (state.CallExpression expr).2.assembler.Instructions =
          state.assembler.Instructions ++
            [.MoveRegisterNumber r0 syscallWrite, .MoveRegisterNumber r1 1,
              .MoveRegisterAddress r2 state.assembler.Strings.length,
              .MoveRegisterNumber r3 (parameter.Token.Text.utf8ByteSize + 1), .Syscall] ∧
        (state.CallExpression expr).2.assembler.Strings =
          state.assembler.Strings ++ [parameter.Token.Text ++ "\n"] ∧
        (state.CallExpression expr).2.assembler.Strings[state.assembler.Strings.length]? =
          some (parameter.Token.Text ++ "\n")
      else
        (∃ message, (state.CallExpression expr).1 = .error (.Errorf message)) ∧
        (state.CallExpression expr).2.assembler = state.assembler
    | parameters =>
      (state.CallExpression expr).1 = .error (.ParameterCount "print" parameters.length 1) ∧
      (state.CallExpression expr).2.assembler = state.assembler := by
  obtain ⟨hn, hp, hc⟩ := holdsBuiltins_print hbuiltins
  have hfound := findFunction_print state huser
  rw [← hname] at hfound
  have key : ∀ s : State, s.assembler = state.assembler → s.registers = state.registers →
      (s.functionStore 0).Name = "print" →
      ∀ parameter : Expression,
      if parameter.Token.Kind = .Text then
        (s.printExpansion 0 [parameter]).1 = .ok ∧
        (s.printExpansion 0 [parameter]).2.assembler.Instructions =
          state.assembler.Instructions ++
            [.MoveRegisterNumber r0 syscallWrite, .MoveRegisterNumber r1 1,
              .MoveRegisterAddress r2 state.assembler.Strings.length,
              .MoveRegisterNumber r3 (parameter.Token.Text.utf8ByteSize + 1), .Syscall] ∧
        (s.printExpansion 0 [parameter]).2.assembler.Strings =
          state.assembler.Strings ++ [parameter.Token.Text ++ "\n"] ∧
        (s.printExpansion 0 [parameter]).2.assembler.Strings[state.assembler.Strings.length]? =
          some (parameter.Token.Text ++ "\n")
      else
        (∃ message, (s.printExpansion 0 [parameter]).1 = .error (.Errorf message)) ∧
        (s.printExpansion 0 [parameter]).2.assembler = state.assembler := by
    intro s ha hr hname0 parameter
    unfold printExpansion
    by_cases hk : parameter.Token.Kind = .Text
    · simp [hk, ha, hr, hsyscall, asm.Assembler.AddString, emit, asm.Assembler.emit,
        utf8ByteSize_newline]
    · simp [hk, ha]
  obtain ⟨h1, h2, h3⟩ := recordSideEffects_declaration state 0 0
  obtain ⟨ha, hr, -⟩ := recordSideEffects_frame state 0
  have hk := key (state.recordSideEffects 0) ha hr (h1.trans hn)
  rw [CallExpression_resolved state expr 0 true hfound]
  unfold callResolved
  simp only [h1, h2, h3, hc, hp, hn]
  split
  · rename_i parameter hch
    simp only [hch, List.length_singleton, bne_self_eq_false, Bool.and_false, hname]
    simpa using hk parameter
  · rename_i parameters hne
    have hlen : expr.Children.length ≠ 1 := by
      intro hl
      match hch : expr.Children, hl with
      | [p], _ => exact hne p hch
    simp [hlen, ha]

/-- The sample states hold the builtins. -/
theorem sample_holdsBuiltins (callRegisters returnValue : List Nat) (x : Option Nat) :
    (sample.state callRegisters returnValue x).HoldsBuiltins := by
  intro entry h
  simp only [builtinObjects, List.mem_cons, List.mem_singleton, List.not_mem_nil, or_false] at h
  rcases h with rfl | rfl | rfl <;> exact ⟨rfl, rfl, rfl, rfl, rfl⟩

/-- C4 at `print("Hello")`: one `write` with file descriptor 1 and length 6. -/
theorem CallExpression_print_witness :
    (sample.call 0 "print" [sample.text 1 "Hello"] none).Token.Text = "print" ∧
    (sample.state [0, 1, 2, 3] [0] none).environment.Functions.lookup "print" = none ∧
    (sample.state [0, 1, 2, 3] [0] none).HoldsBuiltins ∧
    (sample.state [0, 1, 2, 3] [0] none).registers.Syscall = 0 :: 1 :: 2 :: 3 :: [] ∧
    (((sample.state [0, 1, 2, 3] [0] none).CallExpression
        (sample.call 0 "print" [sample.text 1 "Hello"] none)).1 = .ok ∧
      ((sample.state [0, 1, 2, 3] [0] none).CallExpression
        (sample.call 0 "print" [sample.text 1 "Hello"] none)).2.assembler.Instructions =
        [] ++ [.MoveRegisterNumber 0 1, .MoveRegisterNumber 1 1, .MoveRegisterAddress 2 0,
          .MoveRegisterNumber 3 6, .Syscall] ∧
      ((sample.state [0, 1, 2, 3] [0] none).CallExpression
        (sample.call 0 "print" [sample.text 1 "Hello"] none)).2.assembler.Strings =
        [] ++ ["Hello\n"] ∧
      ((sample.state [0, 1, 2, 3] [0] none).CallExpression
        (sample.call 0 "print" [sample.text 1 "Hello"] none)).2.assembler.Strings[0]? =
        some "Hello\n") :=
  ⟨rfl, by decide, sample_holdsBuiltins _ _ _, rfl,
    CallExpression_print (sample.state [0, 1, 2, 3] [0] none)
      (sample.call 0 "print" [sample.text 1 "Hello"] none) 0 1 2 3 [] rfl (by decide)
      (sample_holdsBuiltins _ _ _) rfl⟩
end State

/-! ## Argument preparation (`BeforeCall`) -/

namespace register

/-- `Use` keeps the register lists. -/
theorem Use_layout (m : Manager) (r : Nat) (u : User) :
    (m.Use r u).2.Registers = m.Registers ∧ (m.Use r u).2.Syscall = m.Syscall ∧
      (m.Use r u).2.Call = m.Call ∧ (m.Use r u).2.ReturnValue = m.ReturnValue := by
  unfold Manager.Use
  split <;> exact ⟨rfl, rfl, rfl, rfl⟩

/-- `Use` on a free register takes it. -/
theorem Use_free (m : Manager) (r : Nat) (u : User) (h : m.user r = none) :
    m.Use r u = (none, { m with user := Function.update m.user r (some u) }) := by
  unfold Manager.Use
  rw [h]

/-- `Use` on a register in use fails with its user. -/
theorem Use_held (m : Manager) (r : Nat) (u existing : User)
    (h : m.user r = some existing) :
    m.Use r u = (some { Register := r, UsedBy := existing }, m) := by
  unfold Manager.Use
  rw [h]

/-- Freeing a list of registers keeps the register lists. -/
theorem foldl_Free_layout (l : List Nat) (m : Manager) :
    (l.foldl Manager.Free m).Registers = m.Registers ∧
      (l.foldl Manager.Free m).Syscall = m.Syscall ∧
      (l.foldl Manager.Free m).Call = m.Call ∧
      (l.foldl Manager.Free m).ReturnValue = m.ReturnValue := by
  induction l generalizing m with
  | nil => exact ⟨rfl, rfl, rfl, rfl⟩
  | cons r rest ih => exact ih (m.Free r)

/-- Freeing a list of registers clears exactly their users. -/
theorem foldl_Free_user (l : List Nat) (m : Manager) (r : Nat) :
    (l.foldl Manager.Free m).user r = if r ∈ l then none else m.user r := by
  induction l generalizing m with
  | nil => simp
  | cons a rest ih =>
    rw [List.foldl_cons, ih]
    by_cases hr : r ∈ rest
    · simp [hr]
    · by_cases ha : r = a
      · subst ha
        simp [hr, Manager.Free]
      · simp [hr, ha, Manager.Free, Function.update_noteq ha]

end register

namespace State

/-- Nothing changed is a case of `Prepares`. -/
theorem prepares_refl (s : State) : s.Prepares s :=
  ⟨rfl, rfl, rfl, rfl, rfl, rfl, rfl, ⟨[], by simp⟩⟩

/-- Two preparations in a row. -/
theorem prepares_trans {a b c : State} (hab : a.Prepares b) (hbc : b.Prepares c) :
    a.Prepares c := by
  obtain ⟨code1, h1⟩ := hab.code
  obtain ⟨code2, h2⟩ := hbc.code
  exact
    ⟨hbc.functionStore.trans hab.functionStore, hbc.function.trans hab.function,
      hbc.environment.trans hab.environment, hbc.Registers.trans hab.Registers,
      hbc.Syscall.trans hab.Syscall, hbc.Call.trans hab.Call,
      hbc.ReturnValue.trans hab.ReturnValue, ⟨code1 ++ code2, by rw [h2, h1, List.append_assoc]⟩⟩

/-- A lowering is a case of `Prepares`. -/
theorem extends_prepares {s t : State} (h : s.Extends t) : s.Prepares t :=
  ⟨h.functionStore, h.function, h.environment, by rw [h.registers], by rw [h.registers],
    by rw [h.registers], by rw [h.registers], h.code⟩

/-- The five ways `reserveCallRegister` can go, with the state each leaves. -/
theorem reserveCallRegister_cases (s : State) (i : Nat) (parameter : Expression) :
    (s.registers.Call[i]? = none ∧
        s.reserveCallRegister i parameter = (.panic indexOutOfRange, s, 0)) ∨
    (∃ c, s.registers.Call[i]? = some c ∧ s.registers.user c = none ∧
        s.reserveCallRegister i parameter =
          (.ok, { s with registers := { s.registers with
              user := Function.update s.registers.user c (some (.Expression parameter.Token)) } },
            c)) ∨
    (∃ c u, s.registers.Call[i]? = some c ∧ s.registers.user c = some u ∧
        s.registers.FindFreeRegister = none ∧
        s.reserveCallRegister i parameter = (.error .ExceededMaxVariables, s, c)) ∨
    (∃ c t f, s.registers.Call[i]? = some c ∧
        s.registers.user c = some (.Expression t) ∧ s.registers.FindFreeRegister = some f ∧
        s.reserveCallRegister i parameter =
          (.panic "This should never happen", s.emit (.MoveRegisterRegister f c), c)) ∨
    (∃ c v f, s.registers.Call[i]? = some c ∧
        s.registers.user c = some (.Variable v) ∧ s.registers.FindFreeRegister = some f ∧
        s.registers.user f = none ∧ f ≠ c ∧
        s.reserveCallRegister i parameter =
          (.ok,
            { s with
              assembler := s.assembler.emit (.MoveRegisterRegister f c)
              variableStore := Function.update s.variableStore v
                { s.variableStore v with Register := some f }
              registers := { s.registers with
                user := Function.update
                  (Function.update (Function.update s.registers.user f (some (.Variable v))) c none)
                  c (some (.Expression parameter.Token)) } },
            c)) := by
  unfold reserveCallRegister
  cases hc : s.registers.Call[i]? with
  | none => exact Or.inl ⟨rfl, rfl⟩
  | some c =>
    right
    cases hu : s.registers.user c with
    | none =>
      left
      refine ⟨c, rfl, hu, ?_⟩
      simp only [register.Use_free _ _ _ hu]
    | some u =>
      right
      simp only [register.Use_held _ _ _ _ hu]
      cases hf : s.registers.FindFreeRegister with
      | none => exact Or.inl ⟨c, u, rfl, hu, rfl, rfl⟩
      | some f =>
        right
        have hfree : s.registers.user f = none := by
          have := List.find?_some hf
          simpa using this
        have hfc : f ≠ c := by
          intro h
          rw [h, hu] at hfree
          exact Option.noConfusion hfree
        cases u with
        | Expression t => exact Or.inl ⟨c, t, f, rfl, hu, rfl, rfl⟩
        | Variable v =>
          right
          refine ⟨c, v, f, rfl, hu, rfl, hfree, hfc, ?_⟩
          have hfree2 : (s.emit (.MoveRegisterRegister f c)).registers.user f = none := hfree
          simp only [SetRegister, register.Use_free _ _ _ hfree2]
          simp only [register.Manager.Free, register.Manager.Use, Function.update_same, emit]
end State

/-- The outcomes of lowering are outcomes of argument preparation. -/
theorem ofLowering_ofPreparation {o : Outcome} (h : o.ofLowering) : o.ofPreparation := by
  cases o with
  | ok => trivial
  | error e => cases e <;> trivial
  | panic m => exact h

/-- In a list without duplicates the element at position `i` is not among the
first `i`. -/
theorem not_mem_take_of_nodup {l : List Nat} (hn : l.Nodup) {i c : Nat} (hc : l[i]? = some c) :
    c ∉ l.take i := by
  intro hmem
  obtain ⟨hi, hic⟩ := List.getElem?_eq_some.mp hc
  obtain ⟨j, hj, hjc⟩ := List.mem_take_iff_getElem.mp hmem
  have hj1 : j < i := lt_of_lt_of_le hj (min_le_left _ _)
  have hj2 : j < l.length := lt_of_lt_of_le hj (min_le_right _ _)
  have := (@List.Nodup.getElem_inj_iff _ l hn j hj2 i hi).mp (hjc.trans hic.symm)
  omega

/-- The first `i + 1` elements are the first `i` and the element at `i`. -/
theorem mem_take_succ {l : List Nat} {i c : Nat} (hc : l[i]? = some c) (r : Nat) :
    r ∈ l.take (i + 1) ↔ r ∈ l.take i ∨ r = c := by
  rw [List.take_succ, hc]
  simp

namespace State

/-- `reserveCallRegister` keeps the functions and the register lists. -/
theorem reserveCallRegister_prepares (s : State) (i : Nat) (parameter : Expression) :
    s.Prepares (s.reserveCallRegister i parameter).2.1 := by
  rcases reserveCallRegister_cases s i parameter with
    ⟨-, h⟩ | ⟨c, -, -, h⟩ | ⟨c, u, -, -, -, h⟩ | ⟨c, t, f, -, -, -, h⟩ | ⟨c, v, f, -, -, -, -, -, h⟩
  · rw [h]
    exact prepares_refl s
  · rw [h]
    exact ⟨rfl, rfl, rfl, rfl, rfl, rfl, rfl, ⟨[], by simp⟩⟩
  · rw [h]
    exact prepares_refl s
  · rw [h]
    exact ⟨rfl, rfl, rfl, rfl, rfl, rfl, rfl, ⟨[_], rfl⟩⟩
  · rw [h]
    exact ⟨rfl, rfl, rfl, rfl, rfl, rfl, rfl, ⟨[_], rfl⟩⟩

/-- `reserveCallRegister` keeps the description of the users and, under it,
neither returns `AlreadyInUse` nor panics on a foreign user. -/
theorem reserveCallRegister_users (s : State) (i : Nat) (parameter : Expression)
    (hu : s.CallUsers i) (hn : s.registers.Call.Nodup) :
    (s.reserveCallRegister i parameter).1.ofPreparation ∧
      ((s.reserveCallRegister i parameter).1 = .ok →
        (s.reserveCallRegister i parameter).2.1.CallUsers (i + 1)) := by
  rcases reserveCallRegister_cases s i parameter with
    ⟨-, h⟩ | ⟨c, hc, -, h⟩ | ⟨c, u, -, -, -, h⟩ | ⟨c, t, f, hc, hct, -, h⟩ |
      ⟨c, v, f, hc, -, -, -, hfc, h⟩
  · rw [h]
    exact ⟨Or.inr rfl, fun h => Outcome.noConfusion h⟩
  · rw [h]
    refine ⟨trivial, fun _ r u hr => ?_⟩
    simp only at hr
    by_cases hrc : r = c
    · exact Or.inr ((mem_take_succ hc r).mpr (Or.inr hrc))
    · rw [Function.update_noteq hrc] at hr
      rcases hu r u hr with h1 | h1
      · exact Or.inl h1
      · exact Or.inr ((mem_take_succ hc r).mpr (Or.inl h1))
  · rw [h]
    exact ⟨trivial, fun h => Outcome.noConfusion h⟩
  · exfalso
    rcases hu c _ hct with ⟨v, hv⟩ | hmem
    · exact register.User.noConfusion (Option.some.inj (congrArg some hv))
    · exact not_mem_take_of_nodup hn hc hmem
  · rw [h]
    refine ⟨trivial, fun _ r u hr => ?_⟩
    simp only at hr
    by_cases hrc : r = c
    · exact Or.inr ((mem_take_succ hc r).mpr (Or.inr hrc))
    · rw [Function.update_noteq hrc, Function.update_noteq hrc] at hr
      by_cases hrf : r = f
      · subst hrf
        rw [Function.update_same] at hr
        exact Or.inl ⟨v, (Option.some.inj hr).symm⟩
      · rw [Function.update_noteq hrf] at hr
        rcases hu r u hr with h1 | h1
        · exact Or.inl h1
        · exact Or.inr ((mem_take_succ hc r).mpr (Or.inl h1))

/-- The loop body of `BeforeCall` keeps the functions and the register lists. -/
theorem BeforeCallParameter_prepares (s : State) (i : Nat) (parameter : Expression) :
    s.Prepares (s.BeforeCallParameter i parameter).2 := by
  have h1 := reserveCallRegister_prepares s i parameter
  unfold BeforeCallParameter
  rcases hr : s.reserveCallRegister i parameter with ⟨o, t, c⟩
  rw [hr] at h1
  cases o with
  | ok => exact prepares_trans h1 (extends_prepares (ExpressionToRegister_lowering t parameter c).1)
  | error e => exact h1
  | panic m => exact h1

/-- The loop body of `BeforeCall` keeps the description of the users. -/
theorem BeforeCallParameter_users (s : State) (i : Nat) (parameter : Expression)
    (hu : s.CallUsers i) (hn : s.registers.Call.Nodup) :
    (s.BeforeCallParameter i parameter).1.ofPreparation ∧
      ((s.BeforeCallParameter i parameter).1 = .ok →
        (s.BeforeCallParameter i parameter).2.CallUsers (i + 1)) := by
  have h1 := reserveCallRegister_users s i parameter hu hn
  unfold BeforeCallParameter
  rcases hr : s.reserveCallRegister i parameter with ⟨o, t, c⟩
  rw [hr] at h1
  cases o with
  | ok =>
    have h2 := ExpressionToRegister_lowering t parameter c
    refine ⟨ofLowering_ofPreparation h2.2, fun _ r u hr2 => ?_⟩
    dsimp only at hr2 ⊢
    rw [h2.1.registers] at hr2 ⊢
    exact h1.2 rfl r u hr2
  | error e => exact ⟨h1.1, fun h => Outcome.noConfusion h⟩
  | panic m => exact ⟨h1.1, fun h => Outcome.noConfusion h⟩

/-- `BeforeCall` keeps the functions and the register lists. -/
theorem BeforeCallFrom_prepares (parameters : List Expression) :
    ∀ (i : Nat) (s : State), s.Prepares (BeforeCallFrom i parameters s).2 := by
  induction parameters with
  | nil => exact fun i s => prepares_refl s
  | cons parameter rest ih =>
    intro i s
    have h1 := BeforeCallParameter_prepares s i parameter
    unfold BeforeCallFrom
    rcases hr : s.BeforeCallParameter i parameter with ⟨o, t⟩
    rw [hr] at h1
    cases o with
    | ok => exact prepares_trans h1 (ih (i + 1) t)
    | error e => exact h1
    | panic m => exact h1

/-- When the registers in use are held by variables or by earlier parameters
and the call registers are distinct, `BeforeCall` ends as a preparation does. -/
theorem BeforeCallFrom_outcome (parameters : List Expression) :
    ∀ (i : Nat) (s : State), s.CallUsers i → s.registers.Call.Nodup →
      (BeforeCallFrom i parameters s).1.ofPreparation := by
  induction parameters with
  | nil => exact fun i s _ _ => trivial
  | cons parameter rest ih =>
    intro i s hu hn
    have h1 := BeforeCallParameter_users s i parameter hu hn
    have h2 := BeforeCallParameter_prepares s i parameter
    unfold BeforeCallFrom
    rcases hr : s.BeforeCallParameter i parameter with ⟨o, t⟩
    rw [hr] at h1 h2
    cases o with
    | ok => exact ih (i + 1) t (h1.2 rfl) (by rw [h2.Call]; exact hn)
    | error e => exact h1.1
    | panic m => exact h1.1

end State

namespace State

/-! ## C5: callee resolution -/

/-- C5 (evaluation of the code at a user function named `syscall`): the name
`syscall` is found among the user functions of the environment, so the callee
is not a builtin; the call `syscall()` succeeds and emits the raw instruction
`Syscall`, and no `Call("syscall")`. -/
theorem CallExpression_user_syscall :
    (sample.state [0, 1, 2, 3] [0] none).environment.Functions.lookup "syscall" = some 5 ∧
    (sample.state [0, 1, 2, 3] [0] none).findFunction "syscall" = (some 5, false) ∧
    ((sample.state [0, 1, 2, 3] [0] none).CallExpression
      (sample.call 0 "syscall" [] none)).1 = .ok ∧
    ((sample.state [0, 1, 2, 3] [0] none).CallExpression
      (sample.call 0 "syscall" [] none)).2.assembler.Instructions = [.Syscall] ∧
    asm.Instruction.Call "syscall" ∉
      ((sample.state [0, 1, 2, 3] [0] none).CallExpression
        (sample.call 0 "syscall" [] none)).2.assembler.Instructions := by
  decide

/-! ## C6: eviction of the occupant of a call register -/

/-- C6: in the loop body of `BeforeCall` at position `i` with call register `c`:
if `c` is in use by a variable `v` and `FindFreeRegister` yields `f` (the first
register of the pool without a user), then `MoveRegisterRegister(f, c)` is
appended before the parameter is lowered, and after the body `v` is bound to
`f`, `f` is used by `v` and `c` is used by the parameter expression; if `c` is
in use by a variable and no register is free, the body and the loop fail with
`ExceededMaxVariables` and leave the state as it was; if `c` is free, it is
taken by the parameter, nothing is emitted before the lowering. -/
theorem BeforeCall_eviction (state : State) (i : Nat) (parameter : Expression) (c : Nat)
    (hc : state.registers.Call[i]? = some c) :
    match state.registers.user c, state.registers.FindFreeRegister with
    | some (.Variable v), some f =>
      (∃ before after, state.registers.Registers = before ++ f :: after ∧
          (∀ r ∈ before, state.registers.user r ≠ none) ∧ state.registers.user f = none) ∧
      ∃ evicted : State,
        state.reserveCallRegister i parameter = (.ok, evicted, c) ∧
        evicted.assembler.Instructions =
          state.assembler.Instructions ++ [.MoveRegisterRegister f c] ∧
        state.BeforeCallParameter i parameter = (evicted.ExpressionToRegister parameter c).2 ∧
        (∃ lowered, (state.BeforeCallParameter i parameter).2.assembler.Instructions =
          state.assembler.Instructions ++ .MoveRegisterRegister f c :: lowered) ∧
        ((state.BeforeCallParameter i parameter).2.variableStore v).Register = some f ∧
        (state.BeforeCallParameter i parameter).2.registers.user f = some (.Variable v) ∧
        (state.BeforeCallParameter i parameter).2.registers.user c
          = some (.Expression parameter.Token)
    | some (.Variable _), none =>
      state.BeforeCallParameter i parameter = (.error .ExceededMaxVariables, state) ∧
      ∀ rest, BeforeCallFrom i (parameter :: rest) state = (.error .ExceededMaxVariables, state)
    | none, _ =>
      ∃ reserved : State,
        state.reserveCallRegister i parameter = (.ok, reserved, c) ∧
        reserved.assembler = state.assembler ∧
        reserved.registers.user c = some (.Expression parameter.Token) ∧
        state.BeforeCallParameter i parameter = (reserved.ExpressionToRegister parameter c).2
    | some (.Expression _), _ => True := by
  rcases reserveCallRegister_cases state i parameter with
    ⟨hn, -⟩ | ⟨c2, hc2, hfree, h⟩ | ⟨c2, u, hc2, hu, hnone, h⟩ | ⟨c2, t, f, hc2, hu, -, -⟩ |
      ⟨c2, v, f, hc2, hu, hf, hffree, hfc, h⟩
  · rw [hn] at hc
    exact Option.noConfusion hc
  · obtain rfl : c2 = c := Option.some.inj (hc2.symm.trans hc)
    rw [hfree]
    refine ⟨_, h, rfl, by simp, ?_⟩
    unfold BeforeCallParameter
    rw [h]
  · obtain rfl : c2 = c := Option.some.inj (hc2.symm.trans hc)
    rw [hu, hnone]
    cases u with
    | Expression t => trivial
    | Variable v =>
      have hp : state.BeforeCallParameter i parameter = (.error .ExceededMaxVariables, state) := by
        unfold BeforeCallParameter
        rw [h]
      refine ⟨hp, fun rest => ?_⟩
      unfold BeforeCallFrom
      rw [hp]
  · obtain rfl : c2 = c := Option.some.inj (hc2.symm.trans hc)
    rw [hu]
    split <;> first | trivial | simp_all
  · obtain rfl : c2 = c := Option.some.inj (hc2.symm.trans hc)
    rw [hu, hf]
    have hE : state.reserveCallRegister i parameter =
        (.ok, (state.reserveCallRegister i parameter).2.1, c2) := by
      rw [h]
    have hcode : (state.reserveCallRegister i parameter).2.1.assembler.Instructions =
        state.assembler.Instructions ++ [.MoveRegisterRegister f c2] := by
      rw [h]
      rfl
    have hbound : ((state.reserveCallRegister i parameter).2.1.variableStore v).Register
        = some f := by
      rw [h]
      simp
    have huf : (state.reserveCallRegister i parameter).2.1.registers.user f
        = some (.Variable v) := by
      rw [h]
      simp [Function.update_noteq hfc]
    have huc : (state.reserveCallRegister i parameter).2.1.registers.user c2
        = some (.Expression parameter.Token) := by
      rw [h]
      simp
    have hp : state.BeforeCallParameter i parameter =
        ((state.reserveCallRegister i parameter).2.1.ExpressionToRegister parameter c2).2 := by
      unfold BeforeCallParameter
      rw [h]
    obtain ⟨-, before, after, hsplit, hbefore⟩ := List.find?_eq_some.mp hf
    have hlow := (ExpressionToRegister_lowering
      (state.reserveCallRegister i parameter).2.1 parameter c2).1
    refine ⟨⟨before, after, hsplit, fun r hr => ?_, hffree⟩, _, hE, hcode, hp, ?_, ?_, ?_, ?_⟩
    · have := hbefore r hr
      intro hnone
      simp [hnone] at this
    · obtain ⟨code, hcode2⟩ := hlow.code
      refine ⟨code, ?_⟩
      rw [hp, hcode2, hcode]
      simp
    · rw [hp, hlow.bound, hbound]
    · rw [hp, hlow.registers, huf]
    · rw [hp, hlow.registers, huc]

/-- C6 at `f(1)` with `x` in the first call register: `x` moves to register 1. -/
theorem BeforeCall_eviction_witness :
    (sample.state [0, 1, 2, 3] [0] (some 0)).registers.Call[0]? = some 0 ∧
    ((∃ before after, [0, 1, 2, 3] = before ++ 1 :: after ∧
          (∀ r ∈ before, (sample.state [0, 1, 2, 3] [0] (some 0)).registers.user r ≠ none) ∧
          (sample.state [0, 1, 2, 3] [0] (some 0)).registers.user 1 = none) ∧
      ∃ evicted : State,
        (sample.state [0, 1, 2, 3] [0] (some 0)).reserveCallRegister 0 (sample.number 1 "1")
          = (.ok, evicted, 0) ∧
        evicted.assembler.Instructions = [] ++ [.MoveRegisterRegister 1 0] ∧
        (sample.state [0, 1, 2, 3] [0] (some 0)).BeforeCallParameter 0 (sample.number 1 "1")
          = (evicted.ExpressionToRegister (sample.number 1 "1") 0).2 ∧
        (∃ lowered,
          ((sample.state [0, 1, 2, 3] [0] (some 0)).BeforeCallParameter 0
            (sample.number 1 "1")).2.assembler.Instructions =
          [] ++ .MoveRegisterRegister 1 0 :: lowered) ∧
        (((sample.state [0, 1, 2, 3] [0] (some 0)).BeforeCallParameter 0
          (sample.number 1 "1")).2.variableStore 0).Register = some 1 ∧
        ((sample.state [0, 1, 2, 3] [0] (some 0)).BeforeCallParameter 0
          (sample.number 1 "1")).2.registers.user 1 = some (.Variable 0) ∧
        ((sample.state [0, 1, 2, 3] [0] (some 0)).BeforeCallParameter 0
          (sample.number 1 "1")).2.registers.user 0
          = some (.Expression { Kind := .Number, Position := 1, Bytes := "1" })) :=
  ⟨rfl, BeforeCall_eviction (sample.state [0, 1, 2, 3] [0] (some 0)) 0 (sample.number 1 "1") 0 rfl⟩

/-! ## C7: the binding invariant across a call -/

/-- The sample states satisfy the binding invariant. -/
theorem sample_binding (c rv : List Nat) (x : Option Nat) :
    (sample.state c rv x).BindingInvariant := by
  intro v hv r hr
  simp only [sample.state, sample.variableStore] at hr
  simp only [sample.state, List.flatten, List.mem_append, List.mem_singleton, List.not_mem_nil,
    or_false, List.append_nil] at hv
  subst hv
  simp [sample.state, sample.user, hr]

/-- C7 (evaluation of the code with `x` bound to the second call register and
the call `f(1)`): the binding invariant holds before the call, the call
succeeds, and the invariant fails afterwards: `x` is still bound to register 1,
which the loop over the call registers has freed. -/
theorem CallExpression_breaks_binding :
    (sample.state [0, 1, 2, 3] [0] (some 1)).BindingInvariant ∧
    ((sample.state [0, 1, 2, 3] [0] (some 1)).CallExpression
      (sample.call 0 "f" [sample.number 1 "1"] none)).1 = .ok ∧
    (((sample.state [0, 1, 2, 3] [0] (some 1)).CallExpression
      (sample.call 0 "f" [sample.number 1 "1"] none)).2.variableStore 0).Register = some 1 ∧
    ((sample.state [0, 1, 2, 3] [0] (some 1)).CallExpression
      (sample.call 0 "f" [sample.number 1 "1"] none)).2.registers.user 1 = none ∧
    ¬ ((sample.state [0, 1, 2, 3] [0] (some 1)).CallExpression
      (sample.call 0 "f" [sample.number 1 "1"] none)).2.BindingInvariant := by
  refine ⟨sample_binding _ _ _, by decide, by decide, by decide, ?_⟩
  intro h
  have h1 := h 0 (by decide) 1 (by decide)
  revert h1
  decide

end State

/-! ## The body of `CallExpression` -/

namespace State

/-- An `int32` below the maximum is incremented without wrapping. -/
theorem int32_succ (n : Int) (h1 : -2 ^ 31 ≤ n) (h2 : n < 2 ^ 31 - 1) : int32 (n + 1) = n + 1 := by
  unfold int32
  norm_num at h1 h2 ⊢
  omega

/-- The expansion of `print` touches the assembler only, and ends in success,
in an error made by `fmt.Errorf`, or in an index panic. -/
theorem printExpansion_frame (s : State) (function : Nat) (parameters : List Expression) :
    (s.printExpansion function parameters).2.functionStore = s.functionStore ∧
    (s.printExpansion function parameters).2.function = s.function ∧
    ((s.printExpansion function parameters).1 = .ok ∨
      (∃ message, (s.printExpansion function parameters).1 = .error (.Errorf message)) ∨
      (s.printExpansion function parameters).1 = .panic indexOutOfRange) := by
  unfold printExpansion
  split
  · exact ⟨rfl, rfl, Or.inr (Or.inr rfl)⟩
  · split
    · exact ⟨rfl, rfl, Or.inr (Or.inl ⟨_, rfl⟩)⟩
    · dsimp only [asm.Assembler.AddString]
      split
      · exact ⟨rfl, rfl, Or.inr (Or.inr rfl)⟩
      · split
        · exact ⟨rfl, rfl, Or.inr (Or.inr rfl)⟩
        · split
          · exact ⟨rfl, rfl, Or.inr (Or.inr rfl)⟩
          · split
            · exact ⟨rfl, rfl, Or.inr (Or.inr rfl)⟩
            · exact ⟨rfl, rfl, Or.inl rfl⟩

/-- The end of `CallExpression` touches the assembler and the registers
only. -/
theorem saveReturnValue_frame (s : State) (expr : Expression) :
    (s.saveReturnValue expr).2.functionStore = s.functionStore ∧
    (s.saveReturnValue expr).2.function = s.function := by
  unfold saveReturnValue
  split
  · exact ⟨rfl, rfl⟩
  · split
    · exact ⟨rfl, rfl⟩
    · dsimp only
      split
      · split <;> exact ⟨rfl, rfl⟩
      · exact ⟨rfl, rfl⟩

/-- `AfterCall` changes no side-effect counter. -/
theorem AfterCall_sideEffects (s : State) (f g : Nat) :
    ((s.AfterCall f).functionStore g).SideEffects = (s.functionStore g).SideEffects := by
  by_cases h : g = f
  · subst h
    simp [AfterCall]
  · simp [AfterCall, Function.update_noteq h]

/-- The body of `CallExpression` changes no side-effect counter. -/
theorem callResolved_sideEffects (s : State) (expr : Expression) (function : Nat)
    (isBuiltin : Bool) :
    (s.callResolved expr function isBuiltin).2.function = s.function ∧
    ∀ g, ((s.callResolved expr function isBuiltin).2.functionStore g).SideEffects
      = (s.functionStore g).SideEffects := by
  unfold callResolved
  dsimp only
  split
  · exact ⟨rfl, fun _ => rfl⟩
  · split
    · obtain ⟨h1, h2, -⟩ := printExpansion_frame s function expr.Children
      exact ⟨h2, fun g => by rw [h1]⟩
    · have hp := BeforeCallFrom_prepares expr.Children 0 s
      unfold BeforeCall
      rcases hb : BeforeCallFrom 0 expr.Children s with ⟨o, t⟩
      rw [hb] at hp
      cases o with
      | ok =>
        dsimp only
        obtain ⟨h1, h2⟩ := saveReturnValue_frame
          ((if (expr.Token.Text == "syscall") = true then t.emit .Syscall
            else t.emit (.Call expr.Token.Text)).AfterCall function).freeCallRegisters expr
        refine ⟨?_, fun g => ?_⟩
        · rw [h2]
          split <;> exact hp.function
        · rw [h1]
          show ((State.AfterCall _ function).functionStore g).SideEffects = _
          rw [AfterCall_sideEffects]
          split <;> exact congrArg (fun st => (st g).SideEffects) hp.functionStore
      | error e => exact ⟨hp.function, fun g => by rw [hp.functionStore]⟩
      | panic m => exact ⟨hp.function, fun g => by rw [hp.functionStore]⟩

end State

/-! ## C8: `AlreadyInUse` and the panic of `BeforeCall` -/

namespace State

/-- The outcomes of argument preparation let no `AlreadyInUse` escape. -/
theorem ofPreparation_recovered {o : Outcome} (h : o.ofPreparation) : o.recovered := by
  cases o with
  | ok => exact ⟨fun _ h => Outcome.noConfusion h, fun h => Outcome.noConfusion h⟩
  | error e =>
    cases e <;>
      first
      | exact h.elim
      | exact ⟨fun _ h => Error.noConfusion (Outcome.error.inj h),
          fun h => Outcome.noConfusion h⟩
  | panic m =>
    refine ⟨fun _ h => Outcome.noConfusion h, fun hm => ?_⟩
    have hm2 : m = "This should never happen" := Outcome.panic.inj hm
    subst hm2
    rcases h with h | h
    · revert h
      decide
    · revert h
      decide

/-- After the free loop every call register is free. -/
theorem freeCallRegisters_user (s : State) (r : Nat) (hr : r ∈ s.registers.Call) :
    s.freeCallRegisters.registers.user r = none := by
  unfold freeCallRegisters
  dsimp only
  rw [register.foldl_Free_user, if_pos hr]

/-- The free loop keeps the register lists. -/
theorem freeCallRegisters_layout (s : State) :
    s.freeCallRegisters.registers.Call = s.registers.Call ∧
    s.freeCallRegisters.registers.ReturnValue = s.registers.ReturnValue := by
  unfold freeCallRegisters
  dsimp only
  exact ⟨(register.foldl_Free_layout _ _).2.2.1, (register.foldl_Free_layout _ _).2.2.2⟩

/-- With a free return-value register the end of `CallExpression` succeeds or
finds no return-value register. -/
theorem saveReturnValue_free (s : State) (expr : Expression)
    (hfree : ∀ rv, s.registers.ReturnValue[0]? = some rv → s.registers.user rv = none) :
    (s.saveReturnValue expr).1 = .ok ∨ (s.saveReturnValue expr).1 = .panic indexOutOfRange := by
  unfold saveReturnValue
  cases hrv : s.registers.ReturnValue[0]? with
  | none => exact Or.inr rfl
  | some rv =>
    dsimp only
    rw [register.Use_free _ _ _ (hfree rv hrv)]
    dsimp only
    split <;> exact Or.inl rfl

/-- The body of `CallExpression` lets no `AlreadyInUse` escape under the
conditions on the register lists. -/
theorem callResolved_recovered (s : State) (expr : Expression) (function : Nat)
    (isBuiltin : Bool)
    (hvars : ∀ r u, s.registers.user r = some u → ∃ v, u = .Variable v)
    (hnodup : s.registers.Call.Nodup)
    (hreturn : ∀ r, s.registers.ReturnValue[0]? = some r → r ∈ s.registers.Call) :
    (s.callResolved expr function isBuiltin).1.recovered := by
  unfold callResolved
  dsimp only
  split
  · exact ⟨fun _ h => Error.noConfusion (Outcome.error.inj h), fun h => Outcome.noConfusion h⟩
  · split
    · rcases (printExpansion_frame s function expr.Children).2.2 with h | ⟨m, h⟩ | h
      · rw [h]
        exact ofPreparation_recovered trivial
      · rw [h]
        exact ⟨fun _ h => Error.noConfusion (Outcome.error.inj h),
          fun h => Outcome.noConfusion h⟩
      · rw [h]
        exact ofPreparation_recovered (Or.inr rfl)
    · have hp := BeforeCallFrom_prepares expr.Children 0 s
      have ho := BeforeCallFrom_outcome expr.Children 0 s (fun r u h => Or.inl (hvars r u h)) hnodup
      unfold BeforeCall
      rcases hb : BeforeCallFrom 0 expr.Children s with ⟨o, t⟩
      rw [hb] at hp ho
      cases o with
      | ok =>
        dsimp only
        have hfree : ∀ rv,
            (((if (expr.Token.Text == "syscall") = true then t.emit .Syscall
              else t.emit (.Call expr.Token.Text)).AfterCall function).freeCallRegisters).registers.ReturnValue[0]?
              = some rv →
            (((if (expr.Token.Text == "syscall") = true then t.emit .Syscall
              else t.emit (.Call expr.Token.Text)).AfterCall function).freeCallRegisters).registers.user rv
              = none := by
          intro rv hrv
          have hcall : ((if (expr.Token.Text == "syscall") = true then t.emit .Syscall
              else t.emit (.Call expr.Token.Text)).AfterCall function).registers = t.registers := by
            split <;> rfl
          apply freeCallRegisters_user
          rw [(freeCallRegisters_layout _).2, hcall, hp.ReturnValue] at hrv
          rw [hcall, hp.Call]
          exact hreturn rv hrv
        rcases saveReturnValue_free _ expr hfree with h | h
        · rw [h]
          exact ofPreparation_recovered trivial
        · rw [h]
          exact ofPreparation_recovered (Or.inr rfl)
      | error e => exact ofPreparation_recovered ho
      | panic m => exact ofPreparation_recovered ho

/-- C8 (amended): if every register in use is held by a variable, the call
registers are pairwise distinct and the return-value register is one of the
call registers, then `CallExpression` never returns `AlreadyInUse` and never
reaches the panic `This should never happen`. -/
theorem CallExpression_recovers_AlreadyInUse (state : State) (expr : Expression)
    (hvars : ∀ r u, state.registers.user r = some u → ∃ v, u = .Variable v)
    (hnodup : state.registers.Call.Nodup)
    (hreturn : ∀ r, state.registers.ReturnValue[0]? = some r → r ∈ state.registers.Call) :
    (∀ err, (state.CallExpression expr).1 ≠ .error (.AlreadyInUse err)) ∧
    (state.CallExpression expr).1 ≠ .panic "This should never happen" := by
  rcases hfound : state.findFunction expr.Token.Text with ⟨found, isBuiltin⟩
  cases found with
  | none =>
    unfold CallExpression
    simp only [hfound]
    exact ⟨fun _ h => Error.noConfusion (Outcome.error.inj h), fun h => Outcome.noConfusion h⟩
  | some function =>
    rw [CallExpression_resolved state expr function isBuiltin hfound]
    obtain ⟨-, hr, -⟩ := recordSideEffects_frame state function
    exact callResolved_recovered _ expr function isBuiltin (by rw [hr]; exact hvars)
      (by rw [hr]; exact hnodup) (by rw [hr]; exact hreturn)

/-- In the sample states every register in use is held by a variable. -/
theorem sample_users (c rv : List Nat) (x : Option Nat) :
    ∀ r u, (sample.state c rv x).registers.user r = some u → ∃ v, u = .Variable v := by
  intro r u h
  simp only [sample.state, sample.user] at h
  split at h
  · exact ⟨0, (Option.some.inj h).symm⟩
  · exact Option.noConfusion h

/-- C8 (amended) at `f(1)` with `x` in the first call register, which is also
the return-value register. -/
theorem CallExpression_recovers_AlreadyInUse_witness :
    (∀ r u, (sample.state [0, 1, 2, 3] [0] (some 0)).registers.user r = some u →
      ∃ v, u = .Variable v) ∧
    (sample.state [0, 1, 2, 3] [0] (some 0)).registers.Call.Nodup ∧
    (∀ r, (sample.state [0, 1, 2, 3] [0] (some 0)).registers.ReturnValue[0]? = some r →
      r ∈ (sample.state [0, 1, 2, 3] [0] (some 0)).registers.Call) ∧
    (∀ err, ((sample.state [0, 1, 2, 3] [0] (some 0)).CallExpression
      (sample.call 0 "f" [sample.number 1 "1"] none)).1 ≠ .error (.AlreadyInUse err)) ∧
    ((sample.state [0, 1, 2, 3] [0] (some 0)).CallExpression
      (sample.call 0 "f" [sample.number 1 "1"] none)).1 ≠ .panic "This should never happen" :=
  ⟨sample_users _ _ _, by decide, by decide,
    CallExpression_recovers_AlreadyInUse (sample.state [0, 1, 2, 3] [0] (some 0))
      (sample.call 0 "f" [sample.number 1 "1"] none) (sample_users _ _ _) (by decide) (by decide)⟩

/-- C8 fails as stated: with the return-value register 1 outside the call
registers and held by the variable `x`, the call `f(1)` returns `AlreadyInUse`
to its caller; and with a call register listed twice, the call `h(1, 2)`
reaches the panic `This should never happen`.  In both states every register
in use is held by a variable. -/
theorem CallExpression_returns_AlreadyInUse :
    (∀ r u, (sample.state [0, 2, 3] [1] (some 1)).registers.user r = some u →
      ∃ v, u = .Variable v) ∧
    ((sample.state [0, 2, 3] [1] (some 1)).CallExpression
      (sample.call 0 "f" [sample.number 1 "1"] none)).1
      = .error (.AlreadyInUse { Register := 1, UsedBy := .Variable 0 }) ∧
    (∀ r u, (sample.state [0, 0] [0] none).registers.user r = some u →
      ∃ v, u = .Variable v) ∧
    ((sample.state [0, 0] [0] none).CallExpression
      (sample.call 0 "h" [sample.number 1 "1", sample.number 2 "2"] none)).1
      = .panic "This should never happen" :=
  ⟨sample_users _ _ _, by decide, sample_users _ _ _, by decide⟩
/-! ## C9: the registers and the last instruction after a call -/

/-- What a successful end of `CallExpression` does. -/
theorem saveReturnValue_ok (s : State) (expr : Expression)
    (hok : (s.saveReturnValue expr).1 = .ok) :
    ∃ rv, s.registers.ReturnValue[0]? = some rv ∧ s.registers.user rv = none ∧
      (s.saveReturnValue expr).2.registers.Call = s.registers.Call ∧
      (s.saveReturnValue expr).2.registers.ReturnValue = s.registers.ReturnValue ∧
      (∀ r, r ≠ rv → (s.saveReturnValue expr).2.registers.user r = s.registers.user r) ∧
      (if expr.Register = some rv then
        (s.saveReturnValue expr).2.registers.user rv = some (.Expression expr.Token) ∧
        (s.saveReturnValue expr).2.assembler = s.assembler
      else
        (s.saveReturnValue expr).2.registers.user rv = none ∧
        match expr.Register with
        | some d =>
          (s.saveReturnValue expr).2.assembler.Instructions =
            s.assembler.Instructions ++ [.MoveRegisterRegister d rv]
        | none => (s.saveReturnValue expr).2.assembler = s.assembler) := by
  unfold saveReturnValue at hok ⊢
  cases hrv : s.registers.ReturnValue[0]? with
  | none =>
    rw [hrv] at hok
    exact Outcome.noConfusion hok
  | some rv =>
    rw [hrv] at hok
    dsimp only at hok ⊢
    cases hu : s.registers.user rv with
    | some u =>
      rw [register.Use_held _ _ _ _ hu] at hok
      exact Outcome.noConfusion hok
    | none =>
      rw [register.Use_free _ _ _ hu]
      refine ⟨rv, rfl, hu, ?_⟩
      dsimp only
      by_cases hd : expr.Register = some rv
      · rw [if_pos hd, if_neg (not_not.mpr hd)]
        refine ⟨rfl, rfl, fun r hr => ?_, ?_, rfl⟩
        · simp [Function.update_noteq hr]
        · simp
      · rw [if_neg hd, if_pos hd]
        cases hreg : expr.Register with
        | none =>
          refine ⟨rfl, rfl, fun r hr => ?_, ?_, rfl⟩
          · simp [register.Manager.Free, Function.update_noteq hr]
          · simp [register.Manager.Free]
        | some d =>
          refine ⟨rfl, rfl, fun r hr => ?_, ?_, rfl⟩
          · simp [register.Manager.Free, Function.update_noteq hr, emit]
          · simp [register.Manager.Free, emit]

/-- C9 (amended): after a successful call that is not the expansion of `print`,
with `rv` the return-value register: every call register other than `rv` is
free; if the destination of the call expression is `rv` itself, `rv` stays in
use by the call expression and the last instruction is the call; otherwise all
call registers and `rv` are free, and the last instruction is
`MoveRegisterRegister(d, rv)` for a destination `d`, and the `Call` or `Syscall`
instruction itself when there is no destination. -/
theorem CallExpression_after_call (state : State) (expr : Expression) (function : Nat)
    (isBuiltin : Bool)
    (hfound : state.findFunction expr.Token.Text = (some function, isBuiltin))
    (hnotprint : (isBuiltin && expr.Token.Text == "print") = false)
    (hok : (state.CallExpression expr).1 = .ok) :
    ∃ rv, (state.CallExpression expr).2.registers.ReturnValue[0]? = some rv ∧
      (∀ r ∈ (state.CallExpression expr).2.registers.Call, r ≠ rv →
        (state.CallExpression expr).2.registers.user r = none) ∧
      (if expr.Register = some rv then
        (state.CallExpression expr).2.registers.user rv = some (.Expression expr.Token) ∧
        (state.CallExpression expr).2.assembler.Instructions.getLast?
          = some (callInstruction expr.Token.Text)
      else
        (∀ r ∈ (state.CallExpression expr).2.registers.Call,
          (state.CallExpression expr).2.registers.user r = none) ∧
        (state.CallExpression expr).2.registers.user rv = none ∧
        match expr.Register with
        | some d =>
          (state.CallExpression expr).2.assembler.Instructions.getLast?
            = some (.MoveRegisterRegister d rv)
        | none =>
          (state.CallExpression expr).2.assembler.Instructions.getLast?
            = some (callInstruction expr.Token.Text)) := by
  rw [CallExpression_resolved state expr function isBuiltin hfound] at hok ⊢
  generalize state.recordSideEffects function = s at hok ⊢
  unfold callResolved at hok ⊢
  dsimp only at hok ⊢
  split at hok
  · exact Outcome.noConfusion hok
  · rename_i hcheck
    rw [if_neg hcheck]
    rw [hnotprint] at hok ⊢
    simp only [Bool.false_eq_true, if_false] at hok ⊢
    unfold BeforeCall at hok ⊢
    rcases hb : BeforeCallFrom 0 expr.Children s with ⟨o, t⟩
    rw [hb] at hok
    cases o with
    | error e => exact Outcome.noConfusion hok
    | panic m => exact Outcome.noConfusion hok
    | ok =>
      dsimp only at hok ⊢
      have hlast : (((if (expr.Token.Text == "syscall") = true then t.emit .Syscall
          else t.emit (.Call expr.Token.Text)).AfterCall function).freeCallRegisters).assembler.Instructions.getLast?
          = some (callInstruction expr.Token.Text) := by
        unfold callInstruction
        split <;> simp [freeCallRegisters, AfterCall, emit, asm.Assembler.emit]
      generalize ((if (expr.Token.Text == "syscall") = true then t.emit .Syscall
          else t.emit (.Call expr.Token.Text)).AfterCall function) = t2 at hok hlast ⊢
      obtain ⟨rv, hrv, -, hcall, hret, hother, hdest⟩ := saveReturnValue_ok _ expr hok
      have hfree := freeCallRegisters_user t2
      rw [← (freeCallRegisters_layout t2).1] at hfree
      refine ⟨rv, by rw [hret]; exact hrv, fun r hr hne => ?_, ?_⟩
      · rw [hother r hne]
        rw [hcall] at hr
        exact hfree r hr
      · by_cases hd : expr.Register = some rv
        · rw [if_pos hd] at hdest ⊢
          exact ⟨hdest.1, by rw [hdest.2]; exact hlast⟩
        · rw [if_neg hd] at hdest ⊢
          refine ⟨fun r hr => ?_, hdest.1, ?_⟩
          · by_cases hne : r = rv
            · rw [hne]
              exact hdest.1
            · rw [hother r hne]
              rw [hcall] at hr
              exact hfree r hr
          · cases hreg : expr.Register with
            | none =>
              have h2 := hdest.2
              rw [hreg] at h2
              dsimp only at h2 ⊢
              rw [h2]
              exact hlast
            | some d =>
              have h2 := hdest.2
              rw [hreg] at h2
              dsimp only at h2 ⊢
              rw [h2]
              simp

/-- C9 (amended) at `f(1)` with destination register 2. -/
theorem CallExpression_after_call_witness :
    (sample.state [0, 1, 2, 3] [0] none).findFunction
      (sample.call 0 "f" [sample.number 1 "1"] (some 2)).Token.Text = (some 4, false) ∧
    (false && (sample.call 0 "f" [sample.number 1 "1"] (some 2)).Token.Text == "print") = false ∧
    ((sample.state [0, 1, 2, 3] [0] none).CallExpression
      (sample.call 0 "f" [sample.number 1 "1"] (some 2))).1 = .ok ∧
    ∃ rv, ((sample.state [0, 1, 2, 3] [0] none).CallExpression
        (sample.call 0 "f" [sample.number 1 "1"] (some 2))).2.registers.ReturnValue[0]? = some rv ∧
      (∀ r ∈ ((sample.state [0, 1, 2, 3] [0] none).CallExpression
          (sample.call 0 "f" [sample.number 1 "1"] (some 2))).2.registers.Call, r ≠ rv →
        ((sample.state [0, 1, 2, 3] [0] none).CallExpression
          (sample.call 0 "f" [sample.number 1 "1"] (some 2))).2.registers.user r = none) ∧
      (if some 2 = some rv then
        ((sample.state [0, 1, 2, 3] [0] none).CallExpression
          (sample.call 0 "f" [sample.number 1 "1"] (some 2))).2.registers.user rv
          = some (.Expression { Kind := .Identifier, Position := 0, Bytes := "f" }) ∧
        ((sample.state [0, 1, 2, 3] [0] none).CallExpression
          (sample.call 0 "f" [sample.number 1 "1"] (some 2))).2.assembler.Instructions.getLast?
          = some (callInstruction "f")
      else
        (∀ r ∈ ((sample.state [0, 1, 2, 3] [0] none).CallExpression
            (sample.call 0 "f" [sample.number 1 "1"] (some 2))).2.registers.Call,
          ((sample.state [0, 1, 2, 3] [0] none).CallExpression
            (sample.call 0 "f" [sample.number 1 "1"] (some 2))).2.registers.user r = none) ∧
        ((sample.state [0, 1, 2, 3] [0] none).CallExpression
          (sample.call 0 "f" [sample.number 1 "1"] (some 2))).2.registers.user rv = none ∧
        ((sample.state [0, 1, 2, 3] [0] none).CallExpression
          (sample.call 0 "f" [sample.number 1 "1"] (some 2))).2.assembler.Instructions.getLast?
          = some (.MoveRegisterRegister 2 rv)) :=
  ⟨by decide, by decide, by decide,
    CallExpression_after_call (sample.state [0, 1, 2, 3] [0] none)
      (sample.call 0 "f" [sample.number 1 "1"] (some 2)) 4 false (by decide) (by decide)
      (by decide)⟩

/-- C9 fails as stated: when the return-value register is the first call
register and the destination of the call expression, the successful call
`f(1)` leaves that call register in use by the call expression, so not every
call register is free. -/
theorem CallExpression_keeps_return_register :
    (sample.state [0, 1, 2, 3] [0] none).findFunction "f" = (some 4, false) ∧
    ((sample.state [0, 1, 2, 3] [0] none).CallExpression
      (sample.call 0 "f" [sample.number 1 "1"] (some 0))).1 = .ok ∧
    0 ∈ ((sample.state [0, 1, 2, 3] [0] none).CallExpression
      (sample.call 0 "f" [sample.number 1 "1"] (some 0))).2.registers.Call ∧
    ((sample.state [0, 1, 2, 3] [0] none).CallExpression
      (sample.call 0 "f" [sample.number 1 "1"] (some 0))).2.registers.user 0
      = some (.Expression { Kind := .Identifier, Position := 0, Bytes := "f" }) ∧
    ¬ ∀ r ∈ ((sample.state [0, 1, 2, 3] [0] none).CallExpression
        (sample.call 0 "f" [sample.number 1 "1"] (some 0))).2.registers.Call,
      ((sample.state [0, 1, 2, 3] [0] none).CallExpression
        (sample.call 0 "f" [sample.number 1 "1"] (some 0))).2.registers.user r = none := by
  refine ⟨by decide, by decide, by decide, by decide, fun h => ?_⟩
  have h0 := h 0 (by decide)
  revert h0
  decide
end State

/-! ## C10: propagation of side effects -/

namespace State

/-- C10: when the callee is resolved, `CallExpression` (whether it then succeeds or
fails) keeps the function being compiled; if the side-effect counter of the
callee is greater than zero, the counter of the function being compiled becomes
its old value plus one in `int32` arithmetic, which is exactly one more unless
the counter was at the largest `int32`; otherwise that counter is unchanged; and
the side-effect counter of every other function is unchanged. -/
theorem CallExpression_side_effects (state : State) (expr : Expression) (function : Nat)
    (isBuiltin : Bool)
    (hfound : state.findFunction expr.Token.Text = (some function, isBuiltin)) :
    (state.CallExpression expr).2.function = state.function ∧
    (if (state.functionStore function).SideEffects > 0 then
      ((state.CallExpression expr).2.functionStore state.function).SideEffects
        = int32 ((state.functionStore state.function).SideEffects + 1) ∧
      (-2 ^ 31 ≤ (state.functionStore state.function).SideEffects →
        (state.functionStore state.function).SideEffects < 2 ^ 31 - 1 →
        ((state.CallExpression expr).2.functionStore state.function).SideEffects
          = (state.functionStore state.function).SideEffects + 1)
    else
      ((state.CallExpression expr).2.functionStore state.function).SideEffects
        = (state.functionStore state.function).SideEffects) ∧
    ∀ g, g ≠ state.function →
      ((state.CallExpression expr).2.functionStore g).SideEffects
        = (state.functionStore g).SideEffects := by
  rw [CallExpression_resolved state expr function isBuiltin hfound]
  obtain ⟨h1, h2⟩ := callResolved_sideEffects (state.recordSideEffects function) expr function
    isBuiltin
  have hf := (recordSideEffects_frame state function).2.2.1
  refine ⟨h1.trans hf, ?_, fun g hg => ?_⟩
  · by_cases hs : (state.functionStore function).SideEffects > 0
    · have hnew : ((state.recordSideEffects function).functionStore state.function).SideEffects
          = int32 ((state.functionStore state.function).SideEffects + 1) := by
        simp [recordSideEffects, hs, addSideEffects]
      rw [if_pos hs, h2, hnew]
      exact ⟨rfl, fun hlo hhi => int32_succ _ hlo hhi⟩
    · rw [if_neg hs, h2]
      simp [recordSideEffects, hs]
  · rw [h2]
    unfold recordSideEffects
    split
    · simp [addSideEffects, Function.update_noteq hg]
    · rfl

/-- C10 at the call `g()` of a side-effecting `g` inside `main`: the counter of
`main` goes from 0 to 1. -/
theorem CallExpression_side_effects_witness :
    (sample.state [0, 1, 2, 3] [0] none).findFunction (sample.call 0 "g" [] none).Token.Text
      = (some 6, false) ∧
    ((sample.state [0, 1, 2, 3] [0] none).CallExpression (sample.call 0 "g" [] none)).2.function
      = 3 ∧
    ((((sample.state [0, 1, 2, 3] [0] none).CallExpression
        (sample.call 0 "g" [] none)).2.functionStore 3).SideEffects = int32 (0 + 1) ∧
      (-2 ^ 31 ≤ (0 : Int) → (0 : Int) < 2 ^ 31 - 1 →
        (((sample.state [0, 1, 2, 3] [0] none).CallExpression
          (sample.call 0 "g" [] none)).2.functionStore 3).SideEffects = 0 + 1)) ∧
    ∀ g, g ≠ 3 →
      (((sample.state [0, 1, 2, 3] [0] none).CallExpression
        (sample.call 0 "g" [] none)).2.functionStore g).SideEffects
        = (sample.functionStore g).SideEffects :=
  ⟨by decide,
    CallExpression_side_effects (sample.state [0, 1, 2, 3] [0] none) (sample.call 0 "g" [] none)
      6 false (by decide)⟩
end State

/-! ## C11: the counters after a failed call -/

namespace State

/-- The body of `CallExpression` leaves the store of functions alone when it
ends in an error other than `AlreadyInUse`. -/
theorem callResolved_error_functionStore (s : State) (expr : Expression) (function : Nat)
    (isBuiltin : Bool) (e : build.Error)
    (herr : (s.callResolved expr function isBuiltin).1 = .error e)
    (hkind : ∀ err, e ≠ .AlreadyInUse err) :
    (s.callResolved expr function isBuiltin).2.functionStore = s.functionStore := by
  unfold callResolved at herr ⊢
  dsimp only at herr ⊢
  split
  · rfl
  · split
    · exact (printExpansion_frame s function expr.Children).1
    · rename_i h1 h2
      rw [if_neg h1, if_neg h2] at herr
      have hp := BeforeCallFrom_prepares expr.Children 0 s
      unfold BeforeCall at herr ⊢
      rcases hb : BeforeCallFrom 0 expr.Children s with ⟨o, t⟩
      rw [hb] at hp herr
      cases o with
      | ok =>
        exfalso
        dsimp only at herr
        revert herr
        generalize ((if (expr.Token.Text == "syscall") = true then t.emit .Syscall
            else t.emit (.Call expr.Token.Text)).AfterCall function).freeCallRegisters = u
        unfold saveReturnValue
        split
        · exact fun h => Outcome.noConfusion h
        · split
          · intro h
            injection h with h
            exact hkind _ h.symm
          · dsimp only
            split <;> exact fun h => Outcome.noConfusion h
      | error e2 => exact hp.functionStore
      | panic m => exact hp.functionStore

/-- C11 (amended): when `CallExpression` returns an error other than the
`AlreadyInUse` of the return-value register, the call-count counter of every
function is the one before the call, every function other than the function
being compiled is unchanged, and the whole store of functions is unchanged
when the callee is unknown or its side-effect counter is not positive. -/
theorem CallExpression_error_counters (state : State) (expr : Expression) (e : build.Error)
    (herr : (state.CallExpression expr).1 = .error e)
    (hkind : ∀ err, e ≠ .AlreadyInUse err) :
    (∀ g, ((state.CallExpression expr).2.functionStore g).CallCount
      = (state.functionStore g).CallCount) ∧
    (∀ g, g ≠ state.function →
      (state.CallExpression expr).2.functionStore g = state.functionStore g) ∧
    ((∀ function isBuiltin, state.findFunction expr.Token.Text = (some function, isBuiltin) →
        (state.functionStore function).SideEffects ≤ 0) →
      (state.CallExpression expr).2.functionStore = state.functionStore) := by
  unfold CallExpression at herr ⊢
  dsimp only at herr ⊢
  rcases hf : state.findFunction expr.Token.Text with ⟨found, isBuiltin⟩
  rw [hf] at herr
  cases found with
  | none => exact ⟨fun _ => rfl, fun _ _ => rfl, fun _ => rfl⟩
  | some function =>
    dsimp only at herr ⊢
    rw [callResolved_error_functionStore _ expr function isBuiltin e herr hkind]
    refine ⟨fun g => ?_, fun g hg => ?_, fun h => ?_⟩
    · unfold recordSideEffects
      split
      · by_cases hg : g = state.function
        · subst hg
          simp [addSideEffects]
        · simp [addSideEffects, Function.update_noteq hg]
      · rfl
    · unfold recordSideEffects
      split
      · simp [addSideEffects, Function.update_noteq hg]
      · rfl
    · have := h function isBuiltin rfl
      unfold recordSideEffects
      rw [if_neg (by omega)]

/-- C11 (amended) at the call `g(1)` of the side-effecting `g()` inside `main`. -/
theorem CallExpression_error_counters_witness :
    ((sample.state [0, 1, 2, 3] [0] none).CallExpression
        (sample.call 0 "g" [sample.number 2 "1"] none)).1 = .error (.ParameterCount "g" 1 0) ∧
    (∀ err, build.Error.ParameterCount "g" 1 0 ≠ .AlreadyInUse err) ∧
    (∀ g, (((sample.state [0, 1, 2, 3] [0] none).CallExpression
        (sample.call 0 "g" [sample.number 2 "1"] none)).2.functionStore g).CallCount
      = ((sample.state [0, 1, 2, 3] [0] none).functionStore g).CallCount) ∧
    (∀ g, g ≠ (sample.state [0, 1, 2, 3] [0] none).function →
      ((sample.state [0, 1, 2, 3] [0] none).CallExpression
        (sample.call 0 "g" [sample.number 2 "1"] none)).2.functionStore g
      = (sample.state [0, 1, 2, 3] [0] none).functionStore g) ∧
    ((∀ function isBuiltin, (sample.state [0, 1, 2, 3] [0] none).findFunction
          (sample.call 0 "g" [sample.number 2 "1"] none).Token.Text = (some function, isBuiltin) →
        ((sample.state [0, 1, 2, 3] [0] none).functionStore function).SideEffects ≤ 0) →
      ((sample.state [0, 1, 2, 3] [0] none).CallExpression
        (sample.call 0 "g" [sample.number 2 "1"] none)).2.functionStore
      = (sample.state [0, 1, 2, 3] [0] none).functionStore) :=
  ⟨by decide, fun _ h => build.Error.noConfusion h,
    CallExpression_error_counters (sample.state [0, 1, 2, 3] [0] none)
      (sample.call 0 "g" [sample.number 2 "1"] none) (.ParameterCount "g" 1 0) (by decide)
      (fun _ h => build.Error.noConfusion h)⟩

/-- C11 as stated fails: the call `g(1)` of the side-effecting `g()` inside
`main` returns the error `ParameterCount`, and the side-effect counter of
`main`, 0 before the call, is 1 after it. -/
theorem CallExpression_error_side_effects :
    ((sample.state [0, 1, 2, 3] [0] none).CallExpression
        (sample.call 0 "g" [sample.number 2 "1"] none)).1 = .error (.ParameterCount "g" 1 0) ∧
    (sample.state [0, 1, 2, 3] [0] none).function = 3 ∧
    ((sample.state [0, 1, 2, 3] [0] none).functionStore 3).SideEffects = 0 ∧
    (((sample.state [0, 1, 2, 3] [0] none).CallExpression
        (sample.call 0 "g" [sample.number 2 "1"] none)).2.functionStore 3).SideEffects = 1 := by
  decide

end State

/-! ## C12: the unknown-function error and its suggestion -/

namespace State

/-- C12: for a name that is neither a user function nor a builtin, with any
similarity function and any outcome of `sort.Slice` that keeps its promise:
`CallExpression` fails with the unknown-function error and leaves the state
alone; the sorted list of known names has a first element, which is a known
name and is at least as similar to the name as every known name; and the
message of `UnknownFunctionError` carries `did you mean '<first>'?` exactly
when that highest similarity exceeds 0.9. -/
theorem UnknownFunctionError_suggestion (similarity : String → String → ℚ)
    (sortSlice : (String → String → Bool) → List String → List String)
    (state : State) (functionName : String)
    (hsort : sortSliceContract sortSlice (moreSimilar similarity functionName)
      state.knownFunctions)
    (huser : state.environment.Functions.lookup functionName = none)
    (hbuiltin : BuiltinFunctions.lookup functionName = none) :
    (∀ expr : Expression, expr.Token.Text = functionName →
      state.CallExpression expr = (.error (.UnknownFunction functionName), state)) ∧
    ∃ first,
      (sortSlice (moreSimilar similarity functionName) state.knownFunctions)[0]? = some first ∧
      first ∈ state.knownFunctions ∧
      (∀ name ∈ state.knownFunctions,
        similarity functionName name ≤ similarity functionName first) ∧
      state.UnknownFunctionError similarity sortSlice functionName =
        .error (.At state.tokenCursor
          (if similarity functionName first > 9 / 10 then
            "Unknown function '" ++ functionName ++ "', did you mean '" ++ first ++ "'?"
          else "Unknown function '" ++ functionName ++ "'")) := by
  refine ⟨fun expr ht => ?_, ?_⟩
  · unfold CallExpression findFunction
    simp only [ht, huser, hbuiltin]
  · obtain ⟨hperm, hsorted⟩ := hsort
    have hmem : "print" ∈ sortSlice (moreSimilar similarity functionName) state.knownFunctions :=
      hperm.mem_iff.mpr (by simp [knownFunctions, BuiltinFunctions, BuiltinPrint])
    rcases hs : sortSlice (moreSimilar similarity functionName) state.knownFunctions with
      _ | ⟨first, rest⟩
    · rw [hs] at hmem
      exact absurd hmem (List.not_mem_nil _)
    · rw [hs] at hperm hsorted
      refine ⟨first, List.getElem?_cons_zero, hperm.mem_iff.mp (List.mem_cons_self _ _), fun name hn => ?_, ?_⟩
      · rcases List.mem_cons.mp (hperm.mem_iff.mpr hn) with h | h
        · rw [h]
        · have := (List.pairwise_cons.mp hsorted).1 name h
          simpa [moreSimilar] using this
      · unfold UnknownFunctionError
        simp only [hs, List.getElem?_cons_zero, State.Error]
        split <;> rfl

/-- C12 at the name `prnt` in the sample environment: `print` is suggested. -/
theorem UnknownFunctionError_suggestion_witness :
    (∀ expr : Expression, expr.Token.Text = "prnt" →
      (sample.state [0, 1, 2, 3] [0] none).CallExpression expr
        = (.error (.UnknownFunction "prnt"), sample.state [0, 1, 2, 3] [0] none)) ∧
    ∃ first,
      (sample.sortSlice (moreSimilar sample.similarity "prnt")
        (sample.state [0, 1, 2, 3] [0] none).knownFunctions)[0]? = some first ∧
      first ∈ (sample.state [0, 1, 2, 3] [0] none).knownFunctions ∧
      (∀ name ∈ (sample.state [0, 1, 2, 3] [0] none).knownFunctions,
        sample.similarity "prnt" name ≤ sample.similarity "prnt" first) ∧
      (sample.state [0, 1, 2, 3] [0] none).UnknownFunctionError sample.similarity
          sample.sortSlice "prnt" =
        .error (.At (sample.state [0, 1, 2, 3] [0] none).tokenCursor
          (if sample.similarity "prnt" first > 9 / 10 then
            "Unknown function '" ++ "prnt" ++ "', did you mean '" ++ first ++ "'?"
          else "Unknown function '" ++ "prnt" ++ "'")) :=
  UnknownFunctionError_suggestion sample.similarity sample.sortSlice
    (sample.state [0, 1, 2, 3] [0] none) "prnt"
    ⟨by decide, by
      simp +decide [sample.sortSlice, moreSimilar, sample.similarity]
      norm_num⟩
    (by decide) (by decide)

end State

/-! ## C13: assignment to an immutable variable -/

namespace State

/-- C13 fails in the code: `Assignment` of `State.go` never reads the flag
`Mutable`.  With the immutable variable `x` in scope and bound to register 2,
the assignment `x = 5` returns no error, whatever the parser, and emits
`MoveRegisterNumber(2, 5)`. -/
theorem Assignment_immutable_reassigned :
    (sample.state [0, 1, 2, 3] [0] (some 2)).scopes.Get
      (sample.state [0, 1, 2, 3] [0] (some 2)).variableStore "x" = some 0 ∧
    ((sample.state [0, 1, 2, 3] [0] (some 2)).variableStore 0).Mutable = false ∧
    ∀ parse : List token.Token → Except String Expression,
      ((sample.state [0, 1, 2, 3] [0] (some 2)).Assignment parse sample.assignFive).1 = .ok ∧
      ((sample.state [0, 1, 2, 3] [0] (some 2)).Assignment parse
        sample.assignFive).2.assembler.Instructions = [.MoveRegisterNumber 2 5] :=
  ⟨by decide, by decide, fun _ => ⟨rfl, rfl⟩⟩

end State

/-! ## C14: the lowering of a leaf token -/

namespace State

end State

/-- What `strconv.ParseInt` returns is in the range of `int64`. -/
theorem ParseInt_range (s : String) (n : Int) (h : strconv.ParseInt s = some n) :
    -2 ^ 63 ≤ n ∧ n < 2 ^ 63 := by
  unfold strconv.ParseInt at h
  split at h <;> split at h
  all_goals first
    | exact Option.noConfusion h
    | (split at h
       · injection h with h
         omega
       · exact Option.noConfusion h)

namespace State

/-- Recording a use of a variable keeps its register. -/
theorem setAliveUntil_register (s : State) (v n w : Nat) :
    ((s.setAliveUntil v n).variableStore w).Register = (s.variableStore w).Register := by
  by_cases h : w = v
  · subst h
    simp [setAliveUntil]
  · simp [setAliveUntil, Function.update_noteq h]

/-- The sum of two number leaves lowers to a move and an add. -/
theorem ExpressionToRegister_two_numbers (s : State) (two plus three : token.Token) (r : Nat)
    (a b : Int) (htwo : two.Kind = .Number) (ha : strconv.ParseInt two.Text = some a)
    (hplus : plus.Kind = .Operator ∧ plus.Text = "+")
    (hthree : three.Kind = .Number) (hb : strconv.ParseInt three.Text = some b) :
    (s.ExpressionToRegister (.mk plus [.mk two [] none, .mk three [] none] none) r).2 =
      (.ok, (s.emit (.MoveRegisterNumber r (uint64 a))).emit (.AddRegisterNumber r (uint64 b))) := by
  have hleaf : ∀ t : token.Token, (Expression.mk t [] none).IsLeaf = true := fun _ => rfl
  unfold ExpressionToRegister
  rw [Token_mk, if_neg (by rw [hplus.1]; simp), EachOperation_node, if_pos (hleaf two)]
  unfold operation
  simp only [setRegister_mk, Children_mk, List.getElem?_cons_zero, hleaf, if_true, Token_mk,
    List.getElem?_cons_succ, hplus.2]
  unfold TokenToRegister
  simp only [htwo, ha]
  unfold addRightOperand
  simp only [hleaf, if_true, Token_mk, hthree, hb]

/-- C14: `TokenToRegister` emits a single move for a leaf: the name of a
variable in scope that is bound to a register emits `MoveRegisterRegister` from
that register, and nothing when it is the destination; a number token that
parses to `n` emits `MoveRegisterNumber` with `n` (as `uint64`, which is `n`
itself when `n` is not negative); a text token is added to the strings and
emits `MoveRegisterAddress` with its handle; a name unknown in every scope
fails with the error `Unknown variable` and leaves the state as it is.
Consequently the assignment `x = 2 + 3` to a new `x`, for which the free
register `r` is found, emits exactly `MoveRegisterNumber(r, 2)` and then
`AddRegisterNumber(r, 3)`. -/
theorem TokenToRegister_single_move (parse : List token.Token → Except String Expression)
    (state : State) (x assign two plus three : token.Token) (r : Nat)
    (hx : x.Kind = .Identifier)
    (hnew : state.scopes.Get state.variableStore x.Text = none)
    (hfree : state.registers.FindFreeRegister = some r)
    (htwo : two.Kind = .Number ∧ two.Text = "2")
    (hplus : plus.Kind = .Operator ∧ plus.Text = "+")
    (hthree : three.Kind = .Number ∧ three.Text = "3")
    (hparse : parse [two, plus, three]
      = .ok (.mk plus [.mk two [] none, .mk three [] none] none)) :
    (∀ (s : State) (t : token.Token) (d : Nat),
      match t.Kind with
      | .Identifier =>
        match s.scopes.Get s.variableStore t.Text with
        | none =>
          s.TokenToRegister t d
            = (.error (.At s.tokenCursor ("Unknown variable " ++ t.Text)), s)
        | some v =>
          match (s.variableStore v).Register with
          | none => True
          | some source =>
            (s.TokenToRegister t d).1 = .ok ∧
            (s.TokenToRegister t d).2.assembler.Instructions =
              if source = d then s.assembler.Instructions
              else s.assembler.Instructions ++ [.MoveRegisterRegister d source]
      | .Number =>
        match strconv.ParseInt t.Text with
        | none => True
        | some n =>
          (s.TokenToRegister t d).1 = .ok ∧
          (s.TokenToRegister t d).2.assembler.Instructions =
            s.assembler.Instructions ++ [.MoveRegisterNumber d (uint64 n)] ∧
          (0 ≤ n → uint64 n = n.toNat)
      | .Text =>
        (s.TokenToRegister t d).1 = .ok ∧
        (s.TokenToRegister t d).2.assembler.Strings = s.assembler.Strings ++ [t.Text] ∧
        (s.TokenToRegister t d).2.assembler.Instructions =
          s.assembler.Instructions ++ [.MoveRegisterAddress d s.assembler.Strings.length]
      | _ => True) ∧
    (state.Assignment parse [x, assign, two, plus, three]).1 = .ok ∧
    (state.Assignment parse [x, assign, two, plus, three]).2.assembler.Instructions =
      state.assembler.Instructions ++ [.MoveRegisterNumber r 2, .AddRegisterNumber r 3] := by
  refine ⟨fun s t d => ?_, ?_⟩
  · cases hk : t.Kind <;> simp only [] <;> try trivial
    · -- identifier
      cases hg : s.scopes.Get s.variableStore t.Text with
      | none => simp [TokenToRegister, hk, hg, State.Error]
      | some v =>
        cases hr : (s.variableStore v).Register with
        | none => simp only [hr]
        | some source =>
          by_cases hsd : source = d
          · simp [TokenToRegister, hk, hg, hr, hsd, setAliveUntil]
          · simp [TokenToRegister, hk, hg, hr, hsd, setAliveUntil, emit, asm.Assembler.emit]
    · -- text
      simp [TokenToRegister, hk, asm.Assembler.AddString, emit, asm.Assembler.emit]
    · -- number
      cases hp : strconv.ParseInt t.Text with
      | none => trivial
      | some n =>
        refine ⟨by simp [TokenToRegister, hk, hp], by
          simp [TokenToRegister, hk, hp, emit, asm.Assembler.emit], fun hn => ?_⟩
        have hlt : n < 2 ^ 64 := by
          have := (ParseInt_range t.Text n hp).2
          omega
        unfold uint64
        rw [Int.emod_eq_of_lt hn hlt]
  · have hdeclared : state.declareVariable x.Text =
        (.ok, ((state.newVariable x.Text state.tokenCursor).2.BindRegister state.allocated
          r).declare state.allocated, state.allocated) := by
      simp [declareVariable, hfree, newVariable]
    have hstore : ∀ (s : State) (v : Nat), (s.declare v).variableStore = s.variableStore ∧
        (s.declare v).assembler = s.assembler := by
      intro s v
      unfold declare
      split <;> exact ⟨rfl, rfl⟩
    have hregister : ((((state.newVariable x.Text state.tokenCursor).2.BindRegister
        state.allocated r).declare state.allocated).variableStore state.allocated).Register
          = some r := by
      rw [(hstore _ _).1]
      simp [BindRegister]
    have hassembler : (((state.newVariable x.Text state.tokenCursor).2.BindRegister
        state.allocated r).declare state.allocated).assembler = state.assembler := by
      rw [(hstore _ _).2]
      rfl
    have hrun : state.Assignment parse [x, assign, two, plus, three] =
        (.ok, ((State.emit { ((state.newVariable x.Text state.tokenCursor).2.BindRegister
          state.allocated r).declare state.allocated with
            tokenCursor := (((state.newVariable x.Text state.tokenCursor).2.BindRegister
              state.allocated r).declare state.allocated).tokenCursor + 2 }
          (.MoveRegisterNumber r (uint64 2))).emit (.AddRegisterNumber r (uint64 3)))) := by
      unfold Assignment
      simp only [List.getElem?_cons_zero, hx, ne_eq, not_true_eq_false, if_false, hnew,
        hdeclared, List.length_cons, List.length_nil, hregister, List.drop_succ_cons,
        List.drop_zero]
      rw [if_neg (by omega)]
      unfold TokensToRegister
      simp only [hparse]
      exact ExpressionToRegister_two_numbers _ two plus three r 2 3 htwo.1
        (by rw [htwo.2]; exact ParseInt_two) hplus hthree.1
        (by rw [hthree.2]; exact ParseInt_three)
    rw [hrun]
    refine ⟨rfl, ?_⟩
    show (_ ++ [_]) ++ [_] = _
    rw [hassembler, List.append_assoc]
    rfl

end State

namespace State

/-- C14 at the assignment `y = 2 + 3` in the sample state, where `x` holds
register 2 and register 0 is the first free one. -/
theorem TokenToRegister_single_move_witness :
    ((sample.state [0, 1, 2, 3] [0] (some 2)).scopes.Get
      (sample.state [0, 1, 2, 3] [0] (some 2)).variableStore
      (sample.token .Identifier 0 "y").Text = none ∧
    (sample.state [0, 1, 2, 3] [0] (some 2)).registers.FindFreeRegister = some 0 ∧
    sample.parse [sample.token .Number 4 "2", sample.token .Operator 6 "+",
        sample.token .Number 8 "3"]
      = .ok (.mk (sample.token .Operator 6 "+")
        [.mk (sample.token .Number 4 "2") [] none,
          .mk (sample.token .Number 8 "3") [] none] none)) ∧
    ((sample.state [0, 1, 2, 3] [0] (some 2)).Assignment sample.parse
      [sample.token .Identifier 0 "y", sample.token .Operator 2 "=",
        sample.token .Number 4 "2", sample.token .Operator 6 "+",
        sample.token .Number 8 "3"]).1 = .ok ∧
    ((sample.state [0, 1, 2, 3] [0] (some 2)).Assignment sample.parse
      [sample.token .Identifier 0 "y", sample.token .Operator 2 "=",
        sample.token .Number 4 "2", sample.token .Operator 6 "+",
        sample.token .Number 8 "3"]).2.assembler.Instructions =
      (sample.state [0, 1, 2, 3] [0] (some 2)).assembler.Instructions ++
        [.MoveRegisterNumber 0 2, .AddRegisterNumber 0 3] :=
  ⟨⟨by decide, by decide, rfl⟩,
    (TokenToRegister_single_move sample.parse (sample.state [0, 1, 2, 3] [0] (some 2))
      (sample.token .Identifier 0 "y") (sample.token .Operator 2 "=")
      (sample.token .Number 4 "2") (sample.token .Operator 6 "+") (sample.token .Number 8 "3")
      0 rfl (by decide) (by decide) ⟨rfl, rfl⟩ ⟨rfl, rfl⟩ ⟨rfl, rfl⟩ rfl).2⟩

end State

/-! ## What the statements leave alone -/

namespace State

/-- Nothing changed is a case of `Advances`. -/
theorem advances_refl (s : State) : s.Advances s :=
  ⟨rfl, rfl, le_refl _, fun _ _ => Or.inl rfl, fun _ h1 h2 => absurd h2 (by omega),
    ⟨[], by simp⟩, fun h => h, fun _ h => h, fun h => h, fun _ _ => ⟨rfl, rfl⟩⟩

/-- Two steps in a row. -/
theorem advances_trans {a b c : State} (hab : a.Advances b) (hbc : b.Advances c) :
    a.Advances c := by
  obtain ⟨code1, h1⟩ := hab.code
  obtain ⟨code2, h2⟩ := hbc.code
  refine ⟨hbc.instrCursor.trans hab.instrCursor, hbc.ifState.trans hab.ifState,
    le_trans hab.allocated hbc.allocated, fun v hv => ?_, fun v hlo hhi => ?_,
    ⟨code1 ++ code2, by rw [h2, h1, List.append_assoc]⟩, fun h => hbc.zero (hab.zero h),
    fun v hv => hbc.grows v (hab.grows v hv), fun h => hbc.bounded (hab.bounded h),
    fun v hv => ⟨((hbc.named v (lt_of_lt_of_le hv hab.allocated)).1).trans (hab.named v hv).1,
      ((hbc.named v (lt_of_lt_of_le hv hab.allocated)).2).trans (hab.named v hv).2⟩⟩
  · have hb := hbc.alive v (lt_of_lt_of_le hv hab.allocated)
    have ha := hab.alive v hv
    rw [hab.instrCursor] at hb
    rcases hb with hb | hb
    · rw [hb]
      exact ha
    · exact Or.inr hb
  · by_cases hv : v < b.allocated
    · have hb := hbc.alive v hv
      have ha := hab.fresh v hlo hv
      rw [hab.instrCursor] at hb
      rcases hb with hb | hb
      · rw [hb]
        exact ha
      · rw [hb]
    · have hb := hbc.fresh v (by omega) hhi
      rw [hab.instrCursor] at hb
      exact hb

/-- Emitting an instruction only grows the stream. -/
theorem emit_advances (s : State) (i : asm.Instruction) : s.Advances (s.emit i) :=
  ⟨rfl, rfl, le_refl _, fun _ _ => Or.inl rfl, fun _ h1 h2 => absurd h2 (by
    show ¬ _ < s.allocated
    omega),
    ⟨[i], rfl⟩, fun h => h, fun _ h => h, fun h => h, fun _ _ => ⟨rfl, rfl⟩⟩

/-- Recording a use of a variable sets its liveness bound to the instruction
index plus one. -/
theorem setAliveUntil_advances (s : State) (v : Nat) :
    s.Advances (s.setAliveUntil v (s.instrCursor + 1)) := by
  refine ⟨rfl, rfl, le_refl _, fun w _ => ?_, fun w h1 h2 => absurd h2 (by
    show ¬ _ < s.allocated
    omega), ⟨[], by simp [setAliveUntil]⟩, fun hz w => ?_, fun _ h => h, fun h => h,
    fun w _ => ?_⟩
  · by_cases h : w = v
    · subst h
      exact Or.inr (by simp [setAliveUntil])
    · exact Or.inl (by simp [setAliveUntil, Function.update_noteq h])
  · by_cases h : w = v
    · subst h
      simpa [setAliveUntil] using hz w
    · simpa [setAliveUntil, Function.update_noteq h] using hz w
  · by_cases h : w = v
    · subst h
      simp [setAliveUntil]
    · simp [setAliveUntil, Function.update_noteq h]

/-- `TokenToRegister` advances the state. -/
theorem TokenToRegister_advances (s : State) (t : token.Token) (r : Nat) :
    s.Advances (s.TokenToRegister t r).2 := by
  unfold TokenToRegister
  split
  · dsimp only
    split
    · exact advances_refl s
    · rename_i v hv
      split
      · exact setAliveUntil_advances s v
      · split
        · exact setAliveUntil_advances s v
        · exact advances_trans (setAliveUntil_advances s v) (emit_advances _ _)
  · dsimp only
    split
    · exact advances_refl s
    · exact emit_advances _ _
  · exact ⟨rfl, rfl, le_refl _, fun _ _ => Or.inl rfl, fun _ h1 h2 => absurd h2 (by
      show ¬ _ < s.allocated
      omega), ⟨[_], rfl⟩, fun h => h, fun _ h => h, fun h => h, fun _ _ => ⟨rfl, rfl⟩⟩
  · exact advances_refl s

/-- The right operand of `+` advances the state. -/
theorem addRightOperand_advances (s : State) (sub right : Expression) (r : Nat) :
    s.Advances (s.addRightOperand sub right r).2 := by
  unfold addRightOperand
  split
  · split
    · dsimp only
      split
      · exact advances_refl s
      · rename_i v hv
        split
        · exact setAliveUntil_advances s v
        · exact advances_trans (setAliveUntil_advances s v) (emit_advances _ _)
    · split
      · exact advances_refl s
      · exact emit_advances _ _
    · exact advances_refl s
  · split
    · exact emit_advances _ _
    · exact advances_refl s

/-- The callback of `ExpressionToRegister` advances the state. -/
theorem operation_advances (r : Nat) (sub : Expression) (s : State) :
    s.Advances (operation r sub s).2.2 := by
  unfold operation
  dsimp only
  split
  · exact advances_refl s
  · rename_i left hleft
    have hleftStep :
        ∀ p : Outcome × State,
          p = (if left.IsLeaf = true then s.TokenToRegister left.Token r
            else if (sub.setRegister (some r)).Register ≠ left.Register then
              match left.Register with
              | none => (.panic nilDereference, s)
              | some leftRegister => (.ok, s.emit (.MoveRegisterRegister r leftRegister))
            else (.ok, s)) →
          s.Advances p.2 := by
      intro p hp
      subst hp
      split
      · exact TokenToRegister_advances s _ r
      · split
        · split
          · exact advances_refl s
          · exact emit_advances _ _
        · exact advances_refl s
    split
    · rename_i s2 heq
      have h2 := hleftStep _ heq.symm
      split
      · exact h2
      · split
        · exact advances_trans h2 (addRightOperand_advances s2 (sub.setRegister (some r)) ‹_› r)
        · exact h2
    · rename_i o s2 hne heq
      exact hleftStep _ heq.symm

/-- `ExpressionToRegister` advances the state. -/
theorem ExpressionToRegister_advances (s : State) (expr : Expression) (r : Nat) :
    s.Advances (s.ExpressionToRegister expr r).2.2 := by
  unfold ExpressionToRegister
  split
  · exact TokenToRegister_advances s _ r
  · exact (EachOperation_induction State.Advances (fun _ => True) advances_refl
      (fun _ _ _ => advances_trans) trivial (operation r)
      (fun e s => ⟨operation_advances r e s, trivial⟩) expr s).1

/-- `TokensToRegister` advances the state. -/
theorem TokensToRegister_advances (parse : List token.Token → Except String Expression)
    (s : State) (tokens : List token.Token) (r : Nat) :
    s.Advances (s.TokensToRegister parse tokens r).2 := by
  unfold TokensToRegister
  split
  · exact TokenToRegister_advances s _ r
  · split
    · exact advances_refl s
    · exact ExpressionToRegister_advances s _ r

end State

namespace State

/-- A step that keeps the instruction index, the branches, the variables that
exist, their liveness bounds and the assembler advances the state. -/
theorem advances_of_same (s t : State) (h1 : t.instrCursor = s.instrCursor)
    (h2 : t.ifState = s.ifState) (h3 : t.allocated = s.allocated)
    (h4 : ∀ v, (t.variableStore v).AliveUntil = (s.variableStore v).AliveUntil)
    (h5 : t.assembler = s.assembler)
    (h6 : ∀ v, (t.variableStore v).TimesUsed = (s.variableStore v).TimesUsed)
    (h7 : ∀ v, v ∈ s.scopes.scopes.flatten → v ∈ t.scopes.scopes.flatten)
    (h8 : ∀ v, v ∈ t.scopes.scopes.flatten → v ∈ s.scopes.scopes.flatten ∨ v < s.allocated)
    (h9 : ∀ v, (t.variableStore v).Name = (s.variableStore v).Name ∧
      (t.variableStore v).Position = (s.variableStore v).Position) : s.Advances t :=
  ⟨h1, h2, le_of_eq h3.symm, fun v _ => Or.inl (h4 v), fun v hlo hhi => absurd hhi (by omega),
    ⟨[], by rw [h5]; simp⟩, fun hz v => (h6 v).trans (hz v), h7,
    fun h v hv => by
      rw [h3]
      rcases h8 v hv with h0 | h0
      · exact h v h0
      · exact h0,
    fun v _ => h9 v⟩

/-- Moving the token cursor advances the state. -/
theorem tokenCursor_advances (s : State) (n : Nat) :
    s.Advances { s with tokenCursor := n } :=
  advances_of_same s _ rfl rfl rfl (fun _ => rfl) rfl (fun _ => rfl) (fun _ h => h)
    (fun _ h => Or.inl h) (fun _ => ⟨rfl, rfl⟩)

/-- Making a variable advances the state: its liveness bound is zero. -/
theorem newVariable_advances (s : State) (name : String) (position : Nat) :
    s.Advances (s.newVariable name position).2 := by
  refine ⟨rfl, rfl, Nat.le_succ _, fun v hv => Or.inl ?_, fun v hlo hhi => ?_, ⟨[], by
    simp [newVariable]⟩, fun hz v => ?_, fun _ h => h, fun h v hv => ?_, fun v hv => ?_⟩
  · have hne : v ≠ s.allocated := by omega
    simp [newVariable, Function.update_noteq hne]
  · have hv : v = s.allocated := by
      have : v < s.allocated + 1 := hhi
      omega
    subst hv
    simp [newVariable]
  · by_cases h : v = s.allocated
    · subst h
      simp [newVariable]
    · simpa [newVariable, Function.update_noteq h] using hz v
  · exact Nat.lt_succ_of_lt (h v hv)
  · have hne : v ≠ s.allocated := by omega
    simp [newVariable, Function.update_noteq hne]

/-- Binding a variable to a register advances the state. -/
theorem BindRegister_advances (s : State) (v r : Nat) : s.Advances (s.BindRegister v r) := by
  refine advances_of_same s _ rfl rfl rfl (fun w => ?_) rfl (fun w => ?_) (fun _ h => h)
    (fun _ h => Or.inl h) (fun w => ?_)
  · by_cases h : w = v
    · subst h
      simp [BindRegister]
    · simp [BindRegister, Function.update_noteq h]
  · by_cases h : w = v
    · subst h
      simp [BindRegister]
    · simp [BindRegister, Function.update_noteq h]
  · by_cases h : w = v
    · subst h
      simp [BindRegister]
    · simp [BindRegister, Function.update_noteq h]

/-- The variables in the scopes after `ScopeStack.Add`: those before and the
one added. -/
theorem Add_flatten (stack scopes : ScopeStack) (store : Nat → Variable) (v : Nat)
    (hadd : stack.Add store v = some scopes) (w : Nat) :
    w ∈ scopes.scopes.flatten ↔ w ∈ stack.scopes.flatten ∨ w = v := by
  unfold ScopeStack.Add at hadd
  split at hadd
  · exact Option.noConfusion hadd
  · rename_i innermost outer hs
    split at hadd
    · exact Option.noConfusion hadd
    · injection hadd with hadd
      subst hadd
      rw [hs]
      simp only [List.flatten_cons, List.mem_append, List.mem_singleton]
      tauto

/-- Adding a variable that exists to the scopes advances the state. -/
theorem declare_advances (s : State) (v : Nat) (hv : v < s.allocated) :
    s.Advances (s.declare v) := by
  unfold declare
  split
  · rename_i scopes hadd
    refine advances_of_same s _ rfl rfl rfl (fun _ => rfl) rfl (fun _ => rfl)
      (fun w hw => (Add_flatten _ _ _ _ hadd w).mpr (Or.inl hw)) (fun w hw => ?_)
      (fun _ => ⟨rfl, rfl⟩)
    rcases (Add_flatten _ _ _ _ hadd w).mp hw with h | h
    · exact Or.inl h
    · exact Or.inr (by rw [h]; exact hv)
  · exact advances_refl s

/-- The declaration of a new variable advances the state. -/
theorem declareVariable_advances (s : State) (name : String) :
    s.Advances (s.declareVariable name).2.1 := by
  unfold declareVariable
  split
  · exact advances_refl s
  · exact advances_trans (newVariable_advances s name s.tokenCursor)
      (advances_trans (BindRegister_advances _ _ _)
        (declare_advances _ _ (Nat.lt_succ_self s.allocated)))

/-- `Assignment` advances the state. -/
theorem Assignment_advances (parse : List token.Token → Except String Expression)
    (s : State) (tokens : List token.Token) : s.Advances (s.Assignment parse tokens).2 := by
  unfold Assignment
  split
  · exact advances_refl s
  · split
    · exact advances_refl s
    · have hd : ∀ p : Outcome × State × Nat,
          p = (match s.scopes.Get s.variableStore (token.Token.Text ‹_›) with
            | some v => (.ok, s, v)
            | none => s.declareVariable (token.Token.Text ‹_›)) → s.Advances p.2.1 := by
        intro p hp
        subst hp
        split
        · exact advances_refl s
        · exact declareVariable_advances s _
      dsimp only
      split
      · rename_i s2 v heq
        have h2 := hd _ heq.symm
        split
        · exact advances_trans h2 (tokenCursor_advances s2 _)
        · split
          · exact advances_trans h2 (tokenCursor_advances s2 _)
          · exact advances_trans h2
              (advances_trans (tokenCursor_advances s2 _) (TokensToRegister_advances _ _ _ _))
      · rename_i o s2 v hne heq
        exact hd _ heq.symm

/-- The cutting of the parameters advances the state. -/
theorem splitParameters_advances (rest : List token.Token) :
    ∀ (s : State) (parameters : List (List token.Token)) (current : List token.Token),
      s.Advances (splitParameters rest s parameters current).2.1 := by
  induction rest with
  | nil => exact fun s _ _ => advances_refl s
  | cons t rest ih =>
    intro s parameters current
    unfold splitParameters
    split
    · split
      · exact advances_refl s
      · exact advances_trans (tokenCursor_advances s _) (ih _ _ _)
    · split
      · exact advances_trans (tokenCursor_advances s _) (ih _ _ _)
      · exact advances_trans (tokenCursor_advances s _) (ih _ _ _)
    · exact advances_trans (tokenCursor_advances s _) (ih _ _ _)

/-- `BeforeCall` of `State.go` advances the state. -/
theorem BeforeCallTokens_advances (parse : List token.Token → Except String Expression)
    (parameters : List (List token.Token)) :
    ∀ (index : Nat) (s : State), s.Advances (BeforeCallTokens parse index parameters s).2 := by
  induction parameters with
  | nil => exact fun _ s => advances_refl s
  | cons tokens rest ih =>
    intro index s
    unfold BeforeCallTokens
    split
    · exact advances_refl s
    · rename_i target htarget
      have h1 := TokensToRegister_advances parse s tokens target
      rcases hr : s.TokensToRegister parse tokens target with ⟨o, t⟩
      rw [hr] at h1
      cases o with
      | ok => exact advances_trans h1 (ih (index + 1) t)
      | error e => exact h1
      | panic m => exact h1

/-- `AfterCall` of `State.go` advances the state. -/
theorem markUsed_advances (s : State) (function : Nat) : s.Advances (s.markUsed function) :=
  advances_of_same s _ rfl rfl rfl (fun _ => rfl) rfl (fun _ => rfl) (fun _ h => h)
    (fun _ h => Or.inl h) (fun _ => ⟨rfl, rfl⟩)

/-- The end of `Call` advances the state. -/
theorem callParameters_advances (parse : List token.Token → Except String Expression)
    (s : State) (functionName : String) (function : Nat) (isBuiltin : Bool)
    (parameters : List (List token.Token)) :
    s.Advances (s.callParameters parse functionName function isBuiltin parameters).2 := by
  have hcall : ∀ i : asm.Instruction,
      s.Advances (match BeforeCallTokens parse 0 parameters s with
        | (.ok, state) => (Outcome.ok, (state.emit i).markUsed function)
        | (o, state) => (o, state)).2 := by
    intro i
    have h1 := BeforeCallTokens_advances parse parameters 0 s
    rcases hr : BeforeCallTokens parse 0 parameters s with ⟨o, t⟩
    rw [hr] at h1
    cases o with
    | ok => exact advances_trans h1 (advances_trans (emit_advances t i) (markUsed_advances _ _))
    | error e => exact h1
    | panic m => exact h1
  unfold callParameters
  dsimp only
  split
  · exact advances_refl s
  · split
    · exact advances_refl s
    · split
      · split
        · split
          · exact advances_refl s
          · split
            · exact advances_refl s
            · split
              · exact advances_refl s
              · exact emit_advances _ _
        · split
          · exact hcall _
          · exact advances_refl s
      · exact hcall _

/-- `Call` of `State.go` advances the state. -/
theorem Call_advances (parse : List token.Token → Except String Expression)
    (s : State) (tokens : List token.Token) : s.Advances (s.Call parse tokens).2 := by
  unfold Call
  split
  · split
    · exact advances_refl s
    · split
      · exact advances_refl s
      · dsimp only
        split
        · exact advances_refl s
        · rename_i function isBuiltin hfound
          have h1 := splitParameters_advances (tokens.drop 2)
            { s with tokenCursor := s.tokenCursor + 1 } [] []
          rcases hr : splitParameters (tokens.drop 2)
            { s with tokenCursor := s.tokenCursor + 1 } [] [] with ⟨o, t, parameters⟩
          rw [hr] at h1
          have h0 := advances_trans (tokenCursor_advances s (s.tokenCursor + 1)) h1
          cases o with
          | ok => exact advances_trans h0 (callParameters_advances _ _ _ _ _ _)
          | error e => exact h0
          | panic m => exact h0
  · exact advances_refl s

/-- `Instruction` advances the state it enters with the cursors set. -/
theorem Instruction_advances (parse : List token.Token → Except String Expression)
    (s : State) (instr : instruction.Instruction) (index : Nat) :
    State.Advances { s with tokenCursor := instr.Position, instrCursor := index }
      (s.Instruction parse instr index).2 := by
  unfold Instruction
  dsimp only
  split
  · exact Assignment_advances _ _ _
  · exact Call_advances _ _ _
  · exact advances_refl _
  · unfold Invalid
    dsimp only
    split
    · exact advances_refl _
    · split <;> exact advances_refl _
  · exact advances_refl _

end State

/-! ## C15: the liveness bound never decreases -/

/-- The declaration of the parameters advances the state. -/
theorem declareParameters_advances (parameters : List Parameter) :
    ∀ s : State, s.Advances (declareParameters parameters s).2 := by
  induction parameters with
  | nil => exact fun s => State.advances_refl s
  | cons parameter rest ih =>
    intro s
    unfold declareParameters
    split
    · exact State.advances_refl s
    · exact State.advances_trans (State.newVariable_advances s parameter.Name 0)
        (State.advances_trans (State.BindRegister_advances _ _ _)
          (State.advances_trans
            (State.declare_advances _ _ (Nat.lt_succ_self s.allocated)) (ih _)))

namespace State

/-- One instruction, compiled at an index that bounds the liveness so far: no
liveness bound decreases, each one stays or becomes the index plus one, and
the index plus one bounds the liveness afterwards. -/
theorem Instruction_alive (parse : List token.Token → Except String Expression)
    (s : State) (instr : instruction.Instruction) (index : Nat)
    (hbelow : s.AliveBelow (index + 1)) :
    (∀ v, v < s.allocated →
      (s.variableStore v).AliveUntil ≤
          ((s.Instruction parse instr index).2.variableStore v).AliveUntil ∧
        (((s.Instruction parse instr index).2.variableStore v).AliveUntil
            = (s.variableStore v).AliveUntil ∨
          ((s.Instruction parse instr index).2.variableStore v).AliveUntil = index + 1)) ∧
    (s.Instruction parse instr index).2.AliveBelow (index + 1) ∧
    s.allocated ≤ (s.Instruction parse instr index).2.allocated := by
  have h := Instruction_advances parse s instr index
  refine ⟨fun v hv => ?_, fun v hv => ?_, h.allocated⟩
  · have ha := h.alive v hv
    have hb := hbelow v hv
    rcases ha with ha | ha
    · exact ⟨le_of_eq ha.symm, Or.inl ha⟩
    · exact ⟨by rw [ha]; exact hb, Or.inr ha⟩
  · by_cases hs : v < s.allocated
    · have ha := h.alive v hs
      have hb := hbelow v hs
      rcases ha with ha | ha
      · rw [ha]
        exact hb
      · exact le_of_eq ha
    · exact h.fresh v (by
        show s.allocated ≤ v
        omega) hv

/-- The instructions compiled so far keep the bound on the liveness. -/
theorem CompileInstructionsFrom_alive (parse : List token.Token → Except String Expression)
    (pre : List instruction.Instruction) :
    ∀ (index : Nat) (s s1 : State), s.AliveBelow (index + 1) →
      CompileInstructionsFrom parse index pre s = (.ok, s1) →
      s1.AliveBelow (index + pre.length + 1) := by
  induction pre with
  | nil =>
    intro index s s1 hbelow hrun
    unfold CompileInstructionsFrom at hrun
    injection hrun with _ h2
    subst h2
    exact hbelow
  | cons instr rest ih =>
    intro index s s1 hbelow hrun
    unfold CompileInstructionsFrom at hrun
    have h1 := (Instruction_alive parse s instr index hbelow).2.1
    rcases hr : s.Instruction parse instr index with ⟨o, t⟩
    rw [hr] at hrun h1
    cases o with
    | ok =>
      have h2 := ih (index + 1) t s1 (fun v hv => Nat.le_succ_of_le (h1 v hv)) hrun
      have : index + (instr :: rest).length + 1 = index + 1 + rest.length + 1 := by
        simp only [List.length_cons]
        omega
      rw [this]
      exact h2
    | error e => exact absurd (congrArg Prod.fst hrun) (by simp)
    | panic m => exact absurd (congrArg Prod.fst hrun) (by simp)

/-- C15: in a run of `Compile`, after the parameters are declared and the
instructions before some instruction are compiled, compiling that instruction
decreases the liveness bound of no variable: each bound stays as it is or
becomes the index of the instruction plus one, which is at least every bound
written before. -/
theorem CompileInstructions_liveness (parse : List token.Token → Except String Expression)
    (layout : register.Manager) (functionStore : Nat → Function) (function : Nat)
    (environment : Environment) (pre : List instruction.Instruction)
    (instr : instruction.Instruction) (s0 s1 : State)
    (hstart : declareParameters (functionStore function).Parameters
      (compileStart layout functionStore function environment) = (.ok, s0))
    (hpre : CompileInstructionsFrom parse 0 pre s0 = (.ok, s1)) :
    s1.AliveBelow (pre.length + 1) ∧
    ∀ v, v < s1.allocated →
      (s1.variableStore v).AliveUntil ≤
          ((s1.Instruction parse instr pre.length).2.variableStore v).AliveUntil ∧
        (((s1.Instruction parse instr pre.length).2.variableStore v).AliveUntil
            = (s1.variableStore v).AliveUntil ∨
          ((s1.Instruction parse instr pre.length).2.variableStore v).AliveUntil
            = pre.length + 1) := by
  have hadv := declareParameters_advances (functionStore function).Parameters
    (compileStart layout functionStore function environment)
  rw [hstart] at hadv
  have h0 : s0.AliveBelow (0 + 1) := fun v hv =>
    hadv.fresh v (Nat.zero_le v) hv
  have h1 := CompileInstructionsFrom_alive parse pre 0 s0 s1 h0 hpre
  rw [Nat.zero_add] at h1
  exact ⟨h1, (Instruction_alive parse s1 instr pre.length h1).1⟩

end State

namespace State

/-- C15 in the compilation of `main` with the body `x = 5`, `y = x`: while
`y = x` is compiled, no liveness bound decreases. -/
theorem CompileInstructions_liveness_witness :
    (declareParameters (sample.functionStore 3).Parameters
      (compileStart (sample.state [0, 1, 2, 3] [0] none).registers sample.functionStore 3
        sample.environment) = (.ok, sample.started) ∧
    CompileInstructionsFrom sample.parse 0
      [{ Kind := .Assignment, Tokens := sample.assignFive, Position := 0 }] sample.started
        = (.ok, sample.afterFirst)) ∧
    sample.afterFirst.AliveBelow (1 + 1) ∧
    ∀ v, v < sample.afterFirst.allocated →
      (sample.afterFirst.variableStore v).AliveUntil ≤
          ((sample.afterFirst.Instruction sample.parse
            { Kind := .Assignment, Tokens := sample.assignCopy, Position := 6 }
            1).2.variableStore v).AliveUntil ∧
        (((sample.afterFirst.Instruction sample.parse
            { Kind := .Assignment, Tokens := sample.assignCopy, Position := 6 }
            1).2.variableStore v).AliveUntil = (sample.afterFirst.variableStore v).AliveUntil ∨
          ((sample.afterFirst.Instruction sample.parse
            { Kind := .Assignment, Tokens := sample.assignCopy, Position := 6 }
            1).2.variableStore v).AliveUntil = 1 + 1) :=
  ⟨⟨Prod.ext (by decide) rfl, Prod.ext (by decide) rfl⟩,
    CompileInstructions_liveness sample.parse (sample.state [0, 1, 2, 3] [0] none).registers
      sample.functionStore 3 sample.environment
      [{ Kind := .Assignment, Tokens := sample.assignFive, Position := 0 }]
      { Kind := .Assignment, Tokens := sample.assignCopy, Position := 6 }
      sample.started sample.afterFirst (Prod.ext (by decide) rfl) (Prod.ext (by decide) rfl)⟩

end State

/-! ## The labels of the branches -/

/-- The value of a decimal digit character made by `Nat.digitChar`. -/
theorem digitChar_value (d : Nat) (h : d < 10) : (Nat.digitChar d).toNat - 48 = d := by
  interval_cases d <;> rfl

/-- Reading the digits `Nat.toDigitsCore` writes in front of a list gives back
the number. -/
theorem toDigitsCore_value (fuel : Nat) :
    ∀ (n : Nat) (ds : List Char), n < fuel →
      (Nat.toDigitsCore 10 fuel n ds).foldl (fun a c => 10 * a + (c.toNat - 48)) 0
        = ds.foldl (fun a c => 10 * a + (c.toNat - 48)) n := by
  induction fuel with
  | zero => exact fun n ds h => absurd h (Nat.not_lt_zero n)
  | succ fuel ih =>
    intro n ds h
    unfold Nat.toDigitsCore
    simp only
    have hd := digitChar_value (n % 10) (Nat.mod_lt n (by decide))
    split
    · rename_i h0
      rw [List.foldl_cons, hd]
      congr 1
      omega
    · rename_i h0
      rw [ih (n / 10) _ (by omega), List.foldl_cons, hd]
      congr 1
      omega

/-- The decimal numeral of a number determines the number. -/
theorem repr_injective (j k : Nat) (h : Nat.repr j = Nat.repr k) : j = k := by
  have hj := toDigitsCore_value (j + 1) j [] (Nat.lt_succ_self j)
  have hk := toDigitsCore_value (k + 1) k [] (Nat.lt_succ_self k)
  simp only [List.foldl_nil] at hj hk
  have hd : Nat.toDigits 10 j = Nat.toDigits 10 k := by
    have := congrArg String.data h
    simpa [Nat.repr, List.asString] using this
  unfold Nat.toDigits at hd
  rw [← hj, ← hk, hd]

/-- Two end-of-if labels are the same only for the same number. -/
theorem ifLabel_injective (j k : Nat) (h : spec.ifLabel j = spec.ifLabel k) : j = k := by
  apply repr_injective
  have := congrArg String.data h
  simp only [spec.ifLabel, String.data_append] at this
  have h2 := List.append_cancel_right this
  exact String.ext (List.append_cancel_left h2)

namespace State

/-- `IfFalseJump` keeps the state of the branches. -/
theorem IfFalseJump_ifState (s : State) (operator label : String) :
    (s.IfFalseJump operator label).ifState = s.ifState := by
  unfold IfFalseJump
  repeat' split
  all_goals rfl

/-- With quiet helpers, `Condition` keeps the state of the branches. -/
theorem Condition_ifState (lowering : Lowering) (hquiet : lowering.Quiet) (s : State)
    (condition : List token.Token) (label : String) :
    (s.Condition lowering condition label).2.ifState = s.ifState := by
  unfold Condition
  split
  · rfl
  · dsimp only
    split
    · rfl
    · rename_i v hv
      split
      · rfl
      · have hc := hquiet.2 (s.UseVariable v) ((s.UseVariable v).variableStore v).Register
          (condition.drop 2) ""
        rcases hr : lowering.CompareRegisterExpression (s.UseVariable v)
          ((s.UseVariable v).variableStore v).Register (condition.drop 2) "" with ⟨temporary, o, t⟩
        rw [hr] at hc
        have hc : t.ifState = s.ifState := hc
        cases o with
        | ok =>
          dsimp only
          split
          · cases temporary <;> exact hc
          · rw [IfFalseJump_ifState]
            cases temporary <;> exact hc
        | error e => exact hc
        | panic m => exact hc

/-- The label `IfStart` makes is the one of the specification for the counter
plus one; it is put on the pending labels and handed to `Condition`. -/
theorem IfStart_cons (lowering : Lowering) (s : State) (first : token.Token)
    (condition : List token.Token) :
    s.IfStart lowering (first :: condition) =
      State.Condition lowering
        { lowering.Expect s .Keyword with
          ifState :=
            { counter := (lowering.Expect s .Keyword).ifState.counter + 1
              labels := (lowering.Expect s .Keyword).ifState.labels ++
                [spec.ifLabel ((lowering.Expect s .Keyword).ifState.counter + 1)] } }
        condition (spec.ifLabel ((lowering.Expect s .Keyword).ifState.counter + 1)) :=
  rfl

/-- With quiet helpers, an `IfStart` that returns has counted one more and put
its label on the pending labels. -/
theorem IfStart_ifState (lowering : Lowering) (hquiet : lowering.Quiet) (s t : State)
    (tokens : List token.Token) (o : Outcome) (hne : ∀ m, o ≠ .panic m)
    (hrun : s.IfStart lowering tokens = (o, t)) :
    t.ifState =
      { counter := s.ifState.counter + 1
        labels := s.ifState.labels ++ [spec.ifLabel (s.ifState.counter + 1)] } := by
  cases tokens with
  | nil =>
    have : o = .panic sliceOutOfRange := (congrArg Prod.fst hrun).symm
    exact absurd this (hne _)
  | cons first condition =>
    rw [IfStart_cons] at hrun
    have h := congrArg (fun p => p.2.ifState) hrun
    simp only [Condition_ifState lowering hquiet] at h
    rw [← h, hquiet.1]

/-- An `IfEnd` that returns has bound the last of the pending labels and
removed it. -/
theorem IfEnd_ok (s t : State) (hrun : s.IfEnd = (.ok, t)) :
    ∃ label, s.ifState.labels.getLast? = some label ∧
      t.ifState = { counter := s.ifState.counter, labels := s.ifState.labels.dropLast } ∧
      t.assembler.Instructions = s.assembler.Instructions ++ [.Label label] := by
  unfold IfEnd at hrun
  split at hrun
  · exact absurd (congrArg Prod.fst hrun) (by simp)
  · rename_i label hl
    have h2 := (congrArg Prod.snd hrun).symm
    dsimp only at h2
    subst h2
    exact ⟨label, hl, rfl, rfl⟩

end State

/-- A step of a run that returned. -/
theorem runIfSteps_start (lowering : Lowering) (tokens : List token.Token)
    (rest : List IfStep) (s t : State) (bound : List (List asm.Instruction))
    (hrun : runIfSteps lowering (.start tokens :: rest) s = (bound, .ok, t)) :
    ∃ t1, s.IfStart lowering tokens = (.ok, t1) ∧
      runIfSteps lowering rest t1 = (bound, .ok, t) := by
  unfold runIfSteps at hrun
  rcases hr : s.IfStart lowering tokens with ⟨o, t1⟩
  rw [hr] at hrun
  cases o with
  | ok => exact ⟨t1, rfl, hrun⟩
  | error e => exact absurd (congrArg (fun p => p.2.1) hrun) (by simp)
  | panic m => exact absurd (congrArg (fun p => p.2.1) hrun) (by simp)

/-- A closing step of a run that returned: the step added the one instruction
that binds the last of the pending labels. -/
theorem runIfSteps_finish (lowering : Lowering) (rest : List IfStep) (s t : State)
    (bound : List (List asm.Instruction))
    (hrun : runIfSteps lowering (.finish :: rest) s = (bound, .ok, t)) :
    ∃ t1 label bound1, s.IfEnd = (.ok, t1) ∧ s.ifState.labels.getLast? = some label ∧
      bound = [.Label label] :: bound1 ∧ runIfSteps lowering rest t1 = (bound1, .ok, t) := by
  unfold runIfSteps at hrun
  rcases hr : s.IfEnd with ⟨o, t1⟩
  rw [hr] at hrun
  cases o with
  | ok =>
    obtain ⟨label, hl, -, hcode⟩ := State.IfEnd_ok s t1 hr
    rcases hr2 : runIfSteps lowering rest t1 with ⟨bound1, o2, u⟩
    dsimp only at hrun
    rw [hr2] at hrun
    simp only [hcode, List.drop_left, Prod.mk.injEq] at hrun
    obtain ⟨h1, h2, h3⟩ := hrun
    subst h1 h2 h3
    exact ⟨t1, label, bound1, rfl, hl, rfl, hr2⟩
  | error e => exact absurd (congrArg (fun p => p.2.1) hrun) (by simp)
  | panic m => exact absurd (congrArg (fun p => p.2.1) hrun) (by simp)

/-- With quiet helpers, a run that returns has counted its `IfStart` steps. -/
theorem runIfSteps_counter (lowering : Lowering) (hquiet : lowering.Quiet)
    (steps : List IfStep) :
    ∀ (s t : State) (bound : List (List asm.Instruction)),
      runIfSteps lowering steps s = (bound, .ok, t) →
      t.ifState.counter = s.ifState.counter + IfStep.starts steps := by
  induction steps with
  | nil =>
    intro s t bound hrun
    unfold runIfSteps at hrun
    simp only [Prod.mk.injEq, true_and] at hrun
    rw [← hrun.2]
    rfl
  | cons step rest ih =>
    intro s t bound hrun
    cases step with
    | start tokens =>
      obtain ⟨t1, h1, h2⟩ := runIfSteps_start lowering tokens rest s t bound hrun
      have hs := State.IfStart_ifState lowering hquiet s t1 tokens .ok (fun _ h => by simp at h) h1
      rw [ih t1 t bound h2, hs]
      simp only [IfStep.starts]
      omega
    | finish =>
      obtain ⟨t1, label, bound1, h1, -, -, h2⟩ := runIfSteps_finish lowering rest s t bound hrun
      obtain ⟨_, -, hs, -⟩ := State.IfEnd_ok s t1 h1
      rw [ih t1 t bound1 h2, hs]
      rfl

/-- The sample helpers keep the state of the branches. -/
theorem lowering_quiet : sample.lowering.Quiet :=
  ⟨fun _ _ => rfl, fun s r tokens _ => by
    unfold sample.lowering
    dsimp only
    repeat' split
    all_goals rfl⟩

/-! ## C16: the labels of the branches are unique -/

/-- C16: with helpers that keep the state of the branches, after a run of
`IfStart` and `IfEnd` steps that began with the counter at zero, the next
`IfStart`, the k-th one, hands the label `if_<k>_end` to `Condition` as the
jump target, having set the counter to k and put the label on the pending
labels; the counter is k afterwards, whether `Condition` fails or not; and two
labels `if_<j>_end` and `if_<k>_end` are the same only if j is k. -/
theorem IfStart_synthesizes_label (lowering : Lowering) (hquiet : lowering.Quiet)
    (pre : List IfStep) (s0 s : State) (bound : List (List asm.Instruction))
    (first : token.Token) (condition : List token.Token)
    (hfresh : s0.ifState.counter = 0)
    (hrun : runIfSteps lowering pre s0 = (bound, .ok, s)) :
    s.IfStart lowering (first :: condition) =
      State.Condition lowering
        { lowering.Expect s .Keyword with
          ifState :=
            { counter := IfStep.starts pre + 1
              labels := s.ifState.labels ++ [spec.ifLabel (IfStep.starts pre + 1)] } }
        condition (spec.ifLabel (IfStep.starts pre + 1)) ∧
    (s.IfStart lowering (first :: condition)).2.ifState.counter = IfStep.starts pre + 1 ∧
    (s.IfStart lowering (first :: condition)).2.ifState.labels =
      s.ifState.labels ++ [spec.ifLabel (IfStep.starts pre + 1)] ∧
    ∀ j k, spec.ifLabel j = spec.ifLabel k → j = k := by
  have hc := runIfSteps_counter lowering hquiet pre s0 s bound hrun
  rw [hfresh, Nat.zero_add] at hc
  have he := State.IfStart_cons lowering s first condition
  rw [hquiet.1, hc] at he
  refine ⟨he, ?_, ?_, ifLabel_injective⟩
  · rw [he, State.Condition_ifState lowering hquiet]
  · rw [he, State.Condition_ifState lowering hquiet]

/-- C16 at the second `if` of a function: its label is `if_2_end`. -/
theorem IfStart_synthesizes_label_witness :
    ((sample.state [0, 1, 2, 3] [0] (some 2)).ifState.counter = 0 ∧
      runIfSteps sample.lowering [.start sample.ifLess]
          (sample.state [0, 1, 2, 3] [0] (some 2))
        = ([], .ok, (runIfSteps sample.lowering [.start sample.ifLess]
          (sample.state [0, 1, 2, 3] [0] (some 2))).2.2)) ∧
    ((runIfSteps sample.lowering [.start sample.ifLess]
        (sample.state [0, 1, 2, 3] [0] (some 2))).2.2.IfStart sample.lowering
          sample.ifLess).2.ifState.labels = ["if_1_end", "if_2_end"] ∧
    ((runIfSteps sample.lowering [.start sample.ifLess]
        (sample.state [0, 1, 2, 3] [0] (some 2))).2.2.IfStart sample.lowering
          sample.ifLess).2.ifState.counter = IfStep.starts [.start sample.ifLess] + 1 :=
  ⟨⟨rfl, Prod.ext (by decide) (Prod.ext (by decide) rfl)⟩, by decide,
    (IfStart_synthesizes_label sample.lowering lowering_quiet
      [.start sample.ifLess] (sample.state [0, 1, 2, 3] [0] (some 2))
      (runIfSteps sample.lowering [.start sample.ifLess]
        (sample.state [0, 1, 2, 3] [0] (some 2))).2.2 [] (sample.token .Keyword 0 "if")
      [sample.token .Identifier 3 "x", sample.token .Operator 5 "<", sample.token .Number 7 "1"]
      rfl (Prod.ext (by decide) (Prod.ext (by decide) rfl))).2.1⟩

/-! ## C17: every `IfEnd` binds the label of its `IfStart` -/

/-- The matching of the specification closes every `IfStart` at most once:
the numbers it lists are distinct, each one is pending or was given during the
steps, and there is one for each `IfEnd`. -/
theorem matching_nodup (steps : List IfStep) :
    ∀ (count : Nat) (pending matched : List Nat), (∀ k ∈ pending, k ≤ count) → pending.Nodup →
      spec.matching steps count pending = some matched →
      matched.Nodup ∧ matched.length = IfStep.finishes steps ∧
        ∀ k ∈ matched, k ∈ pending ∨ (count < k ∧ k ≤ count + IfStep.starts steps) := by
  induction steps with
  | nil =>
    intro count pending matched _ _ h
    unfold spec.matching at h
    injection h with h
    subst h
    exact ⟨List.nodup_nil, rfl, fun k hk => absurd hk (List.not_mem_nil k)⟩
  | cons step rest ih =>
    intro count pending matched hle hnd h
    cases step with
    | start tokens =>
      unfold spec.matching at h
      have hnew : count + 1 ∉ pending := fun hm => absurd (hle _ hm) (by omega)
      obtain ⟨h1, h2, h3⟩ := ih (count + 1) ((count + 1) :: pending) matched
        (fun k hk => by
          rcases List.mem_cons.mp hk with hk | hk
          · omega
          · exact Nat.le_succ_of_le (hle k hk))
        (List.nodup_cons.mpr ⟨hnew, hnd⟩) h
      refine ⟨h1, h2, fun k hk => ?_⟩
      simp only [IfStep.starts]
      rcases h3 k hk with hp | hp
      · rcases List.mem_cons.mp hp with hp | hp
        · exact Or.inr (by omega)
        · exact Or.inl hp
      · exact Or.inr (by omega)
    | finish =>
      cases pending with
      | nil =>
        unfold spec.matching at h
        exact Option.noConfusion h
      | cons top pending =>
        unfold spec.matching at h
        cases hm : spec.matching rest count pending with
        | none =>
          rw [hm] at h
          exact Option.noConfusion h
        | some matched1 =>
          rw [hm] at h
          injection h with h
          subst h
          have hnd2 := List.nodup_cons.mp hnd
          obtain ⟨h1, h2, h3⟩ := ih count pending matched1
            (fun k hk => hle k (List.mem_cons_of_mem _ hk)) hnd2.2 hm
          refine ⟨List.nodup_cons.mpr ⟨fun hin => ?_, h1⟩, ?_, fun k hk => ?_⟩
          · rcases h3 top hin with hp | hp
            · exact hnd2.1 hp
            · have := hle top (List.mem_cons_self _ _)
              omega
          · simp only [List.length_cons, IfStep.finishes, h2]
          · simp only [IfStep.starts]
            rcases List.mem_cons.mp hk with hk | hk
            · exact Or.inl (hk ▸ List.mem_cons_self _ _)
            · rcases h3 k hk with hp | hp
              · exact Or.inl (List.mem_cons_of_mem _ hp)
              · exact Or.inr hp

namespace State

/-- The jump of `IfFalseJump` is added to the stream. -/
theorem IfFalseJump_appends (s : State) (operator label : String) :
    ∃ code, (s.IfFalseJump operator label).assembler.Instructions
      = s.assembler.Instructions ++ code := by
  unfold IfFalseJump
  repeat' split
  all_goals first
    | exact ⟨[_], rfl⟩
    | exact ⟨[], (List.append_nil _).symm⟩

/-- With helpers that only add to the stream, `Condition` only adds to the
stream. -/
theorem Condition_appends (lowering : Lowering) (happends : lowering.Appends) (s : State)
    (condition : List token.Token) (label : String) :
    ∃ code, (s.Condition lowering condition label).2.assembler.Instructions
      = s.assembler.Instructions ++ code := by
  unfold Condition
  split
  · exact ⟨[], (List.append_nil _).symm⟩
  · dsimp only
    split
    · exact ⟨[], (List.append_nil _).symm⟩
    · rename_i v hv
      split
      · exact ⟨[], (List.append_nil _).symm⟩
      · obtain ⟨code, hc⟩ := happends.2 (s.UseVariable v)
          ((s.UseVariable v).variableStore v).Register (condition.drop 2) ""
        rcases hr : lowering.CompareRegisterExpression (s.UseVariable v)
          ((s.UseVariable v).variableStore v).Register (condition.drop 2) "" with ⟨temporary, o, t⟩
        rw [hr] at hc
        replace hc : t.assembler.Instructions = s.assembler.Instructions ++ code := hc
        cases o with
        | ok =>
          dsimp only
          split
          · cases temporary <;> exact ⟨code, hc⟩
          · rename_i second _
            cases temporary with
            | none =>
              obtain ⟨code2, h2⟩ := IfFalseJump_appends t second.Text label
              exact ⟨code ++ code2, by rw [h2, hc, List.append_assoc]⟩
            | some r =>
              obtain ⟨code2, h2⟩ := IfFalseJump_appends
                { t with registers := t.registers.Free r } second.Text label
              exact ⟨code ++ code2, by
                rw [h2]
                show t.assembler.Instructions ++ code2 = _
                rw [hc, List.append_assoc]⟩
        | error e => exact ⟨code, hc⟩
        | panic m => exact ⟨code, hc⟩

/-- With helpers that only add to the stream, `IfStart` only adds to the
stream. -/
theorem IfStart_appends (lowering : Lowering) (happends : lowering.Appends) (s : State)
    (tokens : List token.Token) :
    ∃ code, (s.IfStart lowering tokens).2.assembler.Instructions
      = s.assembler.Instructions ++ code := by
  obtain ⟨code1, h1⟩ := happends.1 s .Keyword
  cases tokens with
  | nil => exact ⟨code1, h1⟩
  | cons first condition =>
    rw [IfStart_cons]
    obtain ⟨code2, h2⟩ := Condition_appends lowering happends
      { lowering.Expect s .Keyword with
        ifState :=
          { counter := (lowering.Expect s .Keyword).ifState.counter + 1
            labels := (lowering.Expect s .Keyword).ifState.labels ++
              [spec.ifLabel ((lowering.Expect s .Keyword).ifState.counter + 1)] } }
      condition (spec.ifLabel ((lowering.Expect s .Keyword).ifState.counter + 1))
    exact ⟨code1 ++ code2, by
      rw [h2]
      show (lowering.Expect s .Keyword).assembler.Instructions ++ code2 = _
      rw [h1, List.append_assoc]⟩

/-- An `IfEnd` with a pending label: the last one is removed and bound. -/
theorem IfEnd_of_last (s : State) (label : String)
    (hl : s.ifState.labels.getLast? = some label) :
    s.IfEnd = (.ok, State.emit
      { s with ifState := { s.ifState with labels := s.ifState.labels.dropLast } }
      (.Label label)) := by
  unfold IfEnd
  rw [hl]

end State

/-- The sample helpers only add to the stream. -/
theorem lowering_appends : sample.lowering.Appends :=
  ⟨fun s _ => ⟨[], (List.append_nil _).symm⟩, fun s r tokens _ => by
    unfold sample.lowering
    dsimp only
    repeat' split
    all_goals first
      | exact ⟨[_], rfl⟩
      | exact ⟨[], (List.append_nil _).symm⟩⟩

/-- With helpers that only add to the stream, a run that returns has only
added to the stream, and the instructions its `IfEnd` steps added are in the
stream it leaves. -/
theorem runIfSteps_appends (lowering : Lowering) (happends : lowering.Appends)
    (steps : List IfStep) :
    ∀ (s t : State) (bound : List (List asm.Instruction)),
      runIfSteps lowering steps s = (bound, .ok, t) →
      (∃ code, t.assembler.Instructions = s.assembler.Instructions ++ code) ∧
      ∀ e ∈ bound, ∀ i ∈ e, i ∈ t.assembler.Instructions := by
  induction steps with
  | nil =>
    intro s t bound hrun
    unfold runIfSteps at hrun
    simp only [Prod.mk.injEq, true_and] at hrun
    obtain ⟨h1, h2⟩ := hrun
    subst h1 h2
    exact ⟨⟨[], (List.append_nil _).symm⟩, fun e he => absurd he (List.not_mem_nil e)⟩
  | cons step rest ih =>
    intro s t bound hrun
    cases step with
    | start tokens =>
      obtain ⟨t1, h1, h2⟩ := runIfSteps_start lowering tokens rest s t bound hrun
      obtain ⟨code1, hc1⟩ := State.IfStart_appends lowering happends s tokens
      rw [h1] at hc1
      have hc1 : t1.assembler.Instructions = s.assembler.Instructions ++ code1 := hc1
      obtain ⟨⟨code2, hc2⟩, hin⟩ := ih t1 t bound h2
      exact ⟨⟨code1 ++ code2, by rw [hc2, hc1, List.append_assoc]⟩, hin⟩
    | finish =>
      obtain ⟨t1, label, bound1, h1, hl, hb, h2⟩ :=
        runIfSteps_finish lowering rest s t bound hrun
      obtain ⟨label1, hl1, -, hc1⟩ := State.IfEnd_ok s t1 h1
      rw [hl] at hl1
      injection hl1 with hl1
      subst hl1
      obtain ⟨⟨code2, hc2⟩, hin⟩ := ih t1 t bound1 h2
      refine ⟨⟨[.Label label] ++ code2, by rw [hc2, hc1, List.append_assoc]⟩,
        fun e he i hi => ?_⟩
      rw [hb] at he
      rcases List.mem_cons.mp he with he | he
      · rw [hc2, hc1]
        rw [he] at hi
        exact List.mem_append_left _ (List.mem_append_right _ hi)
      · exact hin e he i hi


/-- With quiet helpers, a run that returns has added, at each `IfEnd`, the one
instruction that binds the label of the `IfStart` the specification matches
it with. -/
theorem runIfSteps_matching (lowering : Lowering) (hquiet : lowering.Quiet)
    (steps : List IfStep) :
    ∀ (s t : State) (pending : List Nat) (bound : List (List asm.Instruction)),
      s.ifState.labels = (pending.map spec.ifLabel).reverse →
      runIfSteps lowering steps s = (bound, .ok, t) →
      ∃ matched, spec.matching steps s.ifState.counter pending = some matched ∧
        bound = matched.map (fun k => [asm.Instruction.Label (spec.ifLabel k)]) ∧
        t.ifState.labels.length + IfStep.finishes steps
          = pending.length + IfStep.starts steps ∧
        ∀ pre post e1 s1, steps = pre ++ .finish :: post →
          runIfSteps lowering pre s = (e1, .ok, s1) →
          ∃ k, matched[IfStep.finishes pre]? = some k ∧
            s1.ifState.labels.getLast? = some (spec.ifLabel k) := by
  induction steps with
  | nil =>
    intro s t pending bound hlabels hrun
    unfold runIfSteps at hrun
    simp only [Prod.mk.injEq, true_and] at hrun
    obtain ⟨h1, h2⟩ := hrun
    subst h1 h2
    refine ⟨[], rfl, rfl, ?_, fun pre post e1 s1 hsteps _ => ?_⟩
    · rw [hlabels]
      simp [IfStep.finishes, IfStep.starts]
    · exact absurd hsteps (by simp)
  | cons step rest ih =>
    intro s t pending bound hlabels hrun
    cases step with
    | start tokens =>
      obtain ⟨t1, h1, h2⟩ := runIfSteps_start lowering tokens rest s t bound hrun
      have hs := State.IfStart_ifState lowering hquiet s t1 tokens .ok (fun _ h => by simp at h) h1
      obtain ⟨matched, hm, hb, hlen, hstep⟩ :=
        ih t1 t ((s.ifState.counter + 1) :: pending) bound (by rw [hs, hlabels]; simp) h2
      refine ⟨matched, ?_, hb, ?_, fun pre post e1 s1 hsteps hpre => ?_⟩
      · unfold spec.matching
        rw [hs] at hm
        exact hm
      · simp only [IfStep.finishes, IfStep.starts, List.length_cons] at hlen ⊢
        omega
      · cases pre with
        | nil =>
          simp only [List.nil_append, List.cons.injEq] at hsteps
          exact IfStep.noConfusion hsteps.1
        | cons step2 pre2 =>
          simp only [List.cons_append, List.cons.injEq] at hsteps
          obtain ⟨hstep2, hrest⟩ := hsteps
          subst hstep2
          obtain ⟨t2, h3, h4⟩ := runIfSteps_start lowering tokens pre2 s s1 e1 hpre
          rw [h1] at h3
          injection h3 with _ h3
          subst h3
          exact hstep pre2 post e1 s1 hrest h4
    | finish =>
      obtain ⟨t1, label, bound1, h1, hl, hb, h2⟩ :=
        runIfSteps_finish lowering rest s t bound hrun
      obtain ⟨_, -, hs, -⟩ := State.IfEnd_ok s t1 h1
      cases pending with
      | nil =>
        rw [hlabels] at hl
        exact absurd hl (by simp)
      | cons top pending =>
        have hlast : s.ifState.labels = (pending.map spec.ifLabel).reverse ++ [spec.ifLabel top] := by
          rw [hlabels]
          simp
        have hl0 := hl
        rw [hlast] at hl
        simp at hl
        obtain ⟨matched, hm, hb1, hlen, hstep⟩ := ih t1 t pending bound1
          (by rw [hs, hlast]; simp) h2
        refine ⟨top :: matched, ?_, ?_, ?_, fun pre post e1 s1 hsteps hpre => ?_⟩
        · unfold spec.matching
          rw [hs] at hm
          rw [hm]
          rfl
        · rw [hb, hb1, ← hl]
          rfl
        · simp only [IfStep.finishes, IfStep.starts, List.length_cons] at hlen ⊢
          omega
        · cases pre with
          | nil =>
            unfold runIfSteps at hpre
            simp only [Prod.mk.injEq, true_and] at hpre
            rw [← hpre.2]
            exact ⟨top, by simp [IfStep.finishes], by rw [hl0, hl]⟩
          | cons step2 pre2 =>
            simp only [List.cons_append, List.cons.injEq] at hsteps
            obtain ⟨hstep2, hrest⟩ := hsteps
            subst hstep2
            obtain ⟨t2, _, _, h3, _, _, h4⟩ := runIfSteps_finish lowering pre2 s s1 e1 hpre
            rw [h1] at h3
            injection h3 with _ h3
            subst h3
            obtain ⟨k, hk1, hk2⟩ := hstep pre2 post _ s1 hrest h4
            exact ⟨k, by simpa [IfStep.finishes] using hk1, hk2⟩


/-- C17: with helpers that keep the state of the branches, a run of `IfStart`
and `IfEnd` steps that starts with no pending label and returns (so every
`IfEnd` had an open `IfStart`) has added to the stream, at each `IfEnd`,
exactly the instruction `Label if_<k>_end` for the `IfStart` number k the
specification matches it with; no label is bound twice; the pending labels are
as many as the `IfStart` steps not closed; and when the steps are balanced no
label is pending and the labels bound are those of all the `IfStart` steps.
Step by step: the `IfStart` that follows a part of the steps with j `IfStart`
steps hands the label of the number j + 1 (after the counter at the start) to
`Condition` as the jump target, and the `IfEnd` that follows a part of the steps
finds the label of its `IfStart` as the last pending one, removes it and emits
`Label` of it.  With helpers that only add to the stream, every label bound is
in the stream the run leaves; when the steps are balanced, these are the
labels of all the `IfStart` steps. -/
theorem IfEnd_binds_matching_label (lowering : Lowering) (hquiet : lowering.Quiet)
    (steps : List IfStep) (s t : State) (emitted : List (List asm.Instruction))
    (hfresh : s.ifState.labels = [])
    (hrun : runIfSteps lowering steps s = (emitted, .ok, t)) :
    ∃ matched, spec.matching steps s.ifState.counter [] = some matched ∧
      emitted = matched.map (fun k => [asm.Instruction.Label (spec.ifLabel k)]) ∧
      emitted.Nodup ∧
      t.ifState.labels.length + IfStep.finishes steps = IfStep.starts steps ∧
      (IfStep.finishes steps = IfStep.starts steps →
        t.ifState.labels = [] ∧
        emitted.Perm ((List.range' (s.ifState.counter + 1) (IfStep.starts steps)).map
          (fun k => [asm.Instruction.Label (spec.ifLabel k)]))) ∧
      (∀ pre post first condition e1 s1,
        steps = pre ++ .start (first :: condition) :: post →
        runIfSteps lowering pre s = (e1, .ok, s1) →
        s1.IfStart lowering (first :: condition) =
          State.Condition lowering
            { lowering.Expect s1 .Keyword with
              ifState :=
                { counter := s.ifState.counter + IfStep.starts pre + 1
                  labels := s1.ifState.labels ++
                    [spec.ifLabel (s.ifState.counter + IfStep.starts pre + 1)] } }
            condition (spec.ifLabel (s.ifState.counter + IfStep.starts pre + 1))) ∧
      (∀ pre post e1 s1, steps = pre ++ .finish :: post →
        runIfSteps lowering pre s = (e1, .ok, s1) →
        ∃ k, matched[IfStep.finishes pre]? = some k ∧
          s1.ifState.labels.getLast? = some (spec.ifLabel k) ∧
          s1.IfEnd = (.ok, State.emit
            { s1 with ifState := { s1.ifState with labels := s1.ifState.labels.dropLast } }
            (.Label (spec.ifLabel k)))) ∧
      (lowering.Appends →
        (∃ code, t.assembler.Instructions = s.assembler.Instructions ++ code) ∧
        (∀ k ∈ matched, asm.Instruction.Label (spec.ifLabel k) ∈ t.assembler.Instructions) ∧
        (IfStep.finishes steps = IfStep.starts steps →
          ∀ k, s.ifState.counter < k → k ≤ s.ifState.counter + IfStep.starts steps →
            asm.Instruction.Label (spec.ifLabel k) ∈ t.assembler.Instructions)) := by
  obtain ⟨matched, hm, hb, hlen, hstep⟩ :=
    runIfSteps_matching lowering hquiet steps s t [] emitted (by rw [hfresh]; rfl) hrun
  obtain ⟨h1, h2, h3⟩ := matching_nodup steps s.ifState.counter [] matched
    (fun k hk => absurd hk (List.not_mem_nil k)) List.nodup_nil hm
  simp only [List.length_nil, Nat.zero_add] at hlen
  have hperm : IfStep.finishes steps = IfStep.starts steps →
      matched.Perm (List.range' (s.ifState.counter + 1) (IfStep.starts steps)) := by
    intro hbal
    apply List.Subperm.perm_of_length_le
    · apply List.subperm_of_subset h1
      intro k hk
      rcases h3 k hk with hp | hp
      · exact absurd hp (List.not_mem_nil k)
      · rw [List.mem_range']
        exact ⟨k - (s.ifState.counter + 1), by omega, by omega⟩
    · rw [List.length_range', h2, hbal]
  refine ⟨matched, hm, hb, ?_, hlen, fun hbal => ⟨?_, ?_⟩,
    fun pre post first condition e1 s1 _ hpre => ?_, fun pre post e1 s1 hsteps hpre => ?_,
    fun happends => ?_⟩
  · rw [hb]
    exact h1.map fun j k h => ifLabel_injective j k (by
      injection h with h _
      injection h)
  · apply List.eq_nil_of_length_eq_zero
    omega
  · rw [hb]
    exact (hperm hbal).map _
  · have hc := runIfSteps_counter lowering hquiet pre s s1 e1 hpre
    have he := State.IfStart_cons lowering s1 first condition
    rw [hquiet.1, hc] at he
    exact he
  · obtain ⟨k, hk1, hk2⟩ := hstep pre post e1 s1 hsteps hpre
    exact ⟨k, hk1, hk2, State.IfEnd_of_last s1 _ hk2⟩
  · obtain ⟨hcode, hin⟩ := runIfSteps_appends lowering happends steps s t emitted hrun
    have hall : ∀ k ∈ matched,
        asm.Instruction.Label (spec.ifLabel k) ∈ t.assembler.Instructions := by
      intro k hk
      exact hin [.Label (spec.ifLabel k)] (by
        rw [hb]
        exact List.mem_map.mpr ⟨k, hk, rfl⟩) _ (List.mem_singleton.mpr rfl)
    refine ⟨hcode, hall, fun hbal k hlo hhi => hall k ?_⟩
    rw [(hperm hbal).mem_iff, List.mem_range']
    exact ⟨k - (s.ifState.counter + 1), by omega, by omega⟩

/-- C17 at the steps of `if { if { } if { } }`: the labels bound are those of
the second, the third and the first `if`, and the stream the run leaves holds
the jumps to the three labels and the three labels. -/
theorem IfEnd_binds_matching_label_witness :
    ((sample.state [0, 1, 2, 3] [0] (some 2)).ifState.labels = [] ∧
      runIfSteps sample.lowering sample.nestedIfs (sample.state [0, 1, 2, 3] [0] (some 2))
        = ([[.Label "if_2_end"], [.Label "if_3_end"], [.Label "if_1_end"]], .ok,
          (runIfSteps sample.lowering sample.nestedIfs
            (sample.state [0, 1, 2, 3] [0] (some 2))).2.2)) ∧
    (runIfSteps sample.lowering sample.nestedIfs
        (sample.state [0, 1, 2, 3] [0] (some 2))).2.2.assembler.Instructions
      = [.CompareRegisterNumber 2 1, .JumpIfGreaterOrEqual "if_1_end",
          .CompareRegisterNumber 2 1, .JumpIfGreaterOrEqual "if_2_end", .Label "if_2_end",
          .CompareRegisterNumber 2 1, .JumpIfGreaterOrEqual "if_3_end", .Label "if_3_end",
          .Label "if_1_end"] ∧
    ∃ matched,
      spec.matching sample.nestedIfs (sample.state [0, 1, 2, 3] [0] (some 2)).ifState.counter []
        = some matched ∧
      [[asm.Instruction.Label "if_2_end"], [.Label "if_3_end"], [.Label "if_1_end"]]
        = matched.map (fun k => [asm.Instruction.Label (spec.ifLabel k)]) ∧
      [[asm.Instruction.Label "if_2_end"], [.Label "if_3_end"], [.Label "if_1_end"]].Nodup ∧
      (runIfSteps sample.lowering sample.nestedIfs
          (sample.state [0, 1, 2, 3] [0] (some 2))).2.2.ifState.labels.length
        + IfStep.finishes sample.nestedIfs = IfStep.starts sample.nestedIfs ∧
      ∀ k ∈ matched, asm.Instruction.Label (spec.ifLabel k) ∈
        (runIfSteps sample.lowering sample.nestedIfs
          (sample.state [0, 1, 2, 3] [0] (some 2))).2.2.assembler.Instructions :=
  ⟨⟨rfl, Prod.ext (by decide) (Prod.ext (by decide) rfl)⟩, by decide,
    (IfEnd_binds_matching_label sample.lowering lowering_quiet sample.nestedIfs
      (sample.state [0, 1, 2, 3] [0] (some 2))
      (runIfSteps sample.lowering sample.nestedIfs (sample.state [0, 1, 2, 3] [0] (some 2))).2.2
      [[.Label "if_2_end"], [.Label "if_3_end"], [.Label "if_1_end"]] rfl
      (Prod.ext (by decide) (Prod.ext (by decide) rfl))).imp
      fun _ h => ⟨h.1, h.2.1, h.2.2.1, h.2.2.2.1, (h.2.2.2.2.2.2.2 lowering_appends).2.1⟩⟩

/-! ## C18: the conditional jump of a condition -/

/-- C18 fails in the code: `IfFalseJump` has no case for an operator other
than the six comparisons, and `Condition` does not look at the operator before
it returns.  For every other operator text `IfFalseJump` leaves the state as it
is; and the condition `x + 1`, with `x` in scope and bound to register 2,
makes `Condition` return no error with the compare instruction as the only
instruction emitted: no conditional jump follows it. -/
theorem Condition_without_jump :
    (∀ (s : State) (operator label : String),
      operator ∉ [">=", ">", "<=", "<", "==", "!="] → s.IfFalseJump operator label = s) ∧
    ((sample.state [0, 1, 2, 3] [0] (some 2)).Condition sample.lowering sample.conditionPlus
      "if_1_end").1 = .ok ∧
    ((sample.state [0, 1, 2, 3] [0] (some 2)).Condition sample.lowering sample.conditionPlus
      "if_1_end").2.assembler.Instructions = [.CompareRegisterNumber 2 1] := by
  refine ⟨fun s operator label h => ?_, by decide, by decide⟩
  simp only [List.mem_cons, List.mem_singleton, List.not_mem_nil, or_false, not_or] at h
  obtain ⟨h1, h2, h3, h4, h5, h6⟩ := h
  unfold State.IfFalseJump
  rw [if_neg h1, if_neg h2, if_neg h3, if_neg h4, if_neg h5, if_neg h6]

/-! ## C19: the result of `Compile` -/

namespace State

/-- The instructions compiled only add to the stream. -/
theorem CompileInstructionsFrom_code (parse : List token.Token → Except String Expression)
    (instructions : List instruction.Instruction) :
    ∀ (index : Nat) (s : State),
      ∃ code, (CompileInstructionsFrom parse index instructions s).2.assembler.Instructions
        = s.assembler.Instructions ++ code := by
  induction instructions with
  | nil => exact fun _ s => ⟨[], by simp [CompileInstructionsFrom]⟩
  | cons instr rest ih =>
    intro index s
    obtain ⟨code1, h1⟩ := (Instruction_advances parse s instr index).code
    unfold CompileInstructionsFrom
    rcases hr : s.Instruction parse instr index with ⟨o, t⟩
    rw [hr] at h1
    have h1 : t.assembler.Instructions = s.assembler.Instructions ++ code1 := h1
    cases o with
    | ok =>
      obtain ⟨code2, h2⟩ := ih (index + 1) t
      exact ⟨code1 ++ code2, by rw [h2, h1, List.append_assoc]⟩
    | error e => exact ⟨code1, h1⟩
    | panic m => exact ⟨code1, h1⟩

end State

/-- The stream of the first part of `Compile` starts with the label of the
function. -/
theorem compileBody_code (parse : List token.Token → Except String Expression)
    (layout : register.Manager) (functionStore : Nat → Function)
    (instructions : List instruction.Instruction) (function : Nat)
    (environment : Environment) :
    ∃ code, (compileBody parse layout functionStore instructions function
        environment).2.assembler.Instructions
      = .Label (functionStore function).Name :: code := by
  obtain ⟨code1, h1⟩ := (declareParameters_advances (functionStore function).Parameters
    (compileStart layout functionStore function environment)).code
  unfold compileBody
  dsimp only
  rcases hr : declareParameters (functionStore function).Parameters
    (compileStart layout functionStore function environment) with ⟨o, t⟩
  rw [hr] at h1
  have h3 : t.assembler.Instructions = [.Label (functionStore function).Name] ++ code1 := h1
  cases o with
  | ok =>
    obtain ⟨code2, h2⟩ := State.CompileInstructionsFrom_code parse instructions 0 t
    exact ⟨code1 ++ code2, by
      show (State.CompileInstructionsFrom parse 0 instructions t).2.assembler.Instructions = _
      rw [h2, h3]
      simp⟩
  | error e => exact ⟨code1, h3⟩
  | panic m => exact ⟨code1, h3⟩

namespace State

/-- A state that advances keeps. -/
theorem keeps_of_advances {s t : State} (h : s.Advances t) : s.Keeps t :=
  ⟨h.allocated, h.zero, h.grows, h.bounded, h.named⟩

/-- `Keeps` is transitive. -/
theorem keeps_trans {a b c : State} (hab : a.Keeps b) (hbc : b.Keeps c) : a.Keeps c :=
  ⟨le_trans hab.allocated hbc.allocated, fun h => hbc.zero (hab.zero h),
    fun v hv => hbc.grows v (hab.grows v hv), fun h => hbc.bounded (hab.bounded h),
    fun v hv => ⟨((hbc.named v (lt_of_lt_of_le hv hab.allocated)).1).trans (hab.named v hv).1,
      ((hbc.named v (lt_of_lt_of_le hv hab.allocated)).2).trans (hab.named v hv).2⟩⟩

/-- One instruction keeps the variables and the scopes. -/
theorem Instruction_keeps (parse : List token.Token → Except String Expression)
    (s : State) (instr : instruction.Instruction) (index : Nat) :
    s.Keeps (s.Instruction parse instr index).2 :=
  have h := Instruction_advances parse s instr index
  ⟨h.allocated, h.zero, h.grows, h.bounded, h.named⟩

/-- The instructions keep the variables and the scopes. -/
theorem CompileInstructionsFrom_keeps (parse : List token.Token → Except String Expression)
    (instructions : List instruction.Instruction) :
    ∀ (index : Nat) (s : State),
      s.Keeps (CompileInstructionsFrom parse index instructions s).2 := by
  induction instructions with
  | nil => exact fun _ s => keeps_of_advances (advances_refl s)
  | cons instr rest ih =>
    intro index s
    have h1 := Instruction_keeps parse s instr index
    unfold CompileInstructionsFrom
    rcases hr : s.Instruction parse instr index with ⟨o, t⟩
    rw [hr] at h1
    cases o with
    | ok => exact keeps_trans h1 (ih (index + 1) t)
    | error e => exact h1
    | panic m => exact h1

/-- The store of the variables is not changed by `declare`. -/
theorem declare_variableStore (s : State) (v : Nat) :
    (s.declare v).variableStore = s.variableStore := by
  unfold declare
  split <;> rfl

/-- After `declare`, a variable with the name of the one declared is in scope:
the one declared, or the one of the innermost scope that has its name. -/
theorem declare_declares (s : State) (v : Nat) (hscopes : s.scopes.scopes ≠ []) :
    (s.declare v).scopes.scopes ≠ [] ∧
    ((v ∈ (s.declare v).scopes.scopes.flatten) ∨
      ∃ w, w ∈ s.scopes.scopes.flatten ∧ (s.declare v).scopes = s.scopes ∧
        (s.variableStore w).Name = (s.variableStore v).Name) := by
  unfold declare
  cases hadd : s.scopes.Add s.variableStore v with
  | some scopes =>
    dsimp only
    refine ⟨?_, Or.inl ((Add_flatten _ _ _ _ hadd v).mpr (Or.inr rfl))⟩
    unfold ScopeStack.Add at hadd
    split at hadd
    · exact Option.noConfusion hadd
    · split at hadd
      · exact Option.noConfusion hadd
      · injection hadd with hadd
        subst hadd
        exact List.cons_ne_nil _ _
  | none =>
    dsimp only
    refine ⟨hscopes, Or.inr ?_⟩
    unfold ScopeStack.Add at hadd
    split at hadd
    · rename_i hs
      exact absurd hs hscopes
    · rename_i innermost outer hs
      split at hadd
      · rename_i hany
        obtain ⟨w, hw, hname⟩ := List.any_eq_true.mp hany
        refine ⟨w, ?_, rfl, by simpa using hname⟩
        rw [hs]
        simp [hw]
      · exact Option.noConfusion hadd

end State


/-- The variables in the scopes after `declare`: those before and, at most,
the one declared. -/
theorem State.declare_flatten (s : State) (v w : Nat)
    (hw : w ∈ (s.declare v).scopes.scopes.flatten) : w ∈ s.scopes.scopes.flatten ∨ w = v := by
  unfold State.declare at hw
  cases hadd : s.scopes.Add s.variableStore v with
  | some scopes =>
    rw [hadd] at hw
    exact (State.Add_flatten _ _ _ _ hadd w).mp hw
  | none =>
    rw [hadd] at hw
    exact Or.inl hw

/-- The parameters declared are in scope: after `declareParameters` every
parameter has a variable in scope with its name and the position 0. -/
theorem declareParameters_declares (parameters : List Parameter) :
    ∀ (s t : State), declareParameters parameters s = (.ok, t) →
      s.scopes.scopes ≠ [] →
      (∀ v, v ∈ s.scopes.scopes.flatten → v < s.allocated) →
      (∀ v, v ∈ s.scopes.scopes.flatten → (s.variableStore v).Position = 0) →
      t.scopes.scopes ≠ [] ∧
      (∀ v, v ∈ t.scopes.scopes.flatten → v < t.allocated) ∧
      (∀ v, v ∈ t.scopes.scopes.flatten → (t.variableStore v).Position = 0) ∧
      ∀ p, p ∈ parameters → ∃ v, v ∈ t.scopes.scopes.flatten ∧
        (t.variableStore v).Name = p.Name ∧ (t.variableStore v).Position = 0 := by
  induction parameters with
  | nil =>
    intro s t h hne hb hp
    unfold declareParameters at h
    injection h with _ h
    subst h
    exact ⟨hne, hb, hp, fun p hp => absurd hp (List.not_mem_nil p)⟩
  | cons parameter rest ih =>
    intro s t h hne hb hp
    unfold declareParameters at h
    cases hfree : s.registers.FindFreeRegister with
    | none =>
      rw [hfree] at h
      injection h with h _
      exact Outcome.noConfusion h
    | some newRegister =>
      rw [hfree] at h
      dsimp only at h
      have hnew := State.newVariable_advances s parameter.Name 0
      have hbind := State.BindRegister_advances (s.newVariable parameter.Name 0).2
        (s.newVariable parameter.Name 0).1 newRegister
      have hdecl := State.declare_advances
        ((s.newVariable parameter.Name 0).2.BindRegister (s.newVariable parameter.Name 0).1
          newRegister) (s.newVariable parameter.Name 0).1 (Nat.lt_succ_self s.allocated)
      have hadv := State.advances_trans hnew (State.advances_trans hbind hdecl)
      have hd := State.declare_declares
        ((s.newVariable parameter.Name 0).2.BindRegister (s.newVariable parameter.Name 0).1
          newRegister) (s.newVariable parameter.Name 0).1 hne
      generalize hs3 : State.declare
        ((s.newVariable parameter.Name 0).2.BindRegister (s.newVariable parameter.Name 0).1
          newRegister) (s.newVariable parameter.Name 0).1 = s3 at h hdecl hadv hd
      have hstore : ∀ w, w ≠ s.allocated →
          (s3.variableStore w).Name = (s.variableStore w).Name ∧
            (s3.variableStore w).Position = (s.variableStore w).Position := by
        intro w hw
        rw [← hs3, State.declare_variableStore]
        simp [State.BindRegister, State.newVariable, Function.update_noteq hw]
      have hfresh : (s3.variableStore s.allocated).Name = parameter.Name ∧
          (s3.variableStore s.allocated).Position = 0 := by
        rw [← hs3, State.declare_variableStore]
        simp [State.BindRegister, State.newVariable]
      have hmem : ∀ w, w ∈ s3.scopes.scopes.flatten →
          w ∈ s.scopes.scopes.flatten ∨ w = s.allocated := by
        intro w hw
        rw [← hs3] at hw
        exact State.declare_flatten ((s.newVariable parameter.Name 0).2.BindRegister
          (s.newVariable parameter.Name 0).1 newRegister) (s.newVariable parameter.Name 0).1 w hw
      have hb3 := hadv.bounded hb
      have hp3 : ∀ v, v ∈ s3.scopes.scopes.flatten → (s3.variableStore v).Position = 0 := by
        intro v hv
        by_cases h1 : v = s.allocated
        · rw [h1]
          exact hfresh.2
        · rcases hmem v hv with h2 | h2
          · rw [(hstore v h1).2]
            exact hp v h2
          · exact absurd h2 h1
      obtain ⟨r1, r2, r3, r4⟩ := ih s3 t h hd.1 hb3 hp3
      refine ⟨r1, r2, r3, fun p hmp => ?_⟩
      rcases List.mem_cons.mp hmp with hmp | hmp
      · subst hmp
        have hrest := declareParameters_advances rest s3
        rw [h] at hrest
        have hrest : s3.Advances t := hrest
        have hfound : ∃ w, w ∈ s3.scopes.scopes.flatten ∧
            (s3.variableStore w).Name = p.Name := by
          rcases hd.2 with h1 | ⟨w, hw, hsame, hname⟩
          · exact ⟨s.allocated, h1, hfresh.1⟩
          · have hsv : s3.variableStore = ((s.newVariable p.Name 0).2.BindRegister
                (s.newVariable p.Name 0).1 newRegister).variableStore := by
              rw [← hs3, State.declare_variableStore]
            refine ⟨w, by rw [hsame]; exact hw, ?_⟩
            rw [hsv, hname, ← hsv]
            exact hfresh.1
        obtain ⟨w, hw1, hw2⟩ := hfound
        have hkept := hrest.named w (hb3 w hw1)
        exact ⟨w, hrest.grows w hw1, hkept.1.trans hw2, hkept.2.trans (hp3 w hw1)⟩
      · exact r4 p hmp


/-- The first part of `Compile` when the declaration of the parameters
fails. -/
theorem compileBody_of_failure (parse : List token.Token → Except String Expression)
    (layout : register.Manager) (functionStore : Nat → Function)
    (instructions : List instruction.Instruction) (function : Nat)
    (environment : Environment) (o : Outcome) (t : State)
    (hd : declareParameters (functionStore function).Parameters
      (compileStart layout functionStore function environment) = (o, t)) (hne : o ≠ .ok) :
    compileBody parse layout functionStore instructions function environment = (o, t) := by
  unfold compileBody
  dsimp only
  rw [hd]
  cases o with
  | ok => exact absurd rfl hne
  | error e => rfl
  | panic m => rfl

/-- The first part of `Compile` when the parameters are declared. -/
theorem compileBody_of_parameters (parse : List token.Token → Except String Expression)
    (layout : register.Manager) (functionStore : Nat → Function)
    (instructions : List instruction.Instruction) (function : Nat)
    (environment : Environment) (t : State)
    (hd : declareParameters (functionStore function).Parameters
      (compileStart layout functionStore function environment) = (.ok, t)) :
    compileBody parse layout functionStore instructions function environment
      = t.CompileInstructions parse instructions := by
  unfold compileBody
  dsimp only
  rw [hd]

/-- When the first part of `Compile` succeeds, the parameters were declared
and the instructions compiled. -/
theorem compileBody_ok (parse : List token.Token → Except String Expression)
    (layout : register.Manager) (functionStore : Nat → Function)
    (instructions : List instruction.Instruction) (function : Nat)
    (environment : Environment) (state : State)
    (hb : compileBody parse layout functionStore instructions function environment
      = (.ok, state)) :
    ∃ t, declareParameters (functionStore function).Parameters
        (compileStart layout functionStore function environment) = (.ok, t) ∧
      t.CompileInstructions parse instructions = (.ok, state) := by
  rcases hd : declareParameters (functionStore function).Parameters
    (compileStart layout functionStore function environment) with ⟨o, t⟩
  cases o with
  | ok =>
    rw [compileBody_of_parameters parse layout functionStore instructions function environment
      t hd] at hb
    exact ⟨t, rfl, hb⟩
  | error e =>
    rw [compileBody_of_failure parse layout functionStore instructions function environment
      _ t hd (fun h => Outcome.noConfusion h)] at hb
    injection hb with hb _
    exact Outcome.noConfusion hb
  | panic m =>
    rw [compileBody_of_failure parse layout functionStore instructions function environment
      _ t hd (fun h => Outcome.noConfusion h)] at hb
    injection hb with hb _
    exact Outcome.noConfusion hb

/-- When the first part of `Compile` succeeds, every times-used counter is
zero, and every parameter has a variable in scope with its name and the
position 0. -/
theorem compileBody_scope (parse : List token.Token → Except String Expression)
    (layout : register.Manager) (functionStore : Nat → Function)
    (instructions : List instruction.Instruction) (function : Nat)
    (environment : Environment) (state : State)
    (hb : compileBody parse layout functionStore instructions function environment
      = (.ok, state)) :
    (∀ v, (state.variableStore v).TimesUsed = 0) ∧
    ∀ p, p ∈ (functionStore function).Parameters → ∃ v, v ∈ state.scopes.scopes.flatten ∧
      (state.variableStore v).Name = p.Name ∧ (state.variableStore v).Position = 0 := by
  obtain ⟨t, hd, hc⟩ := compileBody_ok parse layout functionStore instructions function
    environment state hb
  obtain ⟨_, r2, _, r4⟩ := declareParameters_declares (functionStore function).Parameters
    (compileStart layout functionStore function environment) t hd
    (by simp [compileStart, ScopeStack.Push])
    (fun v hv => by simp [compileStart, ScopeStack.Push] at hv)
    (fun v hv => by simp [compileStart, ScopeStack.Push] at hv)
  have h1 := declareParameters_advances (functionStore function).Parameters
    (compileStart layout functionStore function environment)
  rw [hd] at h1
  have h2 := State.CompileInstructionsFrom_keeps parse instructions 0 t
  have hc : State.CompileInstructionsFrom parse 0 instructions t = (.ok, state) := hc
  rw [hc] at h2
  have h2 : t.Keeps state := h2
  refine ⟨h2.zero (h1.zero (fun _ => rfl)), fun p hp => ?_⟩
  obtain ⟨v, hv, hname, hpos⟩ := r4 p hp
  have hkept := h2.named v (r2 v hv)
  exact ⟨v, h2.grows v hv, hkept.1.trans hname, hkept.2.trans hpos⟩

/-- C19: `Compile` returns the error `Variable '...' has never been used`, for a
variable in scope whose times-used counter is zero, whenever the parameters and
all instructions compiled and some variable in scope has a times-used counter
of zero; it returns the outcome of the first part whenever that is a failure;
it returns no assembler unless it succeeds; and when it succeeds the stream of
the assembler returned starts with the label named after the function and
ends with `Return`.  The parts of the first part: a failure of
`declareParameters` is returned with no assembler, and `declareParameters`
fails with `Exceeded maximum number of parameters` when there is a parameter
and no register is free; a failure of `CompileInstructions` is returned with
no assembler; once the first part succeeded every parameter has a variable in
scope with its name, the position 0 and a times-used counter of zero.  The
statements of `State.go` write no times-used counter, so whenever the first
part succeeds with a variable in scope, a parameter or a local variable, the
unused-variable error is returned, and `Compile` succeeds only for a function
without parameters whose body declares no variable. -/
theorem Compile_outcome (parse : List token.Token → Except String Expression)
    (layout : register.Manager) (functionStore : Nat → Function)
    (instructions : List instruction.Instruction) (function : Nat)
    (environment : Environment) :
    (∀ state, compileBody parse layout functionStore instructions function environment
        = (.ok, state) →
      ∀ v ∈ state.scopes.scopes.flatten, (state.variableStore v).TimesUsed = 0 →
        ∃ w ∈ state.scopes.scopes.flatten, (state.variableStore w).TimesUsed = 0 ∧
          Compile parse layout functionStore instructions function environment
            = (none, .error (.At (state.variableStore w).Position
              ("Variable '" ++ (state.variableStore w).Name ++ "' has never been used")))) ∧
    (∀ o state, compileBody parse layout functionStore instructions function environment
        = (o, state) → o ≠ .ok →
      Compile parse layout functionStore instructions function environment = (none, o)) ∧
    ((Compile parse layout functionStore instructions function environment).2 ≠ .ok →
      (Compile parse layout functionStore instructions function environment).1 = none) ∧
    ((Compile parse layout functionStore instructions function environment).2 = .ok →
      ∃ code strings,
        (Compile parse layout functionStore instructions function environment).1
          = some { Instructions := .Label (functionStore function).Name :: (code ++ [.Return])
                   Strings := strings }) ∧
    (∀ o state, declareParameters (functionStore function).Parameters
        (compileStart layout functionStore function environment) = (o, state) → o ≠ .ok →
      Compile parse layout functionStore instructions function environment = (none, o)) ∧
    ((functionStore function).Parameters ≠ [] →
      (register.NewManager layout).FindFreeRegister = none →
      Compile parse layout functionStore instructions function environment
        = (none, .error (.New "Exceeded maximum number of parameters"))) ∧
    (∀ t o state, declareParameters (functionStore function).Parameters
        (compileStart layout functionStore function environment) = (.ok, t) →
      t.CompileInstructions parse instructions = (o, state) → o ≠ .ok →
      Compile parse layout functionStore instructions function environment = (none, o)) ∧
    (∀ state, compileBody parse layout functionStore instructions function environment
        = (.ok, state) →
      ∀ p ∈ (functionStore function).Parameters, ∃ v ∈ state.scopes.scopes.flatten,
        (state.variableStore v).Name = p.Name ∧ (state.variableStore v).Position = 0 ∧
          (state.variableStore v).TimesUsed = 0) ∧
    (∀ state, compileBody parse layout functionStore instructions function environment
        = (.ok, state) → state.scopes.scopes.flatten ≠ [] →
      ∃ w ∈ state.scopes.scopes.flatten,
        Compile parse layout functionStore instructions function environment
          = (none, .error (.At (state.variableStore w).Position
            ("Variable '" ++ (state.variableStore w).Name ++ "' has never been used")))) ∧
    ((Compile parse layout functionStore instructions function environment).2 = .ok →
      (functionStore function).Parameters = [] ∧
        ∃ state, compileBody parse layout functionStore instructions function environment
            = (.ok, state) ∧ state.scopes.scopes.flatten = [] ∧
          (Compile parse layout functionStore instructions function environment).1
            = some (state.assembler.emit .Return)) := by
  have hfail : ∀ o state,
      compileBody parse layout functionStore instructions function environment = (o, state) →
      o ≠ .ok →
      Compile parse layout functionStore instructions function environment = (none, o) := by
    intro o state hs hne
    unfold Compile
    rw [hs]
    cases o with
    | ok => exact absurd rfl hne
    | error e => rfl
    | panic m => rfl
  have hunused : ∀ state,
      compileBody parse layout functionStore instructions function environment = (.ok, state) →
      ∀ v ∈ state.scopes.scopes.flatten, (state.variableStore v).TimesUsed = 0 →
        ∃ w ∈ state.scopes.scopes.flatten, (state.variableStore w).TimesUsed = 0 ∧
          Compile parse layout functionStore instructions function environment
            = (none, .error (.At (state.variableStore w).Position
              ("Variable '" ++ (state.variableStore w).Name ++ "' has never been used"))) := by
    intro state hs v hv hused
    unfold Compile
    rw [hs]
    dsimp only
    have hmem : v ∈ state.scopes.Unused state.variableStore := by
      unfold ScopeStack.Unused
      exact List.mem_filter.mpr ⟨hv, by simp [hused]⟩
    cases hu : state.scopes.Unused state.variableStore with
    | nil =>
      rw [hu] at hmem
      exact absurd hmem (List.not_mem_nil v)
    | cons w rest =>
      have hw : w ∈ state.scopes.Unused state.variableStore := by
        rw [hu]
        exact List.mem_cons_self _ _
      unfold ScopeStack.Unused at hw
      obtain ⟨hw1, hw2⟩ := List.mem_filter.mp hw
      exact ⟨w, hw1, by simpa using hw2, rfl⟩
  have hscope : ∀ state,
      compileBody parse layout functionStore instructions function environment = (.ok, state) →
      state.scopes.scopes.flatten ≠ [] →
      ∃ w ∈ state.scopes.scopes.flatten,
        Compile parse layout functionStore instructions function environment
          = (none, .error (.At (state.variableStore w).Position
            ("Variable '" ++ (state.variableStore w).Name ++ "' has never been used"))) := by
    intro state hs hne
    obtain ⟨v, hv⟩ := List.exists_mem_of_ne_nil _ hne
    obtain ⟨w, hw, _, hc⟩ := hunused state hs v hv
      ((compileBody_scope parse layout functionStore instructions function environment state
        hs).1 v)
    exact ⟨w, hw, hc⟩
  obtain ⟨code, hcode⟩ := compileBody_code parse layout functionStore instructions function
    environment
  refine ⟨hunused, hfail, ?_, ?_, fun o state hd hne => ?_, fun hp hfree => ?_,
    fun t o state hd hc hne => ?_, fun state hs p hp => ?_, hscope, fun hok => ?_⟩
  · unfold Compile
    rcases compileBody parse layout functionStore instructions function environment
      with ⟨o, t⟩
    cases o with
    | ok =>
      dsimp only
      cases t.scopes.Unused t.variableStore with
      | nil => exact fun h => absurd rfl h
      | cons w rest => exact fun _ => rfl
    | error e => exact fun _ => rfl
    | panic m => exact fun _ => rfl
  · unfold Compile
    rcases hb : compileBody parse layout functionStore instructions function environment
      with ⟨o, t⟩
    rw [hb] at hcode
    have hcode : t.assembler.Instructions = .Label (functionStore function).Name :: code :=
      hcode
    cases o with
    | ok =>
      dsimp only
      cases t.scopes.Unused t.variableStore with
      | nil =>
        intro _
        refine ⟨code, t.assembler.Strings, ?_⟩
        show some (t.assembler.emit .Return) = _
        unfold asm.Assembler.emit
        rw [hcode]
        rfl
      | cons w rest => exact fun h => Outcome.noConfusion h
    | error e => exact fun h => Outcome.noConfusion h
    | panic m => exact fun h => Outcome.noConfusion h
  · exact hfail o state (compileBody_of_failure parse layout functionStore instructions
      function environment o state hd hne) hne
  · cases hparams : (functionStore function).Parameters with
    | nil => exact absurd hparams hp
    | cons parameter rest =>
      have hd : declareParameters (functionStore function).Parameters
          (compileStart layout functionStore function environment)
          = (.error (.New "Exceeded maximum number of parameters"),
            compileStart layout functionStore function environment) := by
        rw [hparams]
        unfold declareParameters
        have hreg : (compileStart layout functionStore function environment).registers
            = register.NewManager layout := rfl
        rw [hreg, hfree]
      exact hfail _ _ (compileBody_of_failure parse layout functionStore instructions
        function environment _ _ hd (fun h => Outcome.noConfusion h))
        (fun h => Outcome.noConfusion h)
  · exact hfail o state (by
      rw [compileBody_of_parameters parse layout functionStore instructions function
        environment t hd]
      exact hc) hne
  · obtain ⟨hz, hdecl⟩ := compileBody_scope parse layout functionStore instructions function
      environment state hs
    obtain ⟨v, hv, hname, hpos⟩ := hdecl p hp
    exact ⟨v, hv, hname, hpos, hz v⟩
  · rcases hb : compileBody parse layout functionStore instructions function environment
      with ⟨o, t⟩
    cases o with
    | ok =>
      have hnil : t.scopes.scopes.flatten = [] := by
        by_contra hne
        obtain ⟨w, _, hc⟩ := hscope t hb hne
        rw [hc] at hok
        exact Outcome.noConfusion hok
      refine ⟨?_, t, rfl, hnil, ?_⟩
      · cases hparams : (functionStore function).Parameters with
        | nil => rfl
        | cons parameter rest =>
          obtain ⟨v, hv, _⟩ := (compileBody_scope parse layout functionStore instructions
            function environment t hb).2 parameter (by rw [hparams]; exact List.mem_cons_self _ _)
          rw [hnil] at hv
          exact absurd hv (List.not_mem_nil v)
      · unfold Compile
        rw [hb]
        dsimp only
        unfold ScopeStack.Unused
        rw [hnil]
        rfl
    | error e =>
      rw [hfail _ t hb (fun h => Outcome.noConfusion h)] at hok
      exact Outcome.noConfusion hok
    | panic m =>
      rw [hfail _ t hb (fun h => Outcome.noConfusion h)] at hok
      exact Outcome.noConfusion hok

/-- C19 at `main` with the body `print("hi")`, which compiles to the label, the
print and the return; with the body `y = 2 + 3`, whose `y` is never used; with
the body `x = 5` and `y = x`, whose `x` is reported; at `f(a)` with an empty
body, whose parameter `a` is reported; and at `f(a)` without registers. -/
theorem Compile_outcome_witness :
    Compile sample.parse (sample.state [0, 1, 2, 3] [0] none).registers sample.functionStore
        [sample.printHi] 3 sample.environment
      = (some { Instructions := [.Label "main", .Println "hi", .Return], Strings := [] }, .ok) ∧
    Compile sample.parse (sample.state [0, 1, 2, 3] [0] none).registers sample.functionStore
        [{ Kind := .Assignment, Tokens := sample.assignSum, Position := 0 }] 3
        sample.environment
      = (none, .error (.At 0 "Variable 'y' has never been used")) ∧
    Compile sample.parse (sample.state [0, 1, 2, 3] [0] none).registers sample.functionStore
        sample.assignThenCopy 3 sample.environment
      = (none, .error (.At 0 "Variable 'x' has never been used")) ∧
    Compile sample.parse (sample.state [0, 1, 2, 3] [0] none).registers sample.functionStore
        [] 4 sample.environment
      = (none, .error (.At 0 "Variable 'a' has never been used")) ∧
    Compile sample.parse sample.noRegisters sample.functionStore [] 4 sample.environment
      = (none, .error (.New "Exceeded maximum number of parameters")) ∧
    ((sample.functionStore 4).Parameters ≠ [] ∧
      (register.NewManager sample.noRegisters).FindFreeRegister = none) ∧
    (∀ p ∈ (sample.functionStore 4).Parameters,
      ∃ v ∈ (compileBody sample.parse (sample.state [0, 1, 2, 3] [0] none).registers
          sample.functionStore [] 4 sample.environment).2.scopes.scopes.flatten,
        ((compileBody sample.parse (sample.state [0, 1, 2, 3] [0] none).registers
            sample.functionStore [] 4 sample.environment).2.variableStore v).Name = p.Name ∧
          ((compileBody sample.parse (sample.state [0, 1, 2, 3] [0] none).registers
            sample.functionStore [] 4 sample.environment).2.variableStore v).Position = 0 ∧
          ((compileBody sample.parse (sample.state [0, 1, 2, 3] [0] none).registers
            sample.functionStore [] 4 sample.environment).2.variableStore v).TimesUsed = 0) ∧
    ((sample.functionStore 3).Parameters = [] ∧
      ∃ state, compileBody sample.parse (sample.state [0, 1, 2, 3] [0] none).registers
          sample.functionStore [sample.printHi] 3 sample.environment = (.ok, state) ∧
        state.scopes.scopes.flatten = [] ∧
        (Compile sample.parse (sample.state [0, 1, 2, 3] [0] none).registers
            sample.functionStore [sample.printHi] 3 sample.environment).1
          = some (state.assembler.emit .Return)) :=
  ⟨by decide, by decide, by decide, by decide,
    (Compile_outcome sample.parse sample.noRegisters sample.functionStore [] 4
      sample.environment).2.2.2.2.2.1 (by decide) (by decide),
    ⟨by decide, by decide⟩,
    (Compile_outcome sample.parse (sample.state [0, 1, 2, 3] [0] none).registers
      sample.functionStore [] 4 sample.environment).2.2.2.2.2.2.2.1 _
      (Prod.ext (by decide) rfl),
    (Compile_outcome sample.parse (sample.state [0, 1, 2, 3] [0] none).registers
      sample.functionStore [sample.printHi] 3 sample.environment).2.2.2.2.2.2.2.2.2
      (by decide)⟩

/-! ## C20: unnecessary newlines -/

/-- The loop of `Scan` over newline and comment tokens: entered with the count
of the newline tokens that directly precede the index, it fails at the first
token that is the third of three newline tokens in a row, and returns `nil` if
there is none. -/
theorem scanLoop_newlines (scanners : Scanners) (path : String) (tokens : List token.Token)
    (honly : ∀ t ∈ tokens, t.Kind = .NewLine ∨ t.Kind = .Comment) :
    ∀ (rounds index newlines : Nat), tokens.length < rounds + index →
      index ≤ tokens.length → newlines ≤ 2 → newlines ≤ index →
      (∀ j, index - newlines ≤ j → j < index → spec.isNewLine tokens j) →
      (newlines < index → ¬ spec.isNewLine tokens (index - newlines - 1)) →
      (∀ j, j < index → ¬ spec.thirdNewLine tokens j) →
      (∀ k, spec.thirdNewLine tokens k → (∀ j, j < k → ¬ spec.thirdNewLine tokens j) →
        scanLoop scanners path tokens rounds index newlines []
          = some (.error (.UnnecessaryNewlines path (tokens.take (k + 1))), [])) ∧
      ((∀ k, ¬ spec.thirdNewLine tokens k) →
        scanLoop scanners path tokens rounds index newlines [] = some (.ok, [])) := by
  intro rounds
  induction rounds with
  | zero =>
    intro index newlines h1 h2
    omega
  | succ rounds ih =>
    intro index newlines hrounds hindex hle2 hlei hrun hbefore hnone
    cases hget : tokens[index]? with
    | none =>
      have hlen : tokens.length ≤ index := List.getElem?_eq_none_iff.mp hget
      refine ⟨fun k hk hmin => ?_, fun _ => by simp [scanLoop, hget]⟩
      exfalso
      have hk0 := hk
      obtain ⟨_, -, -, t, ht, -⟩ := hk0
      have hk2 : k < tokens.length := (List.getElem?_eq_some_iff.mp ht).1
      by_cases hki : k < index
      · exact hnone k hki hk
      · omega
    | some t =>
      have hlt : index < tokens.length := (List.getElem?_eq_some_iff.mp hget).1
      have hmem : t ∈ tokens := List.mem_iff_getElem?.mpr ⟨index, hget⟩
      rcases honly t hmem with hkind | hkind
      · -- a newline token
        have hnl : spec.isNewLine tokens index := ⟨t, hget, hkind⟩
        by_cases h2 : newlines = 2
        · subst h2
          have hthird : spec.thirdNewLine tokens index :=
            ⟨hlei, hrun (index - 2) (le_refl _) (by omega), hrun (index - 1) (by omega) (by omega),
              hnl⟩
          refine ⟨fun k hk hmin => ?_, fun h => absurd hthird (h index)⟩
          have hk1 : ¬ k < index := fun hki => hnone k hki hk
          have hk2 : ¬ index < k := fun hik => hmin index hik hthird
          have hk3 : k = index := by omega
          subst hk3
          simp [scanLoop, hget, hkind]
        · have hstep : scanLoop scanners path tokens (rounds + 1) index newlines []
              = scanLoop scanners path tokens rounds (index + 1) (newlines + 1) [] := by
            simp [scanLoop, hget, hkind]
            omega
          rw [hstep]
          apply ih (index + 1) (newlines + 1) (by omega) (by omega) (by omega) (by omega)
          · intro j hj1 hj2
            by_cases hji : j = index
            · rw [hji]
              exact hnl
            · exact hrun j (by omega) (by omega)
          · intro hlt2
            have h3 : index + 1 - (newlines + 1) - 1 = index - newlines - 1 := by omega
            rw [h3]
            exact hbefore (by omega)
          · intro j hj hthird
            by_cases hji : j = index
            · subst hji
              obtain ⟨h2le, ha, hb, -⟩ := hthird
              by_cases h0 : newlines = 0
              · subst h0
                exact hbefore (by omega) (by simpa using hb)
              · have h1 : newlines = 1 := by omega
                subst h1
                have h3 : j - 1 - 1 = j - 2 := by omega
                exact hbefore (by omega) (by rw [h3]; exact ha)
            · exact hnone j (by omega) hthird
      · -- a comment token
        have hnot : ¬ spec.isNewLine tokens index := by
          rintro ⟨t2, ht2, hk2⟩
          rw [hget] at ht2
          injection ht2 with ht2
          subst ht2
          rw [hkind] at hk2
          exact token.Kind.noConfusion hk2
        have hstep : scanLoop scanners path tokens (rounds + 1) index newlines []
            = scanLoop scanners path tokens rounds (index + 1) 0 [] := by
          simp [scanLoop, hget, hkind]
        rw [hstep]
        apply ih (index + 1) 0 (by omega) (by omega) (by omega) (by omega)
        · intro j hj1 hj2
          omega
        · intro _
          simpa using hnot
        · intro j hj hthird
          by_cases hji : j = index
          · subst hji
            exact hnot hthird.2.2.2
          · exact hnone j (by omega) hthird

/-- C20 (amended): on a stream of newline and comment tokens, given more rounds
than tokens, `Scan` fails with `UnnecessaryNewlines` if and only if the stream
has three newline tokens in a row; the error carries the tokens up to and
including the first token that is the third of three newline tokens in a row;
otherwise `Scan` returns `nil`; nothing is sent. -/
theorem Scan_unnecessary_newlines (scanners : Scanners) (path : String)
    (tokens : List token.Token) (rounds : Nat)
    (honly : ∀ t ∈ tokens, t.Kind = .NewLine ∨ t.Kind = .Comment)
    (hrounds : tokens.length < rounds) :
    (∀ k, spec.thirdNewLine tokens k → (∀ j, j < k → ¬ spec.thirdNewLine tokens j) →
      Scan scanners path tokens rounds
        = some (.error (.UnnecessaryNewlines path (tokens.take (k + 1))), [])) ∧
    ((∀ k, ¬ spec.thirdNewLine tokens k) → Scan scanners path tokens rounds = some (.ok, [])) ∧
    ((∃ p given, Scan scanners path tokens rounds
        = some (.error (.UnnecessaryNewlines p given), [])) ↔
      ∃ k, spec.thirdNewLine tokens k) := by
  have h := scanLoop_newlines scanners path tokens honly rounds 0 0 (by omega) (Nat.zero_le _)
    (by omega) (le_refl _) (fun j h1 h2 => absurd h2 (Nat.not_lt_zero j))
    (fun h0 => absurd h0 (Nat.lt_irrefl 0)) (fun j h1 => absurd h1 (Nat.not_lt_zero j))
  refine ⟨h.1, h.2, ⟨fun ⟨p, given, hs⟩ => ?_, fun hex => ?_⟩⟩
  · by_contra hno
    have hok := h.2 (fun k hk => hno ⟨k, hk⟩)
    unfold Scan at hs
    rw [hok] at hs
    simp at hs
  · classical
    have hmin := h.1 (Nat.find hex) (Nat.find_spec hex) (fun j hj => Nat.find_min hex hj)
    exact ⟨path, _, hmin⟩

/-- C20 (amended) at a comment followed by three newlines: the third newline,
at index 3, ends the scan. -/
theorem Scan_unnecessary_newlines_witness :
    ((∀ t ∈ sample.commentThenNewlines, t.Kind = .NewLine ∨ t.Kind = .Comment) ∧
      sample.commentThenNewlines.length < 5) ∧
    ((∃ p given, Scan sample.scanners "a.q" sample.commentThenNewlines 5
        = some (.error (.UnnecessaryNewlines p given), [])) ↔
      ∃ k, spec.thirdNewLine sample.commentThenNewlines k) :=
  ⟨⟨by decide, by decide⟩,
    (Scan_unnecessary_newlines sample.scanners "a.q" sample.commentThenNewlines 5 (by decide)
      (by decide)).2.2⟩

/-- C20 as stated fails: a comment followed by three newline tokens has two
blank lines (the newline tokens at the indices 2 and 3, which follow a newline
token), and `Scan` fails on it with `UnnecessaryNewlines`, carrying all four
tokens. -/
theorem Scan_two_blank_lines :
    spec.blankLines sample.commentThenNewlines = [2, 3] ∧
    Scan sample.scanners "a.q" sample.commentThenNewlines 5
      = some (.error (.UnnecessaryNewlines "a.q" sample.commentThenNewlines), []) := by
  decide

/-! ## C21: the spans of the statements -/

namespace instruction

/-- The length of a slice within the tokens. -/
theorem slice_length (tokens : List token.Token) (low high : Nat) (h : high ≤ tokens.length) :
    (slice tokens low high).length = high - low := by
  simp [slice, Nat.min_eq_left h]

/-- An element of a slice is a token at an index of the slice. -/
theorem mem_slice (tokens : List token.Token) (low high : Nat) (t : token.Token)
    (h : t ∈ slice tokens low high) :
    ∃ j, low ≤ j ∧ j < high ∧ tokens[j]? = some t := by
  obtain ⟨n, hn⟩ := List.mem_iff_getElem?.mp h
  unfold slice at hn
  rw [List.getElem?_drop, List.getElem?_take] at hn
  split at hn
  · exact ⟨low + n, Nat.le_add_right _ _, by assumption, hn⟩
  · exact Option.noConfusion hn

/-- The spans below a limit are below every larger limit. -/
theorem spans_mono {tokens : List token.Token} {limit limit2 : Nat}
    {instructions : List Instruction} (h : Spans tokens limit instructions)
    (hle : limit ≤ limit2) : Spans tokens limit2 instructions :=
  ⟨h.slices, fun instr hi => ⟨le_trans (h.bounded instr hi).1 hle,
    lt_of_lt_of_le (h.bounded instr hi).2 hle⟩, h.ordered, h.nonempty, h.blocks⟩

/-- The spans with one more statement, made of the tokens from the old limit
up to `high`. -/
theorem spans_append {tokens : List token.Token} {limit limit2 high : Nat}
    {instructions : List Instruction} (h : Spans tokens limit instructions) (kind : Kind)
    (hhigh : high ≤ tokens.length) (hle : limit ≤ high) (h2 : high ≤ limit2)
    (hlt : limit < limit2)
    (hne : limit < high ∨ kind = .IfEnd ∨ kind = .ForEnd ∨ kind = .LoopEnd ∨ kind = .StructEnd)
    (hblocks : ∀ j t, limit ≤ j → j < high → tokens[j]? = some t →
      t.Kind ≠ .BlockStart ∧ t.Kind ≠ .BlockEnd) :
    Spans tokens limit2
      (instructions ++ [{ Kind := kind, Tokens := slice tokens limit high, Position := limit }]) := by
  have hlen := slice_length tokens limit high hhigh
  refine ⟨fun instr hi => ?_, fun instr hi => ?_, ?_, fun instr hi he => ?_, fun instr hi t ht => ?_⟩
  · rcases List.mem_append.mp hi with hi | hi
    · exact h.slices instr hi
    · rw [List.mem_singleton.mp hi]
      show slice tokens limit high = slice tokens limit (limit + (slice tokens limit high).length)
      rw [hlen, Nat.add_sub_cancel' hle]
  · rcases List.mem_append.mp hi with hi | hi
    · exact ⟨le_trans (h.bounded instr hi).1 (le_trans hle h2),
        lt_of_lt_of_le (h.bounded instr hi).2 (le_of_lt hlt)⟩
    · rw [List.mem_singleton.mp hi]
      show limit + (slice tokens limit high).length ≤ limit2 ∧ limit < limit2
      rw [hlen, Nat.add_sub_cancel' hle]
      exact ⟨h2, hlt⟩
  · rw [List.pairwise_append]
    refine ⟨h.ordered, List.pairwise_singleton _ _, fun a ha b hb => ?_⟩
    rw [List.mem_singleton.mp hb]
    exact ⟨(h.bounded a ha).1, (h.bounded a ha).2⟩
  · rcases List.mem_append.mp hi with hi | hi
    · exact h.nonempty instr hi he
    · rw [List.mem_singleton.mp hi] at he ⊢
      have he : slice tokens limit high = [] := he
      rw [he] at hlen
      rcases hne with hne | hne
      · simp only [List.length_nil] at hlen
        omega
      · exact hne
  · rcases List.mem_append.mp hi with hi | hi
    · exact h.blocks instr hi t ht
    · rw [List.mem_singleton.mp hi] at ht
      obtain ⟨j, hj1, hj2, hj3⟩ := mem_slice tokens limit high t ht
      exact hblocks j t hj1 hj2 hj3

end instruction

namespace instruction

/-- A round that keeps the start and the instructions, at a token that is not
a brace. -/
theorem folded_keep {tokens : List token.Token} {i : Nat} {f : Folding} (g : Folding)
    (t : token.Token) (h : Folded tokens i f) (ht : tokens[i]? = some t)
    (hb : t.Kind ≠ .BlockStart ∧ t.Kind ≠ .BlockEnd) (hs : g.start = f.start)
    (hi : g.instructions = f.instructions) : Folded tokens (i + 1) g := by
  refine ⟨by rw [hs]; exact Nat.le_succ_of_le h.start, by rw [hs, hi]; exact h.spans,
    fun j t2 hj1 hj2 hj3 => ?_, fun _ => by rw [hs]; exact Nat.lt_succ_of_le h.start⟩
  by_cases hji : j = i
  · subst hji
    rw [ht] at hj3
    injection hj3 with hj3
    rw [← hj3]
    exact hb
  · exact h.pending j t2 (by rw [← hs]; exact hj1) (by omega) hj3

/-- A round that moves the start past the token and leaves no statement
open. -/
theorem folded_skip {tokens : List token.Token} {i : Nat} {f : Folding} (g : Folding)
    (h : Folded tokens i f) (hs : g.start = i + 1) (hi : g.instructions = f.instructions)
    (hk : g.instruction.Kind = .Invalid) : Folded tokens (i + 1) g := by
  refine ⟨by rw [hs], by rw [hs, hi]; exact spans_mono h.spans (Nat.le_succ_of_le h.start),
    fun j t2 hj1 hj2 _ => ?_, fun hne => absurd hk hne⟩
  rw [hs] at hj1
  omega

/-- A round that closes a statement. -/
theorem folded_close {tokens : List token.Token} {i : Nat} {f : Folding} (g : Folding)
    (high : Nat) (h : Folded tokens i f) (hlen : i < tokens.length) (hs : g.start = f.start)
    (hi : g.instructions = f.instructions) (hh : high = i ∨ high = i + 1)
    (hne : f.start < high ∨ g.instruction.Kind = .IfEnd ∨ g.instruction.Kind = .ForEnd ∨
      g.instruction.Kind = .LoopEnd ∨ g.instruction.Kind = .StructEnd)
    (hb : high = i + 1 → ∀ t, tokens[i]? = some t → t.Kind ≠ .BlockStart ∧ t.Kind ≠ .BlockEnd) :
    Folded tokens (i + 1) (g.close tokens high i) := by
  have hstart := h.start
  refine ⟨le_refl _, ?_, fun j t2 hj1 hj2 _ => ?_, fun hne2 => absurd rfl hne2⟩
  · show Spans tokens (i + 1) (g.instructions ++
      [{ Kind := g.instruction.Kind, Tokens := slice tokens g.start high, Position := g.start }])
    rw [hs, hi]
    apply spans_append h.spans g.instruction.Kind
    · rcases hh with hh | hh <;> omega
    · rcases hh with hh | hh <;> omega
    · rcases hh with hh | hh <;> omega
    · omega
    · exact hne
    · intro j t2 hj1 hj2 hj3
      by_cases hji : j < i
      · exact h.pending j t2 hj1 hji hj3
      · have hh2 : high = i + 1 := by
          rcases hh with hh | hh <;> omega
        have hji2 : j = i := by omega
        subst hji2
        exact hb hh2 t2 hj3
  · have : (g.close tokens high i).start = i + 1 := rfl
    rw [this] at hj1
    omega

end instruction

namespace instruction

/-- One round of the loop keeps what holds of the local variables. -/
theorem round_folded (tokens : List token.Token) (i : Nat) (t : token.Token) (f g : Folding)
    (h : Folded tokens i f) (ht : tokens[i]? = some t) (hr : round tokens i t f = .next g) :
    Folded tokens (i + 1) g := by
  have hlen : i < tokens.length := (List.getElem?_eq_some_iff.mp ht).1
  have hstart := h.start
  unfold round at hr
  split at hr
  · -- NewLine
    rename_i hk
    have hb : t.Kind ≠ .BlockStart ∧ t.Kind ≠ .BlockEnd := by rw [hk]; simp
    split at hr
    · injection hr with hr
      subst hr
      rename_i hsi
      refine folded_skip _ h rfl rfl ?_
      by_contra hne
      have := h.kind hne
      omega
    · rename_i hsi
      split at hr
      · injection hr with hr
        subst hr
        exact folded_skip _ h rfl rfl rfl
      all_goals first
        | (injection hr with hr
           subst hr
           exact folded_close f i h hlen rfl rfl (Or.inl rfl) (Or.inl (by omega))
             (fun h1 => absurd h1 (by omega)))
        | (injection hr with hr
           subst hr
           exact folded_keep _ t h ht hb rfl rfl)
  · -- Operator
    rename_i hk
    have hb : t.Kind ≠ .BlockStart ∧ t.Kind ≠ .BlockEnd := by rw [hk]; simp
    repeat' split at hr
    all_goals (injection hr with hr; subst hr; exact folded_keep _ t h ht hb rfl rfl)
  · -- GroupStart
    rename_i hk
    have hb : t.Kind ≠ .BlockStart ∧ t.Kind ≠ .BlockEnd := by rw [hk]; simp
    dsimp only at hr
    repeat' split at hr
    all_goals first
      | exact Round.noConfusion hr
      | (injection hr with hr; subst hr; exact folded_keep _ t h ht hb rfl rfl)
  · -- GroupEnd
    rename_i hk
    have hb : t.Kind ≠ .BlockStart ∧ t.Kind ≠ .BlockEnd := by rw [hk]; simp
    dsimp only at hr
    repeat' split at hr
    all_goals first
      | (injection hr with hr
         subst hr
         exact folded_close { f with groups := f.groups - 1 } (i + 1) h hlen rfl rfl
           (Or.inr rfl) (Or.inl (by omega)) (fun _ t2 ht2 => by
             rw [ht] at ht2
             injection ht2 with ht2
             rw [← ht2]
             exact hb))
      | (injection hr with hr; subst hr; exact folded_keep _ t h ht hb rfl rfl)
  · -- Keyword
    rename_i hk
    have hb : t.Kind ≠ .BlockStart ∧ t.Kind ≠ .BlockEnd := by rw [hk]; simp
    split at hr
    · injection hr with hr
      subst hr
      exact folded_keep _ t h ht hb rfl rfl
    · dsimp only at hr
      split at hr
      · injection hr with hr
        subst hr
        exact folded_keep _ t h ht hb rfl rfl
      · exact Round.noConfusion hr
  · -- BlockStart
    split at hr
    all_goals first
      | exact Round.noConfusion hr
      | (rename_i hkind
         injection hr with hr
         subst hr
         exact folded_close { f with blocks := f.blocks ++ [f.instruction.Kind] } i h hlen rfl rfl
           (Or.inl rfl) (Or.inl (h.kind (by rw [hkind]; simp)))
           (fun h1 => absurd h1 (by omega)))
  · -- BlockEnd
    split at hr
    · exact Round.noConfusion hr
    · dsimp only at hr
      split at hr
      · rename_i kind hkind
        injection hr with hr
        subst hr
        have hend : kind = .IfEnd ∨ kind = .ForEnd ∨ kind = .LoopEnd ∨ kind = .StructEnd := by
          split at hkind
          all_goals first
            | exact Option.noConfusion hkind
            | (injection hkind with hkind; subst hkind; simp)
        have hc := folded_close { f with instruction := { f.instruction with Kind := kind } } i h
          hlen rfl rfl (Or.inl rfl) (Or.inr hend) (fun h1 => absurd h1 (by omega))
        exact ⟨hc.start, hc.spans, hc.pending, hc.kind⟩
      · exact Round.noConfusion hr
  · -- Comment
    rename_i hk
    have hb : t.Kind ≠ .BlockStart ∧ t.Kind ≠ .BlockEnd := by rw [hk]; simp
    injection hr with hr
    subst hr
    exact folded_keep _ t h ht hb rfl rfl
  · -- the other kinds
    rename_i h1 h2 h3 h4 h5 h6 h7 h8
    injection hr with hr
    subst hr
    exact folded_keep _ t h ht ⟨h6, h7⟩ rfl rfl

end instruction

namespace instruction

/-- The loop keeps what holds of the local variables up to the end of the
tokens. -/
theorem fold_folded (tokens : List token.Token) :
    ∀ (rest : List token.Token) (i : Nat) (f g : Folding), tokens.drop i = rest →
      i ≤ tokens.length → Folded tokens i f → fold tokens rest i f = .next g →
      Folded tokens tokens.length g := by
  intro rest
  induction rest with
  | nil =>
    intro i f g hd hi h hr
    have hlen : tokens.length ≤ i := List.drop_eq_nil_iff.mp hd
    have hi2 : i = tokens.length := by omega
    unfold fold at hr
    injection hr with hr
    subst hr hi2
    exact h
  | cons t rest ih =>
    intro i f g hd hi h hr
    have ht : tokens[i]? = some t := by
      have := congrArg List.head? hd
      simpa [List.head?_drop] using this
    have hd2 : tokens.drop (i + 1) = rest := by
      have := congrArg List.tail hd
      simpa [List.tail_drop] using this
    have hlt : i < tokens.length := (List.getElem?_eq_some_iff.mp ht).1
    unfold fold at hr
    cases hround : round tokens i t f with
    | next f2 =>
      rw [hround] at hr
      exact ih (i + 1) f2 g hd2 hlt (round_folded tokens i t f f2 h ht hround) hr
    | error err =>
      rw [hround] at hr
      exact Round.noConfusion hr
    | panic message =>
      rw [hround] at hr
      exact Round.noConfusion hr

/-- C21: when `FromTokens` returns instructions, the tokens of each one are the
slice of the input that starts at its position and has its length, within the
input; the positions increase strictly and every span ends before the next
one starts; an instruction with an empty span is the end of a block (`IfEnd`,
`ForEnd`, `LoopEnd`, `StructEnd`), never an empty line; and no span holds a
block-start or block-end token. -/
theorem FromTokens_spans (tokens : List token.Token) (instructions : List Instruction)
    (h : FromTokens tokens = .ok instructions) :
    (∀ instr ∈ instructions,
      instr.Tokens = slice tokens instr.Position (instr.Position + instr.Tokens.length) ∧
      instr.Position + instr.Tokens.length ≤ tokens.length) ∧
    instructions.Pairwise (fun a b =>
      a.Position + a.Tokens.length ≤ b.Position ∧ a.Position < b.Position) ∧
    (∀ instr ∈ instructions, instr.Tokens = [] →
      instr.Kind = .IfEnd ∨ instr.Kind = .ForEnd ∨ instr.Kind = .LoopEnd ∨
        instr.Kind = .StructEnd) ∧
    ∀ instr ∈ instructions, ∀ t ∈ instr.Tokens, t.Kind ≠ .BlockStart ∧ t.Kind ≠ .BlockEnd := by
  have hstart : Folded tokens 0
      { instructions := [], start := 0,
        instruction := { Kind := .Invalid, Tokens := [], Position := 0 }, groups := 0,
        blocks := [] } :=
    ⟨le_refl _,
      ⟨fun _ hi => absurd hi (List.not_mem_nil _), fun _ hi => absurd hi (List.not_mem_nil _),
        List.Pairwise.nil, fun _ hi => absurd hi (List.not_mem_nil _),
        fun _ hi => absurd hi (List.not_mem_nil _)⟩,
      fun j _ _ hj => absurd hj (Nat.not_lt_zero j), fun hne => absurd rfl hne⟩
  have hall : Spans tokens tokens.length instructions := by
    unfold FromTokens at h
    dsimp only at h
    cases hf : fold tokens tokens 0
        { instructions := [], start := 0,
          instruction := { Kind := .Invalid, Tokens := [], Position := 0 }, groups := 0,
          blocks := [] } with
    | next f =>
      rw [hf] at h
      have hfolded := fold_folded tokens tokens 0 _ f rfl (Nat.zero_le _) hstart hf
      dsimp only at h
      split at h
      · rename_i hne
        injection h with h
        subst h
        have hle := hfolded.start
        exact spans_append hfolded.spans f.instruction.Kind (le_refl _) hle (le_refl _)
          (by omega) (Or.inl (by omega)) (fun j t hj1 hj2 hj3 => hfolded.pending j t hj1 hj2 hj3)
      · injection h with h
        subst h
        exact spans_mono hfolded.spans hfolded.start
    | error err =>
      rw [hf] at h
      exact Result.noConfusion h
    | panic message =>
      rw [hf] at h
      exact Result.noConfusion h
  exact ⟨fun instr hi => ⟨hall.slices instr hi, (hall.bounded instr hi).1⟩, hall.ordered,
    hall.nonempty, hall.blocks⟩

/-- C21 at the tokens of an `if` with a call in its block: the three
statements `if x < 1`, `f()` and the end of the block, whose span is empty. -/
theorem FromTokens_spans_witness :
    FromTokens sample.ifBlock =
      .ok [{ Kind := .IfStart, Tokens := slice sample.ifBlock 0 4, Position := 0 },
        { Kind := .Call, Tokens := slice sample.ifBlock 6 9, Position := 6 },
        { Kind := .IfEnd, Tokens := [], Position := 10 }] ∧
    [({ Kind := .IfStart, Tokens := slice sample.ifBlock 0 4, Position := 0 } : Instruction),
      { Kind := .Call, Tokens := slice sample.ifBlock 6 9, Position := 6 },
      { Kind := .IfEnd, Tokens := [], Position := 10 }].Pairwise (fun a b =>
        a.Position + a.Tokens.length ≤ b.Position ∧ a.Position < b.Position) :=
  ⟨by decide,
    (FromTokens_spans sample.ifBlock
      [{ Kind := .IfStart, Tokens := slice sample.ifBlock 0 4, Position := 0 },
        { Kind := .Call, Tokens := slice sample.ifBlock 6 9, Position := 6 },
        { Kind := .IfEnd, Tokens := [], Position := 10 }] (by decide)).2.1⟩

end instruction

/-! ## C22: statements with unbalanced brackets -/

namespace instruction

/-- Inside an open call the loop reads on: tokens other than a closing
bracket, a brace and a comment leave the start, the instructions and the
instruction being built as they are. -/
theorem fold_open_call (tokens : List token.Token) :
    ∀ (args : List token.Token) (i : Nat) (f : Folding), f.instruction.Kind = .Call →
      f.start < i →
      (∀ a ∈ args, a.Kind ≠ .GroupEnd ∧ a.Kind ≠ .BlockStart ∧ a.Kind ≠ .BlockEnd ∧
        a.Kind ≠ .Comment) →
      ∃ g, fold tokens args i f = .next g ∧ g.instructions = f.instructions ∧
        g.start = f.start ∧ g.instruction = f.instruction := by
  intro args
  induction args with
  | nil => exact fun i f _ _ _ => ⟨f, rfl, rfl, rfl, rfl⟩
  | cons a rest ih =>
    intro i f hk hs hargs
    obtain ⟨h1, h2, h3, h4⟩ := hargs a (List.mem_cons_self _ _)
    have hrest : ∀ b ∈ rest, b.Kind ≠ .GroupEnd ∧ b.Kind ≠ .BlockStart ∧ b.Kind ≠ .BlockEnd ∧
        b.Kind ≠ .Comment := fun b hb => hargs b (List.mem_cons_of_mem _ hb)
    have hround : ∃ f2, round tokens i a f = .next f2 ∧ f2.instructions = f.instructions ∧
        f2.start = f.start ∧ f2.instruction = f.instruction := by
      unfold round
      cases hkind : a.Kind with
      | NewLine =>
        simp only [hk]
        rw [if_neg (by omega)]
        exact ⟨f, rfl, rfl, rfl, rfl⟩
      | Operator =>
        simp only [hk]
        exact ⟨f, by simp, rfl, rfl, rfl⟩
      | GroupStart =>
        simp only [hk]
        by_cases hg : f.groups + 1 = 1
        · exact ⟨{ f with groups := f.groups + 1 }, by simp [hg], rfl, rfl, rfl⟩
        · exact ⟨{ f with groups := f.groups + 1 }, by simp [hg], rfl, rfl, rfl⟩
      | Keyword =>
        simp only [hk]
        exact ⟨f, by simp, rfl, rfl, rfl⟩
      | GroupEnd => exact absurd hkind h1
      | BlockStart => exact absurd hkind h2
      | BlockEnd => exact absurd hkind h3
      | Comment => exact absurd hkind h4
      | Invalid => exact ⟨f, rfl, rfl, rfl, rfl⟩
      | Identifier => exact ⟨f, rfl, rfl, rfl, rfl⟩
      | Text => exact ⟨f, rfl, rfl, rfl, rfl⟩
      | Number => exact ⟨f, rfl, rfl, rfl, rfl⟩
      | Separator => exact ⟨f, rfl, rfl, rfl, rfl⟩
    obtain ⟨f2, hr, hi2, hs2, hk2⟩ := hround
    obtain ⟨g, hg1, hg2, hg3, hg4⟩ := ih (i + 1) f2 (by rw [hk2]; exact hk)
      (by rw [hs2]; omega) hrest
    refine ⟨g, ?_, hg2.trans hi2, hg3.trans hs2, hg4.trans hk2⟩
    unfold fold
    rw [hr]
    exact hg1

end instruction

/-- C22 (amended): a call whose opening bracket is never closed (a name, a
group-start and then tokens other than a group-end, a brace and a comment, up
to the end of the input) makes `FromTokens` succeed with one instruction of
kind `Call` that holds all the tokens, and `Call` of `State.go` reports
`Missing closing bracket ')'` for it; and an instruction that surfaces as
`Invalid` is reported by `State.Invalid` with the missing opening bracket when
it has fewer group-start than group-end tokens, with the missing closing
bracket when it has more, and as an invalid instruction otherwise. -/
theorem FromTokens_unclosed_call (parse : List token.Token → Except String Expression)
    (state : State) (name opening : token.Token) (args : List token.Token)
    (hname : name.Kind = .Identifier) (hopening : opening.Kind = .GroupStart)
    (hargs : ∀ a ∈ args, a.Kind ≠ .GroupEnd ∧ a.Kind ≠ .BlockStart ∧ a.Kind ≠ .BlockEnd ∧
      a.Kind ≠ .Comment) :
    instruction.FromTokens (name :: opening :: args)
      = .ok [{ Kind := .Call, Tokens := name :: opening :: args, Position := 0 }] ∧
    state.Call parse (name :: opening :: args)
      = (.error (state.Error "Missing closing bracket ')'"), state) ∧
    ∀ tokens : List token.Token,
      state.Invalid tokens =
        (.error (state.Error
          (if token.Count tokens .GroupStart < token.Count tokens .GroupEnd then
            "Missing opening bracket '('"
          else if token.Count tokens .GroupStart > token.Count tokens .GroupEnd then
            "Missing closing bracket ')'"
          else "Invalid instruction")), state) := by
  refine ⟨?_, ?_, fun tokens => ?_⟩
  · obtain ⟨g, hg1, hg2, hg3, hg4⟩ := instruction.fold_open_call (name :: opening :: args) args 2
      { instructions := [], start := 0,
        instruction := { Kind := .Call, Tokens := [], Position := 0 }, groups := 1,
        blocks := [] } rfl (by decide) hargs
    have hfold : instruction.fold (name :: opening :: args) (name :: opening :: args) 0
        { instructions := [], start := 0,
          instruction := { Kind := .Invalid, Tokens := [], Position := 0 }, groups := 0,
          blocks := [] } = .next g := by
      rw [← hg1]
      simp [instruction.fold, instruction.round, hname, hopening]
    unfold instruction.FromTokens
    simp only [hfold]
    simp [hg2, hg3, hg4, instruction.slice]
  · have hlast : ∀ last, (name :: opening :: args).getLast? = some last →
        last.Kind ≠ .GroupEnd := by
      intro last hl
      rw [List.getLast?_cons_cons] at hl
      rcases List.mem_cons.mp (List.mem_of_getLast?_eq_some hl) with h | h
      · rw [h, hopening]
        simp
      · exact (hargs last h).1
    unfold State.Call
    cases hl : (name :: opening :: args).getLast? with
    | none => simp at hl
    | some last =>
      simp only [List.getElem?_cons_zero, hname, ne_eq, not_true_eq_false, if_false,
        hlast last hl, not_false_eq_true, if_true]
  · unfold State.Invalid
    dsimp only
    split
    · rfl
    · split <;> rfl

/-- C22 (amended) at the unclosed call `f(1`. -/
theorem FromTokens_unclosed_call_witness :
    ((sample.token .Identifier 0 "f").Kind = .Identifier ∧
      (sample.token .GroupStart 1 "(").Kind = .GroupStart ∧
      ∀ a ∈ [sample.token .Number 2 "1"], a.Kind ≠ .GroupEnd ∧ a.Kind ≠ .BlockStart ∧
        a.Kind ≠ .BlockEnd ∧ a.Kind ≠ .Comment) ∧
    instruction.FromTokens sample.unclosedCall
      = .ok [{ Kind := .Call, Tokens := sample.unclosedCall, Position := 0 }] ∧
    (sample.state [0, 1, 2, 3] [0] (some 2)).Call sample.parse sample.unclosedCall
      = (.error ((sample.state [0, 1, 2, 3] [0] (some 2)).Error "Missing closing bracket ')'"),
        sample.state [0, 1, 2, 3] [0] (some 2)) :=
  ⟨⟨rfl, rfl, by decide⟩,
    (FromTokens_unclosed_call sample.parse (sample.state [0, 1, 2, 3] [0] (some 2))
      (sample.token .Identifier 0 "f") (sample.token .GroupStart 1 "(")
      [sample.token .Number 2 "1"] rfl rfl (by decide)).1,
    (FromTokens_unclosed_call sample.parse (sample.state [0, 1, 2, 3] [0] (some 2))
      (sample.token .Identifier 0 "f") (sample.token .GroupStart 1 "(")
      [sample.token .Number 2 "1"] rfl rfl (by decide)).2.1⟩

/-- C22 as stated fails: `FromTokens` succeeds on the unclosed call `f(1` and on
the line `x = (1`, each with one group-start and no group-end token, and
returns the first as an instruction of kind `Call` and the second as one of
kind `Assignment`. -/
theorem FromTokens_unbalanced_not_invalid :
    token.Count sample.unclosedCall .GroupStart = 1 ∧
    token.Count sample.unclosedCall .GroupEnd = 0 ∧
    instruction.FromTokens sample.unclosedCall
      = .ok [{ Kind := .Call, Tokens := sample.unclosedCall, Position := 0 }] ∧
    token.Count sample.assignUnclosed .GroupStart = 1 ∧
    token.Count sample.assignUnclosed .GroupEnd = 0 ∧
    instruction.FromTokens sample.assignUnclosed
      = .ok [{ Kind := .Assignment, Tokens := sample.assignUnclosed.take 4, Position := 0 }] := by
  decide

/-! ## C23: tokens that no statement holds -/

/-- C23 fails in the code: the comment token overwrites the kind of the
statement it follows (`FromTokens.go`, line 183), and the newline after a
comment drops the span without appending it (lines 26 to 28).  For the line
`x = 1 # c` `FromTokens` succeeds and returns no instruction: the identifier,
the operator and the number belong to no span. -/
theorem FromTokens_drops_statement :
    sample.assignThenComment.map (·.Kind)
      = [.Identifier, .Operator, .Number, .Comment, .NewLine] ∧
    instruction.FromTokens sample.assignThenComment = .ok [] := by
  decide

/-! ## C24: indices out of range in `FromTokens` -/

/-- C24 fails in the code: `FromTokens` panics with an index out of range on
every token list that begins with a group-start token (it reads
`tokens[i-1]` at `i = 0`, line 61) and on every token list that begins with a
block-end token (it reads the last element of the empty `blocks`, line
154). -/
theorem FromTokens_out_of_range :
    (∀ (t : token.Token) (rest : List token.Token), t.Kind = .GroupStart →
      instruction.FromTokens (t :: rest) = .panic indexOutOfRange) ∧
    ∀ (t : token.Token) (rest : List token.Token), t.Kind = .BlockEnd →
      instruction.FromTokens (t :: rest) = .panic indexOutOfRange := by
  refine ⟨fun t rest h => ?_, fun t rest h => ?_⟩
  · simp [instruction.FromTokens, instruction.fold, instruction.round, h]
  · simp [instruction.FromTokens, instruction.fold, instruction.round, h]

/-! ## C25: short conditions -/

/-- C25 fails in the code: `Condition` reads `condition[0]` and slices
`condition[2:]` without looking at the length of the condition.  With any
helpers, `IfStart` on the tokens `if` alone panics with an index out of range,
and on the tokens `if x`, with `x` in scope, it panics with slice bounds out of
range. -/
theorem IfStart_short_condition (lowering : Lowering) (state : State) :
    (∀ keyword : token.Token,
      (state.IfStart lowering [keyword]).1 = .panic indexOutOfRange) ∧
    ∀ (keyword x : token.Token) (v : Nat),
      (lowering.Expect state .Keyword).scopes.Get
        (lowering.Expect state .Keyword).variableStore x.Text = some v →
      (state.IfStart lowering [keyword, x]).1 = .panic sliceOutOfRange := by
  refine ⟨fun keyword => rfl, fun keyword x v hv => ?_⟩
  rw [State.IfStart_cons]
  unfold State.Condition
  simp only [List.getElem?_cons_zero]
  have hv2 : ScopeStack.Get (lowering.Expect state .Keyword).scopes
      (lowering.Expect state .Keyword).variableStore x.Text = some v := hv
  simp only [hv2, List.length_cons, List.length_nil]
  rfl

/-! ## C26: a new variable on its own right-hand side -/

/-- C26 fails in the code: `Assignment` declares the new variable (`State.go`,
lines 78 to 92) before it lowers the right-hand side (line 98), so the name is
found there.  With no `y` in scope, the assignment `y = y` returns no error,
whatever the parser, and emits nothing; and `y = y + 1` returns no error and
emits `AddRegisterNumber(0, 1)`, which reads the register of `y` before
anything was moved into it. -/
theorem Assignment_reads_new_variable :
    (sample.state [0, 1, 2, 3] [0] (some 2)).scopes.Get
      (sample.state [0, 1, 2, 3] [0] (some 2)).variableStore "y" = none ∧
    (∀ parse : List token.Token → Except String Expression,
      ((sample.state [0, 1, 2, 3] [0] (some 2)).Assignment parse sample.assignSelf).1 = .ok ∧
      ((sample.state [0, 1, 2, 3] [0] (some 2)).Assignment parse
        sample.assignSelf).2.assembler.Instructions = []) ∧
    ((sample.state [0, 1, 2, 3] [0] (some 2)).Assignment sample.parse
      sample.assignSelfPlus).1 = .ok ∧
    ((sample.state [0, 1, 2, 3] [0] (some 2)).Assignment sample.parse
      sample.assignSelfPlus).2.assembler.Instructions = [.AddRegisterNumber 0 1] :=
  ⟨by decide, fun _ => ⟨rfl, rfl⟩, by decide, by decide⟩

/-! ## C3: the parameter check of both paths -/

namespace State

/-- The cutting of the parameters changes the token cursor only; when it
succeeds the cursor has moved over all the tokens. -/
theorem splitParameters_cursor (rest : List token.Token) :
    ∀ (s : State) (parameters : List (List token.Token)) (current : List token.Token),
      (splitParameters rest s parameters current).2.1 =
          { s with tokenCursor := (splitParameters rest s parameters current).2.1.tokenCursor } ∧
        ((splitParameters rest s parameters current).1 = .ok →
          (splitParameters rest s parameters current).2.1.tokenCursor
            = s.tokenCursor + rest.length) := by
  induction rest with
  | nil => exact fun s _ _ => ⟨rfl, fun _ => rfl⟩
  | cons t rest ih =>
    intro s parameters current
    have hstep : ∀ (ps : List (List token.Token)) (cur : List token.Token),
        (splitParameters rest { s with tokenCursor := s.tokenCursor + 1 } ps cur).2.1 =
          { s with tokenCursor :=
            (splitParameters rest { s with tokenCursor := s.tokenCursor + 1 } ps cur).2.1.tokenCursor } ∧
        ((splitParameters rest { s with tokenCursor := s.tokenCursor + 1 } ps cur).1 = .ok →
          (splitParameters rest { s with tokenCursor := s.tokenCursor + 1 } ps cur).2.1.tokenCursor
            = s.tokenCursor + (t :: rest).length) := by
      intro ps cur
      obtain ⟨h1, h2⟩ := ih { s with tokenCursor := s.tokenCursor + 1 } ps cur
      refine ⟨h1, fun hok => ?_⟩
      rw [h2 hok]
      simp only [List.length_cons]
      omega
    unfold splitParameters
    split
    · split
      · exact ⟨rfl, fun h => Outcome.noConfusion h⟩
      · exact hstep _ _
    · split
      · exact hstep _ _
      · exact hstep _ _
    · exact hstep _ _

/-- The parameter check of `Call` in `State.go`: with the check in force and a
number of parameters that is not the declared one, the error is the message
`Too few arguments` or `Too many arguments` at the token position, and the
state is the one it was. -/
theorem callParameters_count (parse : List token.Token → Except String Expression)
    (state : State) (functionName : String) (function : Nat) (isBuiltin : Bool)
    (parameters : List (List token.Token))
    (hcheck : (state.functionStore function).NoParameterCheck = false)
    (hcount : parameters.length ≠ (state.functionStore function).Parameters.length) :
    state.callParameters parse functionName function isBuiltin parameters =
      (.error (.At state.tokenCursor
        (if parameters.length < (state.functionStore function).Parameters.length then
          "Too few arguments in '" ++ (state.functionStore function).Name ++ "' call"
        else "Too many arguments in '" ++ (state.functionStore function).Name ++ "' call")),
        state) := by
  unfold callParameters
  by_cases hlt : parameters.length < (state.functionStore function).Parameters.length
  · simp [hcheck, hlt, State.Error]
  · have hgt : parameters.length > (state.functionStore function).Parameters.length := by omega
    simp [hcheck, hlt, hgt, State.Error]

/-- The method `Call` of `State.go` up to the parameter check. -/
theorem Call_split (parse : List token.Token → Except String Expression)
    (state state1 : State) (tokens : List token.Token) (firstToken lastToken : token.Token)
    (function : Nat) (isBuiltin : Bool) (parameters : List (List token.Token))
    (hfirst : tokens[0]? = some firstToken) (hlast : tokens.getLast? = some lastToken)
    (hname : firstToken.Kind = .Identifier) (hclosed : lastToken.Kind = .GroupEnd)
    (hfound : state.findFunction firstToken.Text = (some function, isBuiltin))
    (hsplit : splitParameters (tokens.drop 2) { state with tokenCursor := state.tokenCursor + 1 }
      [] [] = (.ok, state1, parameters)) :
    state.Call parse tokens
      = state1.callParameters parse firstToken.Text function isBuiltin parameters := by
  unfold Call
  simp only [hfirst, hlast, hname, hclosed, ne_eq, not_true_eq_false, if_false, hfound, hsplit]

end State


/-- C3, amended: for a callee without the `NoParameterCheck` flag and a number
of arguments that is not the number of its declared parameters, both paths
fail before anything is emitted.  `CallExpression` (`Call.go`) returns the
error `ParameterCount` carrying the callee's name, the count given and the
count required, and the assembler (instructions and strings) is the one before
the call.  `Call` (`State.go`), once the call has a name, a closing bracket, a
known callee and its parameters are cut, returns the message `Too few
arguments in '<name>' call` or `Too many arguments in '<name>' call` at the
token position, which carries no count; it is no `ParameterCount`, the token
cursor has moved over the tokens of the call, and the rest of the state, the
assembler in it, is the one before the call. -/
theorem Call_parameter_count (parse : List token.Token → Except String Expression) :
    (∀ (state : State) (expr : Expression) (function : Nat) (isBuiltin : Bool),
      state.findFunction expr.Token.Text = (some function, isBuiltin) →
      (state.functionStore function).NoParameterCheck = false →
      expr.Children.length ≠ (state.functionStore function).Parameters.length →
      (state.CallExpression expr).1 =
        .error (.ParameterCount (state.functionStore function).Name expr.Children.length
          (state.functionStore function).Parameters.length) ∧
      (state.CallExpression expr).2.assembler = state.assembler) ∧
    (∀ (state state1 : State) (tokens : List token.Token) (firstToken lastToken : token.Token)
      (function : Nat) (isBuiltin : Bool) (parameters : List (List token.Token)),
      tokens[0]? = some firstToken → tokens.getLast? = some lastToken →
      firstToken.Kind = .Identifier → lastToken.Kind = .GroupEnd →
      state.findFunction firstToken.Text = (some function, isBuiltin) →
      State.splitParameters (tokens.drop 2)
        { state with tokenCursor := state.tokenCursor + 1 } [] [] = (.ok, state1, parameters) →
      (state.functionStore function).NoParameterCheck = false →
      parameters.length ≠ (state.functionStore function).Parameters.length →
      state.Call parse tokens =
        (.error (.At (state.tokenCursor + 1 + (tokens.drop 2).length)
          (if parameters.length < (state.functionStore function).Parameters.length then
            "Too few arguments in '" ++ (state.functionStore function).Name ++ "' call"
          else "Too many arguments in '" ++ (state.functionStore function).Name ++ "' call")),
          { state with tokenCursor := state.tokenCursor + 1 + (tokens.drop 2).length }) ∧
      (state.Call parse tokens).2.assembler = state.assembler ∧
      ∀ name given required,
        (state.Call parse tokens).1 ≠ .error (.ParameterCount name given required)) := by
  refine ⟨fun state expr function isBuiltin hfound hcheck hcount =>
      State.CallExpression_count_error state expr function isBuiltin hfound hcheck hcount,
    fun state state1 tokens firstToken lastToken function isBuiltin parameters hfirst hlast
      hname hclosed hfound hsplit hcheck hcount => ?_⟩
  obtain ⟨h1, h2⟩ := State.splitParameters_cursor (tokens.drop 2)
    { state with tokenCursor := state.tokenCursor + 1 } [] []
  rw [hsplit] at h1 h2
  have hcursor : state1.tokenCursor = state.tokenCursor + 1 + (tokens.drop 2).length :=
    h2 rfl
  have hstate : state1 =
      { state with tokenCursor := state.tokenCursor + 1 + (tokens.drop 2).length } := by
    rw [← hcursor]
    exact h1
  have hstore : state1.functionStore = state.functionStore := by rw [hstate]
  have hcall := State.Call_split parse state state1 tokens firstToken lastToken function
    isBuiltin parameters hfirst hlast hname hclosed hfound hsplit
  rw [State.callParameters_count parse state1 firstToken.Text function isBuiltin parameters
    (by rw [hstore]; exact hcheck) (by rw [hstore]; exact hcount), hstore, hcursor] at hcall
  rw [hcall]
  refine ⟨?_, ?_, fun name given required h => ?_⟩
  · rw [hstate]
  · show state1.assembler = state.assembler
    rw [hstate]
  · injection h with h
    exact build.Error.noConfusion h

/-- C3 at the call `f()` of the one-parameter function `f`, as an expression
and as the tokens of a statement. -/
theorem Call_parameter_count_witness :
    (((sample.state [0, 1, 2, 3] [0] none).CallExpression (sample.call 0 "f" [] none)).1 =
        .error (.ParameterCount "f" 0 1) ∧
      ((sample.state [0, 1, 2, 3] [0] none).CallExpression
        (sample.call 0 "f" [] none)).2.assembler = { Instructions := [], Strings := [] }) ∧
    ((sample.state [0, 1, 2, 3] [0] none).Call sample.parse sample.callNone =
        (.error (.At 2 "Too few arguments in 'f' call"),
          { sample.state [0, 1, 2, 3] [0] none with tokenCursor := 2 }) ∧
      ((sample.state [0, 1, 2, 3] [0] none).Call sample.parse sample.callNone).2.assembler
        = { Instructions := [], Strings := [] } ∧
      ∀ name given required,
        ((sample.state [0, 1, 2, 3] [0] none).Call sample.parse sample.callNone).1
          ≠ .error (.ParameterCount name given required)) :=
  ⟨(Call_parameter_count sample.parse).1 (sample.state [0, 1, 2, 3] [0] none)
      (sample.call 0 "f" [] none) 4 false (by decide) (by decide) (by decide),
    (Call_parameter_count sample.parse).2 (sample.state [0, 1, 2, 3] [0] none)
      (State.splitParameters (sample.callNone.drop 2)
        { sample.state [0, 1, 2, 3] [0] none with tokenCursor := 1 } [] []).2.1
      sample.callNone (sample.token .Identifier 0 "f") (sample.token .GroupEnd 2 ")") 4 false []
      rfl rfl rfl rfl (by decide) (Prod.ext (by decide) (Prod.ext rfl (by decide)))
      (by decide) (by decide)⟩

/-- C3 fails as worded on the path of `State.go`: `f` has one parameter and no
`NoParameterCheck` flag; the statement `f()` fails in `Call` with the message
`Too few arguments in 'f' call` at position 2 and the statement `f(1, 2)` with
`Too many arguments in 'f' call` at position 5; neither error is a
`ParameterCount`, neither carries the count given or the count required; and
nothing is emitted. -/
theorem Call_reports_no_counts :
    ((sample.state [0, 1, 2, 3] [0] none).functionStore 4).NoParameterCheck = false ∧
    ((sample.state [0, 1, 2, 3] [0] none).functionStore 4).Parameters.length = 1 ∧
    (sample.state [0, 1, 2, 3] [0] none).findFunction "f" = (some 4, false) ∧
    ((sample.state [0, 1, 2, 3] [0] none).Call sample.parse sample.callNone).1
      = .error (.At 2 "Too few arguments in 'f' call") ∧
    ((sample.state [0, 1, 2, 3] [0] none).Call sample.parse sample.callTwo).1
      = .error (.At 5 "Too many arguments in 'f' call") ∧
    (∀ name given required,
      ((sample.state [0, 1, 2, 3] [0] none).Call sample.parse sample.callNone).1
        ≠ .error (.ParameterCount name given required)) ∧
    (∀ name given required,
      ((sample.state [0, 1, 2, 3] [0] none).Call sample.parse sample.callTwo).1
        ≠ .error (.ParameterCount name given required)) ∧
    ((sample.state [0, 1, 2, 3] [0] none).Call sample.parse sample.callNone).2.assembler
      = { Instructions := [], Strings := [] } ∧
    ((sample.state [0, 1, 2, 3] [0] none).Call sample.parse sample.callTwo).2.assembler
      = { Instructions := [], Strings := [] } := by
  have h1 : ((sample.state [0, 1, 2, 3] [0] none).Call sample.parse sample.callNone).1
      = .error (.At 2 "Too few arguments in 'f' call") := by decide
  have h2 : ((sample.state [0, 1, 2, 3] [0] none).Call sample.parse sample.callTwo).1
      = .error (.At 5 "Too many arguments in 'f' call") := by decide
  refine ⟨by decide, by decide, by decide, h1, h2, fun name given required h => ?_,
    fun name given required h => ?_, by decide, by decide⟩
  · rw [h1] at h
    injection h with h
    exact build.Error.noConfusion h
  · rw [h2] at h
    injection h with h
    exact build.Error.noConfusion h

end build
